import Mathlib

/-!
# Struct2 index (`DataStructure.cpp`): shallow embedding and verified properties

The C++ class `DataStructure` keeps a singly linked list of `HEADER_C` nodes
(one per first-word initial), each owning an array of `ALPHA = 26` singly linked
lists of `ITEM2` records (one per second-word initial).

Conventions of the embedding:

* a `char` is the value of its byte, a `Nat` in `0 .. 255`; a C string is the list
  of its bytes before the terminating NUL, so a `char*` is an `Option (List Nat)`
  (`none` is the null pointer);
* a linked list (`pNext`) is a Lean `List`; a pointer to a node of the header list
  is the position of that node in the list;
* an operation that throws returns the state it leaves behind together with the
  exception, because `operator+=` and `operator-=` mutate the object in place;
* heap ownership (deep copies, `delete`) is invisible at the level of values.
-/

/-! ## Data model -/

/-- Modelled from the spec: `TIME` is declared in `Items.h`, which is not part of the
sources at hand; the code reads its fields `Hour`, `Min`, `Sec` and the spec describes a
fixed-size triple {hour, minute, second}.  Each field is a C `int`. -/
structure TIME where
  Hour : Int
  Min : Int
  Sec : Int
deriving DecidableEq, Repr

/-- Modelled from the spec: `ITEM2` is declared in `Items.h`; the code uses `pID`
(a C string), `Code` (written with `sizeof(item->Code)`, read back as `uint32_t`; the
spec calls it a 32-bit integer), `pTime` (null when the record has no time) and `pNext`,
which is the tail of the Lean list holding the record. -/
structure ITEM2 where
  pID : Option (List Nat)
  Code : Nat
  pTime : Option TIME
deriving DecidableEq, Repr

/-- Number of buckets of a header: `static const int ALPHA = 26`. -/
def ALPHA : Nat := 26

/-- Modelled from the spec: `HEADER_C` is declared in `Headers.h`; the code uses `cBegin`,
`ppItems` (always allocated by `makeHeader` as `new void*[ALPHA]`, hence the length field)
and `pNext`, which is the tail of the Lean list holding the header. -/
structure HEADER_C where
  cBegin : Nat
  ppItems : List (List ITEM2)
  alpha : ppItems.length = ALPHA
deriving DecidableEq

/-- The object: its only data member is `pStruct2`, the head of the header list. -/
structure DataStructure where
  pStruct2 : List HEADER_C
deriving DecidableEq

/-- The `std::runtime_error`s thrown by the code, one constructor per message, and a
marker for the one place where the code runs into undefined behaviour. -/
inductive Error where
  /-- Message "Null item pointer". -/
  | nullItem
  /-- Message "ID is null". -/
  | idIsNull
  /-- Message "ID must contain two words separated by space". -/
  | idNotTwoWords
  /-- Message "Item with this ID already exists". -/
  | itemExists
  /-- Message "Invalid ID: second word initial not a letter". -/
  | secondInitialNotLetter
  /-- Message "No item with the specified ID exists". -/
  | noSuchItem
  /-- Message "Data structure is empty". -/
  | structureEmpty
  /-- Message "Invalid file format". -/
  | invalidFileFormat
  /-- Message "Corrupt file: invalid ID length". -/
  | corruptIdLength
  /-- Message "Corrupt file while reading item". -/
  | corruptItem
  /-- Not an exception but undefined behaviour: the reading constructor copies `idLength`
  bytes into the buffer `new char[idLength + 1]`, whose size is computed in `uint32_t` and
  has wrapped around, so the copy writes past the end of the buffer. -/
  | idBufferOverrun
deriving DecidableEq, Repr

/-- The failure classes named by the specification, and one more for behaviour that the
language leaves undefined. -/
inductive ErrorClass where
  | InvalidIdentifier
  | DuplicateIdentifier
  | NotFound
  | CorruptFile
  | EmptyStructure
  | UndefinedBehaviour
deriving DecidableEq, Repr

/-- Which class of the specification each thrown error belongs to. -/
def Error.kind : Error → ErrorClass
  | .nullItem => .InvalidIdentifier
  | .idIsNull => .InvalidIdentifier
  | .idNotTwoWords => .InvalidIdentifier
  | .secondInitialNotLetter => .InvalidIdentifier
  | .itemExists => .DuplicateIdentifier
  | .noSuchItem => .NotFound
  | .structureEmpty => .EmptyStructure
  | .invalidFileFormat => .CorruptFile
  | .corruptIdLength => .CorruptFile
  | .corruptItem => .CorruptFile
  | .idBufferOverrun => .UndefinedBehaviour

/-- What a mutating member function leaves behind: the object after the call and the
exception it threw, if any. -/
structure Outcome where
  state : DataStructure
  thrown : Option Error
deriving DecidableEq

/-! ## Helpers of the anonymous namespace -/

/-- The value of the `char` whose byte is `c`: `char` is signed on the platform the code
is written for (MSVC, `strcpy_s`), so the bytes `128 .. 255` are the values `-128 .. -1`.
This is the order used by `current->cBegin < firstLetter`. -/
def charValue (c : Nat) : Int := if 128 ≤ c ∧ c < 256 then (c : Int) - 256 else (c : Int)

/-- Library function `std::toupper` on an `unsigned char` in the "C" locale. -/
def toupper (c : Nat) : Nat := if 97 ≤ c ∧ c ≤ 122 then c - 32 else c

/-- Source `alphaIndex`: maps a letter to `0 .. 25`; `none` stands for the result `-1`. -/
def alphaIndex (c : Nat) : Option Nat :=
  let upperCaseChar := toupper c
  if 65 ≤ upperCaseChar ∧ upperCaseChar ≤ 90 then some (upperCaseChar - 65) else none

/-- Library function `std::strchr(s, ch)` as the offset of the leftmost occurrence of `ch`. -/
def strchr : List Nat → Nat → Option Nat
  | [], _ => none
  | c :: rest, ch => if c = ch then some 0 else (strchr rest ch).map (· + 1)

/-- The `char` at offset `i` of a C string; the terminating NUL past its last byte. -/
def charAt (s : List Nat) (i : Nat) : Nat := s.getD i 0

/-- Source `parseID`: the first byte of the id and the byte after its leftmost space. -/
def parseID (id : Option (List Nat)) : Except Error (Nat × Nat) :=
  match id with
  | none => .error .idIsNull
  | some s =>
    match strchr s 32 with
    | none => .error .idNotTwoWords
    | some spacePosition =>
      if spacePosition = 0 ∨ charAt s (spacePosition + 1) = 0 then .error .idNotTwoWords
      else .ok (charAt s 0, charAt s (spacePosition + 1))

/-- Source `makeHeader`: a header for `firstLetter` with `ALPHA` empty buckets. -/
def makeHeader (firstLetter : Nat) : HEADER_C :=
  ⟨firstLetter, List.replicate ALPHA [], List.length_replicate ALPHA []⟩

/-- The list `header->ppItems[bucketIndex]`. -/
def HEADER_C.bucket (header : HEADER_C) (bucketIndex : Nat) : List ITEM2 :=
  header.ppItems.getD bucketIndex []

/-- The assignment `header->ppItems[bucketIndex] = items`. -/
def HEADER_C.setBucket (header : HEADER_C) (bucketIndex : Nat) (items : List ITEM2) :
    HEADER_C :=
  ⟨header.cBegin, header.ppItems.set bucketIndex items,
    (List.length_set header.ppItems bucketIndex items).trans header.alpha⟩

/-- The loop of `findHeader`: how many nodes are passed while
`current && current->cBegin < firstLetter`. -/
def findHeaderLoop : List HEADER_C → Nat → Nat
  | [], _ => 0
  | current :: rest, firstLetter =>
    if charValue current.cBegin < charValue firstLetter then findHeaderLoop rest firstLetter + 1
    else 0

/-- Source `findHeader`: the position of the header for `firstLetter` (`none` for
`nullptr`) and the position of the node before the place the loop stopped at
(`*previousHeader`, `none` for `nullptr`). -/
def findHeader (head : List HEADER_C) (firstLetter : Nat) : Option Nat × Option Nat :=
  let stop := findHeaderLoop head firstLetter
  let previous := if stop = 0 then none else some (stop - 1)
  match head.get? stop with
  | some current => if current.cBegin = firstLetter then (some stop, previous) else (none, previous)
  | none => (none, previous)

/-- Source `insertHeaderSorted`: link `newHeader` at the head, or right after the node at
position `previous`. -/
def insertHeaderSorted (head : List HEADER_C) (previous : Option Nat) (newHeader : HEADER_C) :
    List HEADER_C :=
  match previous with
  | none => newHeader :: head
  | some p => head.take (p + 1) ++ newHeader :: head.drop (p + 1)

/-- Source `cloneItem2`: a deep copy of the id, the code and the optional time. -/
def cloneItem2 (sourceItem : ITEM2) : ITEM2 :=
  { pID := sourceItem.pID, Code := sourceItem.Code, pTime := sourceItem.pTime }

/-! ## Member functions -/

/-- The default constructor: no header. -/
def DataStructure.empty : DataStructure := ⟨[]⟩

/-- The records of a header in traversal order: bucket 0 to 25, each from head to tail. -/
def HEADER_C.items (header : HEADER_C) : List ITEM2 := header.ppItems.flatten

/-- The records of the object in traversal order: header list order, then bucket 0 to 25,
then each list from head to tail (the triple loop shared by `GetItemsNumber`,
`operator==`, `Write` and `operator<<`). -/
def DataStructure.items (self : DataStructure) : List ITEM2 :=
  (self.pStruct2.map HEADER_C.items).flatten

/-- Source `DataStructure::GetItemsNumber`. -/
def DataStructure.GetItemsNumber (self : DataStructure) : Nat :=
  (self.pStruct2.map fun header => (header.ppItems.map List.length).sum).sum

/-- The scan `while (currentItem) { if (strcmp(currentItem->pID, pID) == 0) return ... }`. -/
def scanBucket : List ITEM2 → List Nat → Option ITEM2
  | [], _ => none
  | currentItem :: rest, pID =>
    if currentItem.pID = some pID then some currentItem else scanBucket rest pID

/-- Source `DataStructure::GetItem`: the stored record with the given id, `none` for
`nullptr`. -/
def DataStructure.GetItem (self : DataStructure) (pID : Option (List Nat)) : Option ITEM2 :=
  match pID with
  | none => none
  | some s =>
    match parseID (some s) with
    | .error _ => none
    | .ok (firstLetter, secondLetter) =>
      match (findHeader self.pStruct2 firstLetter).1 with
      | none => none
      | some position =>
        match alphaIndex secondLetter with
        | none => none
        | some bucketIndex =>
          match self.pStruct2.get? position with
          | none => none
          | some header => scanBucket (header.bucket bucketIndex) s

/-- A write through the pointer `header`: the node at `position` of the header list is
replaced by `f` of it, the links are untouched. -/
def updateHeader : List HEADER_C → Nat → (HEADER_C → HEADER_C) → List HEADER_C
  | [], _, _ => []
  | header :: rest, 0, f => f header :: rest
  | header :: rest, position + 1, f => header :: updateHeader rest position f

/-- Lines 336-341 of `operator+=`: `findHeader`, and when it returns `nullptr` a fresh
header from `makeHeader` linked by `insertHeaderSorted`.  The result is the header list
afterwards and the position of `header` in it. -/
def ensureHeader (head : List HEADER_C) (firstLetter : Nat) : List HEADER_C × Nat :=
  let found := findHeader head firstLetter
  let previousHeader := found.2
  match found.1 with
  | some position => (head, position)
  | none =>
    (insertHeaderSorted head previousHeader (makeHeader firstLetter),
      match previousHeader with
      | none => 0
      | some q => q + 1)

/-- Source `DataStructure::operator+=`. -/
def DataStructure.operatorPlusEq (self : DataStructure) (p : Option ITEM2) : Outcome :=
  match p with
  | none => ⟨self, some .nullItem⟩
  | some sourceItem =>
    match parseID sourceItem.pID with
    | .error e => ⟨self, some e⟩
    | .ok (firstLetter, secondLetter) =>
      if (self.GetItem sourceItem.pID).isSome then ⟨self, some .itemExists⟩
      else
        let linked := ensureHeader self.pStruct2 firstLetter
        match alphaIndex secondLetter with
        | none => ⟨⟨linked.1⟩, some .secondInitialNotLetter⟩
        | some bucketIndex =>
          ⟨⟨updateHeader linked.1 linked.2 fun header =>
              header.setBucket bucketIndex (cloneItem2 sourceItem :: header.bucket bucketIndex)⟩,
            none⟩

/-- The unlinking scan of `operator-=`: the bucket without its first record whose id is
`pID`, or `none` when the scan reaches the end of the list. -/
def unlinkItem : List ITEM2 → List Nat → Option (List ITEM2)
  | [], _ => none
  | currentItem :: rest, pID =>
    if currentItem.pID = some pID then some rest
    else (unlinkItem rest pID).map (currentItem :: ·)

/-- The check `isHeaderEmpty`: every one of the bucket heads is null. -/
def HEADER_C.isHeaderEmpty (header : HEADER_C) : Bool :=
  header.ppItems.all List.isEmpty

/-- Source `DataStructure::operator-=`. -/
def DataStructure.operatorMinusEq (self : DataStructure) (pID : Option (List Nat)) : Outcome :=
  match parseID pID with
  | .error e => ⟨self, some e⟩
  | .ok (firstLetter, secondLetter) =>
    let found := findHeader self.pStruct2 firstLetter
    match found.1 with
    | none => ⟨self, some .noSuchItem⟩
    | some position =>
      match alphaIndex secondLetter with
      | none => ⟨self, some .noSuchItem⟩
      | some bucketIndex =>
        match self.pStruct2.get? position with
        | none => ⟨self, some .noSuchItem⟩
        | some header =>
          match unlinkItem (header.bucket bucketIndex) (pID.getD []) with
          | none => ⟨self, some .noSuchItem⟩
          | some remaining =>
            let header1 := header.setBucket bucketIndex remaining
            if header1.isHeaderEmpty then
              match found.2 with
              | none => ⟨⟨self.pStruct2.drop (position + 1)⟩, none⟩
              | some q =>
                ⟨⟨self.pStruct2.take (q + 1) ++ self.pStruct2.drop (position + 1)⟩, none⟩
            else ⟨⟨updateHeader self.pStruct2 position fun _ => header1⟩, none⟩

/-- The comparison of two records made by `operator==` once the id is matched. -/
def sameCodeAndTime (itemA itemB : ITEM2) : Bool :=
  if itemA.Code ≠ itemB.Code then false
  else if itemA.pTime.isSome ≠ itemB.pTime.isSome then false
  else
    match itemA.pTime, itemB.pTime with
    | some timeA, some timeB =>
      if timeA.Hour ≠ timeB.Hour ∨ timeA.Min ≠ timeB.Min ∨ timeA.Sec ≠ timeB.Sec then false
      else true
    | _, _ => true

/-- Source `DataStructure::operator==`. -/
def DataStructure.operatorEqEq (self other : DataStructure) : Bool :=
  if self.GetItemsNumber ≠ other.GetItemsNumber then false
  else
    self.items.all fun itemA =>
      match other.GetItem itemA.pID with
      | none => false
      | some itemB => sameCodeAndTime itemA itemB

/-- The copy of one bucket made by the copy constructor: clones appended at the tail. -/
def copyBucket : List ITEM2 → List ITEM2
  | [] => []
  | sourceItem :: rest => cloneItem2 sourceItem :: copyBucket rest

/-- The copy of one header made by the copy constructor. -/
def copyHeader (sourceHeader : HEADER_C) : HEADER_C :=
  ⟨(makeHeader sourceHeader.cBegin).cBegin, sourceHeader.ppItems.map copyBucket,
    (List.length_map sourceHeader.ppItems copyBucket).trans sourceHeader.alpha⟩

/-- Source copy constructor `DataStructure(const DataStructure&)`. -/
def DataStructure.copy (Original : DataStructure) : DataStructure :=
  ⟨Original.pStruct2.map copyHeader⟩

/-! ## Binary codec -/

/-- A `uint32_t` as its four bytes in memory (little-endian host); the value is taken
modulo `2^32`, which is what `static_cast<uint32_t>` does. -/
def u32Bytes (n : Nat) : List Nat :=
  [n % 256, n / 256 % 256, n / 65536 % 256, n / 16777216 % 256]

/-- The `uint32_t` stored in four bytes of memory. -/
def u32OfBytes (bytes : List Nat) : Nat :=
  bytes.getD 0 0 + 256 * bytes.getD 1 0 + 65536 * bytes.getD 2 0 + 16777216 * bytes.getD 3 0

/-- The bit pattern of a C `int`. -/
def intBits (v : Int) : Nat := (v % 4294967296).toNat

/-- The C `int` with a given 32-bit pattern. -/
def intOfBits (n : Nat) : Int := if n < 2147483648 then (n : Int) else (n : Int) - 4294967296

/-- Modelled from the spec: the memory image of a `TIME` (declared in `Items.h`), three
`int` fields in declaration order without padding, `sizeof(TIME) = 12`. -/
def timeBytes (t : TIME) : List Nat :=
  u32Bytes (intBits t.Hour) ++ u32Bytes (intBits t.Min) ++ u32Bytes (intBits t.Sec)

/-- Modelled from the spec: the `TIME` whose memory image is the given 12 bytes. -/
def timeOfBytes (bytes : List Nat) : TIME :=
  { Hour := intOfBits (u32OfBytes (bytes.take 4)),
    Min := intOfBits (u32OfBytes ((bytes.drop 4).take 4)),
    Sec := intOfBits (u32OfBytes ((bytes.drop 8).take 4)) }

/-- Modelled from the spec: `sizeof(TIME)`. -/
def sizeofTIME : Nat := 12

/-- Modelled from the spec: the memory image of `item->Code` (declared in `Items.h`), a
32-bit integer, `sizeof(item->Code) = 4`. -/
def codeBytes (code : Nat) : List Nat := u32Bytes code

/-- The bytes `Write` emits for one record. -/
def writeItem (item : ITEM2) : List Nat :=
  let id := item.pID.getD []
  let idLength := id.length % 4294967296
  u32Bytes idLength ++ id.take idLength ++ codeBytes item.Code ++
    (match item.pTime with
     | some t => 1 :: timeBytes t
     | none => [0])

/-- Source `DataStructure::Write`, as the content of the file it produces (opening the
file is assumed to succeed). -/
def DataStructure.Write (self : DataStructure) : Except Error (List Nat) :=
  let totalItems := self.GetItemsNumber
  if totalItems = 0 then .error .structureEmpty
  else
    .ok (u32Bytes 0x53324453 ++ u32Bytes 1 ++ u32Bytes totalItems ++
      (self.items.map writeItem).flatten)

/-- A `std::ifstream` opened on a file: the bytes not yet consumed and whether the
stream is still good (`!inputFile` is `!good`). -/
structure IStream where
  data : List Nat
  good : Bool
deriving DecidableEq

/-- The call `inputFile.read(buffer, n)`: the `n` bytes stored in the buffer when they
are all available; otherwise, or when the stream has already failed, the stream is
failed, the buffer is not used by the caller and `none` is returned. -/
def IStream.read (s : IStream) (n : Nat) : Option (List Nat) × IStream :=
  if s.good = true ∧ n ≤ s.data.length then (some (s.data.take n), ⟨s.data.drop n, true⟩)
  else (none, ⟨s.data, false⟩)

/-- The C string held by a buffer that is followed by a NUL: its bytes up to the first
NUL. -/
def cString (buffer : List Nat) : List Nat := buffer.takeWhile (· ≠ 0)

/-- The loop of the reading constructor, `remaining` iterations to go.  `idLength` is a
`uint32_t`, so the size `idLength + 1` of the buffer allocated for the id is computed
modulo `2^32`; when it wraps, the `memcpy` of `idLength` bytes and the store of the
terminator run past the buffer, which is reported as `idBufferOverrun`. -/
def readItems : Nat → IStream → DataStructure → Except Error DataStructure
  | 0, _, self => .ok self
  | remaining + 1, inputFile, self =>
    let r1 := inputFile.read 4
    let idLength := match r1.1 with
      | some bytes => u32OfBytes bytes
      | none => 0
    if r1.2.good = false ∨ idLength = 0 then .error .corruptIdLength
    else
      let r2 := r1.2.read idLength
      let idString := r2.1.getD (List.replicate idLength 0)
      let r3 := r2.2.read 4
      let itemCode := match r3.1 with
        | some bytes => u32OfBytes bytes
        | none => 0
      let r4 := r3.2.read 1
      let hasTimeFlag := match r4.1 with
        | some bytes => bytes.getD 0 0
        | none => 0
      let r5 := if hasTimeFlag ≠ 0 then r4.2.read sizeofTIME else (none, r4.2)
      let timeStruct := match r5.1 with
        | some bytes => timeOfBytes bytes
        | none => ⟨0, 0, 0⟩
      if r5.2.good = false then .error .corruptItem
      else
        let bufferSize := (idLength + 1) % 4294967296
        if bufferSize < idLength + 1 then .error .idBufferOverrun
        else
          let newItem : ITEM2 :=
            { pID := some (cString idString), Code := itemCode,
              pTime := if hasTimeFlag ≠ 0 then some timeStruct else none }
          let added := self.operatorPlusEq (some newItem)
          match added.thrown with
          | some e => .error e
          | none => readItems remaining r5.2 added.state

/-- Source reading constructor `DataStructure(std::string Filename)`, applied to the
content of the file (opening the file is assumed to succeed). -/
def DataStructure.read (file : List Nat) : Except Error DataStructure :=
  let inputFile : IStream := ⟨file, true⟩
  let r0 := inputFile.read 12
  let header := r0.1.getD (List.replicate 12 0)
  let magic := u32OfBytes (header.take 4)
  let version := u32OfBytes ((header.drop 4).take 4)
  let count := u32OfBytes ((header.drop 8).take 4)
  if r0.2.good = false ∨ magic ≠ 0x53324453 ∨ version ≠ 1 then .error .invalidFileFormat
  else readItems count r0.2 DataStructure.empty

/-! ## Representation invariant and reachable objects -/

/-- A record sits where its id sends it: its id is a non-null string that `parseID`
accepts, with first initial `c` and a second initial that `alphaIndex` maps to `i`. -/
def Placed (c i : Nat) (r : ITEM2) : Prop :=
  ∃ s c2, r.pID = some s ∧ parseID (some s) = .ok (c, c2) ∧ alphaIndex c2 = some i

/-- The representation invariant: headers strictly increasing by `cBegin`, every record
in the bucket of the header its id selects, no id stored twice. -/
structure RepInv (x : DataStructure) : Prop where
  sorted : x.pStruct2.Pairwise fun a b => charValue a.cBegin < charValue b.cBegin
  placed : ∀ h ∈ x.pStruct2, ∀ i, ∀ r ∈ h.bucket i, Placed h.cBegin i r
  unique : (x.items.map ITEM2.pID).Nodup

/-- The objects a client can obtain: default construction, then any calls of
`operator+=` and `operator-=` (whether they throw or not), copy construction, and the
reading constructor when it does not throw. -/
inductive Reachable : DataStructure → Prop
  | empty : Reachable DataStructure.empty
  | insert {x : DataStructure} (p : Option ITEM2) :
      Reachable x → Reachable (x.operatorPlusEq p).state
  | remove {x : DataStructure} (pID : Option (List Nat)) :
      Reachable x → Reachable (x.operatorMinusEq pID).state
  | copy {x : DataStructure} : Reachable x → Reachable x.copy
  | read {y : DataStructure} (file : List Nat) :
      DataStructure.read file = .ok y → Reachable y

/-! ## Records the file format can hold -/

/-- The fields of a `TIME` are C `int`s. -/
def TIME.inRange (t : TIME) : Bool :=
  decide (-2147483648 ≤ t.Hour ∧ t.Hour < 2147483648) &&
    decide (-2147483648 ≤ t.Min ∧ t.Min < 2147483648) &&
    decide (-2147483648 ≤ t.Sec ∧ t.Sec < 2147483648)

/-- A record as the machine holds it and the file format can carry it: the id is a
C string (non-null, bytes `1 .. 255`) shorter than `2^32` bytes, the code fits in 32 bits,
and the fields of the time, when there is one, are C `int`s. -/
def ITEM2.representable (r : ITEM2) : Bool :=
  (match r.pID with
    | some s => s.all (fun c => decide (0 < c ∧ c < 256)) && decide (s.length < 4294967296)
    | none => false) &&
    decide (r.Code < 4294967296) &&
    (match r.pTime with
      | some t => t.inRange
      | none => true)

/-- A representable record that the reading constructor can take in: the id together with
its terminator fits the 32-bit size of the buffer allocated for it. -/
def ITEM2.readable (r : ITEM2) : Bool :=
  r.representable &&
    (match r.pID with
      | some s => decide (s.length + 1 < 4294967296)
      | none => false)

/-! ## Sample data (the scenarios of the specification) -/

/-- The id "Alice Smith". -/
def idAliceSmith : List Nat := [65, 108, 105, 99, 101, 32, 83, 109, 105, 116, 104]

/-- The id "Bob Smith". -/
def idBobSmith : List Nat := [66, 111, 98, 32, 83, 109, 105, 116, 104]

/-- The id "Al 1", whose second initial is a digit. -/
def idAlOne : List Nat := [65, 108, 32, 49]

/-- The record "Alice Smith", code 1, no time. -/
def recAlice : ITEM2 := { pID := some idAliceSmith, Code := 1, pTime := none }

/-- The record "Bob Smith", code 2, time 09:30:00. -/
def recBob : ITEM2 := { pID := some idBobSmith, Code := 2, pTime := some ⟨9, 30, 0⟩ }

/-- The object after inserting "Alice Smith" into an empty one. -/
def indexAlice : DataStructure := (DataStructure.empty.operatorPlusEq (some recAlice)).state

/-- The object after inserting "Alice Smith" and then "Bob Smith". -/
def indexAliceBob : DataStructure := (indexAlice.operatorPlusEq (some recBob)).state

/-- The id "alice smith", all lower case. -/
def idLowerAlice : List Nat := [97, 108, 105, 99, 101, 32, 115, 109, 105, 116, 104]

/-- The id "1x y", whose first character is a digit. -/
def idDigitFirst : List Nat := [49, 120, 32, 121]

/-- The id "Alice", one word. -/
def idAlice : List Nat := [65, 108, 105, 99, 101]

/-! ## Views used to state the ordering properties -/

/-- The bucket a lookup scans: bucket `bucketIndex` of the header `findHeader` returns for
`firstLetter`, empty when there is no such header. -/
def DataStructure.bucketAt (self : DataStructure) (firstLetter bucketIndex : Nat) :
    List ITEM2 :=
  match (findHeader self.pStruct2 firstLetter).1 with
  | none => []
  | some position =>
    match self.pStruct2.get? position with
    | none => []
    | some header => header.bucket bucketIndex

/-- The place the id of a record selects: the first initial given by `parseID` and the
bucket index `alphaIndex` gives for the second initial; `none` when either fails. -/
def ITEM2.slot (r : ITEM2) : Option (Nat × Nat) :=
  match parseID r.pID with
  | .error _ => none
  | .ok (firstLetter, secondLetter) => (alphaIndex secondLetter).map fun b => (firstLetter, b)

/-- The object after `operator+=` of each record of a list in turn. -/
def insertAll : DataStructure → List ITEM2 → DataStructure
  | self, [] => self
  | self, r :: rest => insertAll (self.operatorPlusEq (some r)).state rest

/-- Whether none of the calls made by `insertAll` throws. -/
def insertAllOk : DataStructure → List ITEM2 → Bool
  | _, [] => true
  | self, r :: rest =>
    (self.operatorPlusEq (some r)).thrown.isNone &&
      insertAllOk (self.operatorPlusEq (some r)).state rest

/-! ## Text dump -/

/-- The digits of a number, most significant first, as `std::ostream` prints an unsigned
integer in decimal; `fuel` bounds the number of digits. -/
def decimalLoop : Nat → Nat → List Nat → List Nat
  | 0, _, acc => acc
  | fuel + 1, n, acc =>
    if n < 10 then (48 + n) :: acc else decimalLoop fuel (n / 10) ((48 + n % 10) :: acc)

/-- The characters of `ostr << n` for an unsigned integer `n`. -/
def decimal (n : Nat) : List Nat := decimalLoop (n + 1) n []

/-- Source `operator<<`: the characters sent to the stream, one line "id code" per
record, by the triple loop over the headers, the bucket indices `0 .. ALPHA - 1` and the
records of each bucket. -/
def DataStructure.operatorShl (str : DataStructure) : List Nat :=
  str.pStruct2.flatMap fun header =>
    (List.range ALPHA).flatMap fun bucketIndex =>
      (header.bucket bucketIndex).flatMap fun item =>
        item.pID.getD [] ++ [32] ++ decimal item.Code ++ [10]

/-! ## The file layout as the specification words it -/

/-- The order of the specification: Bucket Group sequence, then bucket 0 to 25, then each
list from head to tail. -/
def specTraversal (x : DataStructure) : List ITEM2 :=
  x.pStruct2.flatMap fun g => (List.range 26).flatMap fun i => g.bucket i

/-- A record in the layout of the specification: `u32 idLength`, the `idLength` bytes of
the id without terminator, `u32 code`, one `hasTime` byte (0 or 1), and the time triple
only when `hasTime` is 1. -/
def specRecord (r : ITEM2) : List Nat :=
  u32Bytes (r.pID.getD []).length ++ r.pID.getD [] ++ u32Bytes r.Code ++
    [if r.pTime.isSome then 1 else 0] ++
    (match r.pTime with
     | some t => u32Bytes (intBits t.Hour) ++ u32Bytes (intBits t.Min) ++ u32Bytes (intBits t.Sec)
     | none => [])

/-- A file in the layout of the specification: the 12-byte header (magic, version 1,
count) followed by the records in traversal order. -/
def specFile (x : DataStructure) : List Nat :=
  u32Bytes 0x53324453 ++ u32Bytes 1 ++ u32Bytes x.GetItemsNumber ++
    (specTraversal x).flatMap specRecord

/-! ## Defective files as the specification words them -/

/-- What stands at the front of a byte sequence where a record is expected. -/
inductive RecordShape where
  /-- The `idLength` field is 0. -/
  | zeroId
  /-- The bytes end before the record is complete. -/
  | cut
  /-- A complete record of the given size in bytes. -/
  | whole (size : Nat)
deriving DecidableEq, Repr

/-- The record of the layout of the specification at the front of `bytes`: `u32 idLength`,
`idLength` id bytes, `u32 code`, one `hasTime` byte, and 12 bytes of time when `hasTime`
is not 0. -/
def specRecordShape (bytes : List Nat) : RecordShape :=
  if bytes.length < 4 then .cut
  else
    let idLength := u32OfBytes (bytes.take 4)
    if idLength = 0 then .zeroId
    else if bytes.length < 4 + idLength + 4 + 1 then .cut
    else
      let size := 4 + idLength + 4 + 1 + (if bytes.getD (4 + idLength + 4) 0 ≠ 0 then 12 else 0)
      if bytes.length < size then .cut else .whole size

/-- The record a complete record of the layout stands for. -/
def specDecode (bytes : List Nat) : ITEM2 :=
  let idLength := u32OfBytes (bytes.take 4)
  { pID := some (cString ((bytes.drop 4).take idLength)),
    Code := u32OfBytes ((bytes.drop (4 + idLength)).take 4),
    pTime :=
      if bytes.getD (4 + idLength + 4) 0 ≠ 0 then
        some (timeOfBytes ((bytes.drop (4 + idLength + 4 + 1)).take 12))
      else none }

/-- Whether one of the `count` records expected in `bytes` has `idLength` 0 or is cut
short by the end of the bytes. -/
def specDefective : Nat → List Nat → Bool
  | 0, _ => false
  | count + 1, bytes =>
    match specRecordShape bytes with
    | .zeroId => true
    | .cut => true
    | .whole size => specDefective count (bytes.drop size)

/-- The complete records that stand before the first defective one (all `count` records
when none is defective). -/
def specRecordsBefore : Nat → List Nat → List ITEM2
  | 0, _ => []
  | count + 1, bytes =>
    match specRecordShape bytes with
    | .zeroId => []
    | .cut => []
    | .whole size => specDecode bytes :: specRecordsBefore count (bytes.drop size)

/-- Whether one of the complete records that stand before the first defective one has an
`idLength` of `2^32 - 1` or more, so that `idLength + 1` does not fit the 32-bit size of
the id buffer. -/
def specOversized : Nat → List Nat → Bool
  | 0, _ => false
  | count + 1, bytes =>
    match specRecordShape bytes with
    | .zeroId => false
    | .cut => false
    | .whole size =>
      decide (4294967295 ≤ u32OfBytes (bytes.take 4)) || specOversized count (bytes.drop size)

/-- A file whose header announces two records: the one-word id "Alice" with code 1 and no
time, then a record whose `idLength` is 0. -/
def fileAliceThenZero : List Nat :=
  [83, 68, 50, 83, 1, 0, 0, 0, 2, 0, 0, 0,
   5, 0, 0, 0, 65, 108, 105, 99, 101, 1, 0, 0, 0, 0,
   0, 0, 0, 0]

/-- A file whose header announces one record and that ends in the middle of its id. -/
def fileCutShort : List Nat :=
  [83, 68, 50, 83, 1, 0, 0, 0, 1, 0, 0, 0,
   11, 0, 0, 0, 65, 108, 105]

/-! ## Objects built by successful calls only, and the mirror image of an object -/

/-- The header with every bucket list reversed. -/
def HEADER_C.reversed (header : HEADER_C) : HEADER_C :=
  ⟨header.cBegin, header.ppItems.map List.reverse,
    (List.length_map header.ppItems List.reverse).trans header.alpha⟩

/-- The object with the same header sequence and every bucket list reversed. -/
def DataStructure.reversed (self : DataStructure) : DataStructure :=
  ⟨self.pStruct2.map HEADER_C.reversed⟩

/-- The objects obtained from the default-constructed one by calls of `operator+=` and
`operator-=` that do not throw. -/
inductive ReachableOk : DataStructure → Prop
  | empty : ReachableOk DataStructure.empty
  | insert {x : DataStructure} (r : ITEM2) :
      ReachableOk x → (x.operatorPlusEq (some r)).thrown = none →
      ReachableOk (x.operatorPlusEq (some r)).state
  | remove {x : DataStructure} (pID : Option (List Nat)) :
      ReachableOk x → (x.operatorMinusEq pID).thrown = none →
      ReachableOk (x.operatorMinusEq pID).state

/-- No header of the object has all its buckets empty. -/
def NoEmptyHeader (x : DataStructure) : Prop :=
  ∀ g ∈ x.pStruct2, g.isHeaderEmpty = false

/-! ## Sample data: an id of any length, two records in one bucket -/

/-- The id "A BB...B": the letter 'A', a space and `n` letters 'B'. -/
def idLong (n : Nat) : List Nat := 65 :: 32 :: List.replicate n 66

/-- The record with the id `idLong n`, code 1 and no time. -/
def recLong (n : Nat) : ITEM2 := { pID := some (idLong n), Code := 1, pTime := none }

/-- The object after inserting `recLong n` into an empty one. -/
def indexLong (n : Nat) : DataStructure :=
  (DataStructure.empty.operatorPlusEq (some (recLong n))).state

/-- The id "Adam Stone", with the initials of "Alice Smith". -/
def idAdamStone : List Nat := [65, 100, 97, 109, 32, 83, 116, 111, 110, 101]

/-- The record "Adam Stone", code 3, time 23:59:59. -/
def recAdam : ITEM2 := { pID := some idAdamStone, Code := 3, pTime := some ⟨23, 59, 59⟩ }

/-- The object after inserting "Alice Smith", "Bob Smith" and then "Adam Stone": the
bucket of the initials A and S holds "Adam Stone" before "Alice Smith". -/
def indexAliceBobAdam : DataStructure := (indexAliceBob.operatorPlusEq (some recAdam)).state

/-! ## Lists of lists -/

theorem flatten_split {α : Type} (L : List (List α)) (i : Nat) (hi : i < L.length) :
    L.flatten = (L.take i).flatten ++ (L.getD i [] ++ (L.drop (i + 1)).flatten) := by
  induction L generalizing i with
  | nil => simp at hi
  | cons l L ih =>
    cases i with
    | zero => simp
    | succ i =>
      have hi1 : i < L.length := by simpa using hi
      simp [ih i hi1]

theorem flatten_set {α : Type} (L : List (List α)) (i : Nat) (l : List α) (hi : i < L.length) :
    (L.set i l).flatten = (L.take i).flatten ++ (l ++ (L.drop (i + 1)).flatten) := by
  induction L generalizing i with
  | nil => simp at hi
  | cons l0 L ih =>
    cases i with
    | zero => simp
    | succ i =>
      have hi1 : i < L.length := by simpa using hi
      simp [ih i hi1]

theorem getD_set_eq {α : Type} (L : List (List α)) (i j : Nat) (l : List α) (hi : i < L.length) :
    (L.set i l).getD j [] = if j = i then l else L.getD j [] := by
  induction L generalizing i j with
  | nil => simp at hi
  | cons l0 L ih =>
    cases i with
    | zero => cases j <;> simp
    | succ i =>
      have hi1 : i < L.length := by simpa using hi
      cases j with
      | zero => simp
      | succ j => simpa using ih i j hi1

theorem mem_flatten_iff_getD {α : Type} (L : List (List α)) (a : α) :
    a ∈ L.flatten ↔ ∃ i, a ∈ L.getD i [] := by
  induction L with
  | nil => simp
  | cons l L ih =>
    rw [List.flatten_cons, List.mem_append, ih]
    constructor
    · rintro (h | ⟨i, h⟩)
      · exact ⟨0, by simpa using h⟩
      · exact ⟨i + 1, by simpa using h⟩
    · rintro ⟨i, h⟩
      cases i with
      | zero => left; simpa using h
      | succ i => right; exact ⟨i, by simpa using h⟩

/-! ## Letters -/

theorem alphaIndex_lt {c i : Nat} (h : alphaIndex c = some i) : i < ALPHA := by
  unfold alphaIndex at h
  simp only at h
  split at h
  · rename_i hc
    simp only [Option.some.injEq] at h
    unfold ALPHA
    omega
  · simp at h

theorem charValue_injective {a b : Nat} (h : charValue a = charValue b) : a = b := by
  unfold charValue at h
  split at h <;> split at h <;> omega

/-! ## Buckets of a header -/

theorem HEADER_C.bucket_setBucket (h : HEADER_C) (i j : Nat) (l : List ITEM2) (hi : i < ALPHA) :
    (h.setBucket i l).bucket j = if j = i then l else h.bucket j := by
  unfold HEADER_C.bucket HEADER_C.setBucket
  exact getD_set_eq h.ppItems i j l (h.alpha ▸ hi)

theorem HEADER_C.cBegin_setBucket (h : HEADER_C) (i : Nat) (l : List ITEM2) :
    (h.setBucket i l).cBegin = h.cBegin := rfl

theorem HEADER_C.mem_bucket_iff (h : HEADER_C) (r : ITEM2) :
    r ∈ h.items ↔ ∃ i, r ∈ h.bucket i :=
  mem_flatten_iff_getD h.ppItems r

theorem HEADER_C.items_split (h : HEADER_C) (i : Nat) (hi : i < ALPHA) :
    ∃ A B, h.items = A ++ (h.bucket i ++ B) ∧
      ∀ l, (h.setBucket i l).items = A ++ (l ++ B) := by
  refine ⟨(h.ppItems.take i).flatten, (h.ppItems.drop (i + 1)).flatten, ?_, ?_⟩
  · exact flatten_split h.ppItems i (h.alpha ▸ hi)
  · intro l
    exact flatten_set h.ppItems i l (h.alpha ▸ hi)

theorem makeHeader_bucket (c i : Nat) : (makeHeader c).bucket i = [] := by
  unfold HEADER_C.bucket makeHeader
  simp only [List.getD_eq_getElem?_getD, List.getElem?_replicate]
  split <;> rfl

theorem makeHeader_items (c : Nat) : (makeHeader c).items = [] := by
  have : ∀ r, r ∉ (makeHeader c).items := by
    intro r hr
    obtain ⟨i, hi⟩ := (HEADER_C.mem_bucket_iff _ r).1 hr
    rw [makeHeader_bucket] at hi
    simp at hi
  exact List.eq_nil_iff_forall_not_mem.2 this

theorem DataStructure.GetItemsNumber_eq (x : DataStructure) :
    x.GetItemsNumber = x.items.length := by
  unfold DataStructure.GetItemsNumber DataStructure.items HEADER_C.items
  rw [List.length_flatten, List.map_map]
  congr 1
  apply List.map_congr_left
  intro h _
  simp [List.length_flatten]

/-! ## The header list -/

theorem get?_append_length (pre : List HEADER_C) (hd : HEADER_C) (post : List HEADER_C) :
    (pre ++ hd :: post).get? pre.length = some hd := by
  induction pre with
  | nil => rfl
  | cons a pre ih => simpa using ih

theorem updateHeader_append (pre : List HEADER_C) (hd : HEADER_C) (post : List HEADER_C)
    (f : HEADER_C → HEADER_C) :
    updateHeader (pre ++ hd :: post) pre.length f = pre ++ f hd :: post := by
  induction pre with
  | nil => rfl
  | cons a pre ih => simp [updateHeader, ih]

theorem findHeaderLoop_spec (head : List HEADER_C) (c : Nat) :
    ∃ pre post, head = pre ++ post ∧ pre.length = findHeaderLoop head c ∧
      (∀ a ∈ pre, charValue a.cBegin < charValue c) ∧
      (∀ a, post.head? = some a → ¬ charValue a.cBegin < charValue c) := by
  induction head with
  | nil => exact ⟨[], [], rfl, rfl, by simp, by simp⟩
  | cons a head ih =>
    by_cases hlt : charValue a.cBegin < charValue c
    · obtain ⟨pre, post, h1, h2, h3, h4⟩ := ih
      refine ⟨a :: pre, post, by simp [h1], ?_, ?_, h4⟩
      · simp [findHeaderLoop, hlt, h2]
      · intro b hb
        rcases List.mem_cons.1 hb with rfl | hb
        · exact hlt
        · exact h3 b hb
    · refine ⟨[], a :: head, rfl, ?_, by simp, ?_⟩
      · simp [findHeaderLoop, hlt]
      · intro b hb
        simp only [List.head?_cons, Option.some.injEq] at hb
        subst hb
        exact hlt

theorem findHeader_some {head : List HEADER_C} {c k : Nat}
    (h : (findHeader head c).1 = some k) :
    ∃ pre hd post, head = pre ++ hd :: post ∧ pre.length = k ∧ hd.cBegin = c ∧
      (∀ a ∈ pre, charValue a.cBegin < charValue c) := by
  obtain ⟨pre, post, h1, h2, h3, h4⟩ := findHeaderLoop_spec head c
  unfold findHeader at h
  simp only at h
  rw [← h2] at h
  cases post with
  | nil =>
    have : head.get? pre.length = none := by
      rw [h1]; simp
    rw [this] at h
    simp at h
  | cons hd post =>
    have hg : head.get? pre.length = some hd := by
      rw [h1]; exact get?_append_length pre hd post
    rw [hg] at h
    simp only at h
    by_cases hc : hd.cBegin = c
    · rw [if_pos hc] at h
      simp only [Option.some.injEq] at h
      exact ⟨pre, hd, post, h1, h, hc, h3⟩
    · rw [if_neg hc] at h
      simp at h

theorem findHeader_snd (head : List HEADER_C) (c : Nat) :
    (findHeader head c).2 =
      if findHeaderLoop head c = 0 then none else some (findHeaderLoop head c - 1) := by
  unfold findHeader
  simp only
  split
  · split <;> rfl
  · rfl

theorem findHeader_none {head : List HEADER_C} {c : Nat}
    (h : (findHeader head c).1 = none) :
    ∃ pre post, head = pre ++ post ∧ pre.length = findHeaderLoop head c ∧
      (∀ a ∈ pre, charValue a.cBegin < charValue c) ∧
      (∀ a, post.head? = some a → charValue c < charValue a.cBegin) := by
  obtain ⟨pre, post, h1, h2, h3, h4⟩ := findHeaderLoop_spec head c
  refine ⟨pre, post, h1, h2, h3, ?_⟩
  intro a ha
  have hge := h4 a ha
  cases post with
  | nil => simp at ha
  | cons hd post =>
    simp only [List.head?_cons, Option.some.injEq] at ha
    subst ha
    have hg : head.get? pre.length = some hd := by
      rw [h1]; exact get?_append_length pre hd post
    unfold findHeader at h
    simp only at h
    rw [← h2, hg] at h
    simp only at h
    by_cases hc : hd.cBegin = c
    · rw [if_pos hc] at h
      simp at h
    · have hne : charValue hd.cBegin ≠ charValue c := fun e => hc (charValue_injective e)
      omega

theorem insertHeaderSorted_append (pre post : List HEADER_C) (newHeader : HEADER_C) :
    insertHeaderSorted (pre ++ post) (if pre.length = 0 then none else some (pre.length - 1))
      newHeader = pre ++ newHeader :: post := by
  cases pre with
  | nil => rfl
  | cons a pre =>
    simp only [List.length_cons, Nat.add_sub_cancel, insertHeaderSorted]
    rw [if_neg (by omega)]
    simp only
    have e : (a :: pre).length = pre.length + 1 := rfl
    rw [← e, List.take_left' rfl, List.drop_left' rfl]

/-- What `ensureHeader` returns: the header for `c` sits at the returned position, after
headers with a smaller `cBegin`; it is either the one `findHeader` found or a fresh one
linked in front of a header with a larger `cBegin`. -/
theorem ensureHeader_spec (head : List HEADER_C) (c : Nat) :
    ∃ pre hd post, (ensureHeader head c).1 = pre ++ hd :: post ∧
      (ensureHeader head c).2 = pre.length ∧ hd.cBegin = c ∧
      (∀ a ∈ pre, charValue a.cBegin < charValue c) ∧
      (((findHeader head c).1 = some pre.length ∧ head = pre ++ hd :: post) ∨
        ((findHeader head c).1 = none ∧ head = pre ++ post ∧ hd = makeHeader c ∧
          ∀ a, post.head? = some a → charValue c < charValue a.cBegin)) := by
  cases hf : (findHeader head c).1 with
  | some k =>
    obtain ⟨pre, hd, post, h1, h2, h3, h4⟩ := findHeader_some hf
    refine ⟨pre, hd, post, ?_, ?_, h3, h4, Or.inl ⟨by rw [h2], h1⟩⟩
    · unfold ensureHeader; simp only [hf]; exact h1
    · unfold ensureHeader; simp only [hf]; exact h2.symm
  | none =>
    obtain ⟨pre, post, h1, h2, h3, h4⟩ := findHeader_none hf
    refine ⟨pre, makeHeader c, post, ?_, ?_, rfl, h3, Or.inr ⟨rfl, h1, rfl, h4⟩⟩
    · unfold ensureHeader
      simp only [hf, findHeader_snd, ← h2]
      rw [h1]
      have := insertHeaderSorted_append pre post (makeHeader c)
      simpa using this
    · unfold ensureHeader
      simp only [hf, findHeader_snd, ← h2]
      cases pre with
      | nil => rfl
      | cons a pre => simp

/-! ## Records of an object -/

theorem items_mk_append (pre post : List HEADER_C) :
    DataStructure.items ⟨pre ++ post⟩ = DataStructure.items ⟨pre⟩ ++ DataStructure.items ⟨post⟩ := by
  simp [DataStructure.items]

theorem items_mk_cons (hd : HEADER_C) (post : List HEADER_C) :
    DataStructure.items ⟨hd :: post⟩ = hd.items ++ DataStructure.items ⟨post⟩ := by
  simp [DataStructure.items]

theorem DataStructure.mem_items (x : DataStructure) (r : ITEM2) :
    r ∈ x.items ↔ ∃ h ∈ x.pStruct2, ∃ i, r ∈ h.bucket i := by
  unfold DataStructure.items
  rw [List.mem_flatten]
  constructor
  · rintro ⟨l, hl, hr⟩
    obtain ⟨h, hh, rfl⟩ := List.mem_map.1 hl
    exact ⟨h, hh, (HEADER_C.mem_bucket_iff h r).1 hr⟩
  · rintro ⟨h, hh, hi⟩
    exact ⟨h.items, List.mem_map.2 ⟨h, hh, rfl⟩, (HEADER_C.mem_bucket_iff h r).2 hi⟩

theorem scanBucket_some {l : List ITEM2} {s : List Nat} {r : ITEM2}
    (h : scanBucket l s = some r) : r ∈ l ∧ r.pID = some s := by
  induction l with
  | nil => simp [scanBucket] at h
  | cons a l ih =>
    unfold scanBucket at h
    split at h
    · rename_i ha
      simp only [Option.some.injEq] at h
      subst h
      exact ⟨List.mem_cons_self _ _, ha⟩
    · obtain ⟨h1, h2⟩ := ih h
      exact ⟨List.mem_cons_of_mem _ h1, h2⟩

theorem scanBucket_none {l : List ITEM2} {s : List Nat} :
    scanBucket l s = none ↔ ∀ r ∈ l, r.pID ≠ some s := by
  induction l with
  | nil => simp [scanBucket]
  | cons a l ih =>
    unfold scanBucket
    split
    · rename_i ha
      simp [ha]
    · rename_i ha
      simp [ih, ha]

theorem findHeader_of_mem {head : List HEADER_C} {hd : HEADER_C}
    (hs : head.Pairwise fun a b => charValue a.cBegin < charValue b.cBegin) (hm : hd ∈ head) :
    ∃ k, (findHeader head hd.cBegin).1 = some k ∧ head.get? k = some hd := by
  obtain ⟨pre, post, h1, h2, h3, h4⟩ := findHeaderLoop_spec head hd.cBegin
  have hnotpre : hd ∉ pre := fun hp => by
    have := h3 hd hp
    omega
  rw [h1] at hm
  have hpost : hd ∈ post := by
    rcases List.mem_append.1 hm with h | h
    · exact absurd h hnotpre
    · exact h
  cases post with
  | nil => simp at hpost
  | cons a post =>
    have ha := h4 a rfl
    have hEq : hd = a := by
      rcases List.mem_cons.1 hpost with h | h
      · exact h
      · rw [h1] at hs
        have hs2 := (List.pairwise_append.1 hs).2.1
        have := (List.pairwise_cons.1 hs2).1 hd h
        omega
    subst hEq
    have hg : head.get? pre.length = some hd := by
      rw [h1]; exact get?_append_length pre hd post
    refine ⟨pre.length, ?_, hg⟩
    unfold findHeader
    simp only
    rw [← h2, hg]
    simp

theorem findHeader_get? {head : List HEADER_C} {c k : Nat}
    (h : (findHeader head c).1 = some k) :
    ∃ hd, head.get? k = some hd ∧ hd.cBegin = c := by
  obtain ⟨pre, hd, post, h1, h2, h3, _⟩ := findHeader_some h
  refine ⟨hd, ?_, h3⟩
  rw [h1, ← h2]
  exact get?_append_length pre hd post

/-- Whatever `GetItem` returns is a stored record with the requested id. -/
theorem GetItem_some_mem {x : DataStructure} {p : Option (List Nat)} {r : ITEM2}
    (h : x.GetItem p = some r) : r ∈ x.items ∧ r.pID = p := by
  unfold DataStructure.GetItem at h
  split at h
  · simp at h
  · rename_i s
    split at h
    · simp at h
    · split at h
      · simp at h
      · split at h
        · simp at h
        · split at h
          · simp at h
          · rename_i header hg
            obtain ⟨h1, h2⟩ := scanBucket_some h
            refine ⟨?_, h2⟩
            rw [DataStructure.mem_items]
            exact ⟨header, List.get?_mem hg, _, h1⟩

theorem RepInv.pID_some {x : DataStructure} (hx : RepInv x) {r : ITEM2} (hr : r ∈ x.items) :
    ∃ s, r.pID = some s := by
  obtain ⟨h, hh, i, hi⟩ := (x.mem_items r).1 hr
  obtain ⟨s, _, hs, _⟩ := hx.placed h hh i r hi
  exact ⟨s, hs⟩

theorem RepInv.eq_of_pID {x : DataStructure} (hx : RepInv x) {r r' : ITEM2} (hr : r ∈ x.items)
    (hr' : r' ∈ x.items) (h : r.pID = r'.pID) : r = r' :=
  List.inj_on_of_nodup_map hx.unique hr hr' h

/-- Under the invariant `GetItem` finds every stored record by its id. -/
theorem RepInv.GetItem_of_mem {x : DataStructure} (hx : RepInv x) {r : ITEM2} (hr : r ∈ x.items) :
    x.GetItem r.pID = some r := by
  obtain ⟨h, hh, i, hi⟩ := (x.mem_items r).1 hr
  obtain ⟨s, c2, hs, hp, ha⟩ := hx.placed h hh i r hi
  obtain ⟨k, hk, hg⟩ := findHeader_of_mem hx.sorted hh
  have hscan : ∃ r', scanBucket (h.bucket i) s = some r' := by
    cases hsc : scanBucket (h.bucket i) s with
    | some r' => exact ⟨r', rfl⟩
    | none => exact absurd hs (scanBucket_none.1 hsc r hi)
  obtain ⟨r', hr'⟩ := hscan
  have hget : x.GetItem (some s) = some r' := by
    unfold DataStructure.GetItem
    simp only [hp, hk, ha, hg, hr']
  have hmem := GetItem_some_mem hget
  have : r' = r := hx.eq_of_pID hmem.1 hr (by rw [hmem.2, hs])
  rw [hs, hget, this]

theorem RepInv.GetItem_eq_some_iff {x : DataStructure} (hx : RepInv x) {p : Option (List Nat)}
    {r : ITEM2} : x.GetItem p = some r ↔ r ∈ x.items ∧ r.pID = p := by
  constructor
  · exact GetItem_some_mem
  · rintro ⟨h1, rfl⟩
    exact hx.GetItem_of_mem h1

theorem RepInv.GetItem_eq_none_iff {x : DataStructure} (hx : RepInv x) {p : Option (List Nat)} :
    x.GetItem p = none ↔ ∀ r ∈ x.items, r.pID ≠ p := by
  constructor
  · intro h r hr hp
    have := hx.GetItem_of_mem hr
    rw [hp, h] at this
    simp at this
  · intro h
    cases hg : x.GetItem p with
    | none => rfl
    | some r =>
      have := GetItem_some_mem hg
      exact absurd this.2 (h r this.1)

/-! ## Anatomy of `operator+=` -/

theorem cloneItem2_eq (r : ITEM2) : cloneItem2 r = r := rfl

/-- The three ways a call of `operator+=` can end: it throws before touching the object;
it throws after linking a fresh, empty header (second initial not a letter, first initial
new); or it succeeds and the record is the new head of its bucket. -/
theorem operatorPlusEq_cases (x : DataStructure) (p : Option ITEM2) :
    ((x.operatorPlusEq p).state = x ∧ ∃ e, (x.operatorPlusEq p).thrown = some e) ∨
    (∃ r c1 c2 pre post, p = some r ∧ parseID r.pID = .ok (c1, c2) ∧
      x.GetItem r.pID = none ∧ alphaIndex c2 = none ∧ (findHeader x.pStruct2 c1).1 = none ∧
      x.pStruct2 = pre ++ post ∧
      (∀ a ∈ pre, charValue a.cBegin < charValue c1) ∧
      (∀ a, post.head? = some a → charValue c1 < charValue a.cBegin) ∧
      (x.operatorPlusEq p).state = ⟨pre ++ makeHeader c1 :: post⟩ ∧
      (x.operatorPlusEq p).thrown = some .secondInitialNotLetter) ∨
    (∃ r c1 c2 b pre hd post, p = some r ∧ parseID r.pID = .ok (c1, c2) ∧
      x.GetItem r.pID = none ∧ alphaIndex c2 = some b ∧ hd.cBegin = c1 ∧
      (∀ a ∈ pre, charValue a.cBegin < charValue c1) ∧
      (x.pStruct2 = pre ++ hd :: post ∨
        (x.pStruct2 = pre ++ post ∧ hd = makeHeader c1 ∧
          ∀ a, post.head? = some a → charValue c1 < charValue a.cBegin)) ∧
      (x.operatorPlusEq p).state = ⟨pre ++ hd.setBucket b (r :: hd.bucket b) :: post⟩ ∧
      (x.operatorPlusEq p).thrown = none) := by
  cases p with
  | none => exact Or.inl ⟨rfl, _, rfl⟩
  | some r =>
    cases hp : parseID r.pID with
    | error e =>
      left
      unfold DataStructure.operatorPlusEq
      simp [hp]
    | ok cc =>
      obtain ⟨c1, c2⟩ := cc
      cases hg : x.GetItem r.pID with
      | some r' =>
        left
        unfold DataStructure.operatorPlusEq
        simp [hp, hg]
      | none =>
        obtain ⟨pre, hd, post, e1, e2, e3, e4, e5⟩ := ensureHeader_spec x.pStruct2 c1
        cases ha : alphaIndex c2 with
        | none =>
          have hst : x.operatorPlusEq (some r) =
              ⟨⟨(ensureHeader x.pStruct2 c1).1⟩, some .secondInitialNotLetter⟩ := by
            unfold DataStructure.operatorPlusEq
            simp [hp, hg, ha]
          rcases e5 with ⟨_, e6⟩ | ⟨e6, e7, e8, e9⟩
          · left
            rw [hst, e1, ← e6]
            exact ⟨rfl, _, rfl⟩
          · right; left
            subst e8
            refine ⟨r, c1, c2, pre, post, rfl, hp, hg, ha, e6, e7, e4, e9, ?_, ?_⟩
            · rw [hst, e1]
            · rw [hst]
        | some b =>
          right; right
          have hst : x.operatorPlusEq (some r) =
              ⟨⟨updateHeader (ensureHeader x.pStruct2 c1).1 (ensureHeader x.pStruct2 c1).2
                fun header => header.setBucket b (cloneItem2 r :: header.bucket b)⟩, none⟩ := by
            unfold DataStructure.operatorPlusEq
            simp [hp, hg, ha]
          refine ⟨r, c1, c2, b, pre, hd, post, rfl, hp, hg, ha, e3, e4, ?_, ?_, ?_⟩
          · rcases e5 with ⟨_, e6⟩ | ⟨_, e7, e8, e9⟩
            · exact Or.inl e6
            · exact Or.inr ⟨e7, e8, e9⟩
          · rw [hst, e1, e2, updateHeader_append]
            rfl
          · rw [hst]

/-- When `operator+=` gets past its three checks it does not throw. -/
theorem operatorPlusEq_succeeds {x : DataStructure} {r : ITEM2} {c1 c2 b : Nat}
    (hp : parseID r.pID = .ok (c1, c2)) (hg : x.GetItem r.pID = none)
    (ha : alphaIndex c2 = some b) : (x.operatorPlusEq (some r)).thrown = none := by
  unfold DataStructure.operatorPlusEq
  simp [hp, hg, ha]

/-! ## Anatomy of `operator-=` -/

theorem parseID_ok_some {p : Option (List Nat)} {cc : Nat × Nat} (h : parseID p = .ok cc) :
    ∃ s, p = some s := by
  cases p with
  | none => simp [parseID] at h
  | some s => exact ⟨s, rfl⟩

theorem unlinkItem_some {l : List ITEM2} {s : List Nat} {remaining : List ITEM2}
    (h : unlinkItem l s = some remaining) :
    ∃ l1 r l2, l = l1 ++ r :: l2 ∧ r.pID = some s ∧ remaining = l1 ++ l2 ∧
      ∀ a ∈ l1, a.pID ≠ some s := by
  induction l generalizing remaining with
  | nil => simp [unlinkItem] at h
  | cons a l ih =>
    unfold unlinkItem at h
    split at h
    · rename_i ha
      simp only [Option.some.injEq] at h
      exact ⟨[], a, l, rfl, ha, h.symm, by simp⟩
    · rename_i ha
      cases hu : unlinkItem l s with
      | none => simp [hu] at h
      | some rem' =>
        simp only [hu, Option.map_some', Option.some.injEq] at h
        obtain ⟨l1, r, l2, e1, e2, e3, e4⟩ := ih hu
        refine ⟨a :: l1, r, l2, by simp [e1], e2, by simp [← h, e3], ?_⟩
        intro a' ha'
        rcases List.mem_cons.1 ha' with rfl | ha'
        · exact ha
        · exact e4 a' ha'

theorem unlinkItem_none {l : List ITEM2} {s : List Nat} :
    unlinkItem l s = none ↔ ∀ r ∈ l, r.pID ≠ some s := by
  induction l with
  | nil => simp [unlinkItem]
  | cons a l ih =>
    unfold unlinkItem
    split
    · rename_i ha
      simp [ha]
    · rename_i ha
      simp [ih, ha]

/-- The two ways a call of `operator-=` can end: it throws and the object is untouched, or
it unlinks the first record of the selected bucket with the given id and then drops the
header exactly when `isHeaderEmpty` holds. -/
theorem operatorMinusEq_cases (x : DataStructure) (p : Option (List Nat)) :
    ((x.operatorMinusEq p).state = x ∧ ∃ e, (x.operatorMinusEq p).thrown = some e) ∨
    (∃ s c1 c2 b pre hd post remaining, p = some s ∧ parseID (some s) = .ok (c1, c2) ∧
      alphaIndex c2 = some b ∧ x.pStruct2 = pre ++ hd :: post ∧ hd.cBegin = c1 ∧
      (∀ a ∈ pre, charValue a.cBegin < charValue c1) ∧
      unlinkItem (hd.bucket b) s = some remaining ∧
      (x.operatorMinusEq p).state =
        (if (hd.setBucket b remaining).isHeaderEmpty then ⟨pre ++ post⟩
         else ⟨pre ++ hd.setBucket b remaining :: post⟩) ∧
      (x.operatorMinusEq p).thrown = none) := by
  cases hp : parseID p with
  | error e =>
    left
    unfold DataStructure.operatorMinusEq
    simp [hp]
  | ok cc =>
    obtain ⟨c1, c2⟩ := cc
    obtain ⟨s, rfl⟩ := parseID_ok_some hp
    cases hf : (findHeader x.pStruct2 c1).1 with
    | none =>
      left
      unfold DataStructure.operatorMinusEq
      simp [hp, hf]
    | some k =>
      cases ha : alphaIndex c2 with
      | none =>
        left
        unfold DataStructure.operatorMinusEq
        simp [hp, hf, ha]
      | some b =>
        obtain ⟨pre, hd, post, e1, e2, e3, e4⟩ := findHeader_some hf
        have hg : x.pStruct2.get? k = some hd := by
          rw [e1, ← e2]; exact get?_append_length pre hd post
        cases hu : unlinkItem (hd.bucket b) s with
        | none =>
          left
          unfold DataStructure.operatorMinusEq
          simp only [hp, hf, ha, hg, Option.getD_some, hu]
          exact ⟨trivial, _, rfl⟩
        | some remaining =>
          right
          refine ⟨s, c1, c2, b, pre, hd, post, remaining, rfl, hp, ha, e1, e3, e4, hu, ?_, ?_⟩
          · unfold DataStructure.operatorMinusEq
            simp only [hp, hf, ha, hg, Option.getD_some, hu, findHeader_snd]
            have hk : findHeaderLoop x.pStruct2 c1 = k := by
              have := hf
              unfold findHeader at this
              simp only at this
              split at this
              · split at this
                · simpa using this
                · simp at this
              · simp at this
            rw [hk]
            by_cases hE : (hd.setBucket b remaining).isHeaderEmpty = true
            · rw [if_pos hE, if_pos hE]
              cases pre with
              | nil =>
                simp only [List.length_nil] at e2
                subst e2
                simp [e1]
              | cons a pre =>
                simp only [List.length_cons] at e2
                subst e2
                simp only [Nat.add_one_ne_zero, if_false, Nat.add_sub_cancel]
                rw [e1]
                have e : (a :: pre).length = pre.length + 1 := rfl
                rw [← e, List.take_left' rfl]
                have : (a :: pre) ++ hd :: post = ((a :: pre) ++ [hd]) ++ post := by simp
                rw [this, List.drop_left' (by simp)]
            · rw [if_neg hE, if_neg hE, e1, ← e2, updateHeader_append]
          · unfold DataStructure.operatorMinusEq
            simp only [hp, hf, ha, hg, Option.getD_some, hu]
            split
            · split <;> rfl
            · rfl

/-! ## Effect of the mutators on the record sequence -/

theorem items_mk_mid (pre : List HEADER_C) (hd : HEADER_C) (post : List HEADER_C) :
    DataStructure.items ⟨pre ++ hd :: post⟩ =
      DataStructure.items ⟨pre⟩ ++ (hd.items ++ DataStructure.items ⟨post⟩) := by
  rw [items_mk_append, items_mk_cons]

theorem items_insert_fresh (pre post : List HEADER_C) (c : Nat) :
    DataStructure.items ⟨pre ++ makeHeader c :: post⟩ = DataStructure.items ⟨pre ++ post⟩ := by
  rw [items_mk_mid, makeHeader_items, items_mk_append]
  rfl

/-- A call of `operator+=` that throws leaves the record sequence as it was. -/
theorem operatorPlusEq_items_of_thrown {x : DataStructure} {p : Option ITEM2} {e : Error}
    (h : (x.operatorPlusEq p).thrown = some e) : (x.operatorPlusEq p).state.items = x.items := by
  rcases operatorPlusEq_cases x p with ⟨h1, _⟩ | ⟨r, c1, c2, pre, post, _, _, _, _, _, h6, _, _, h9, _⟩ |
      ⟨r, c1, c2, b, pre, hd, post, _, _, _, _, _, _, _, _, h9⟩
  · rw [h1]
  · rw [h9, items_insert_fresh]
    have : x = ⟨pre ++ post⟩ := by rw [← h6]
    rw [this]
  · rw [h9] at h
    simp at h

/-- A call of `operator+=` that does not throw puts the record somewhere in the record
sequence and keeps the order of the others. -/
theorem operatorPlusEq_items_of_ok {x : DataStructure} {p : Option ITEM2}
    (h : (x.operatorPlusEq p).thrown = none) :
    ∃ r c1 c2 b L1 L2, p = some r ∧ parseID r.pID = .ok (c1, c2) ∧ alphaIndex c2 = some b ∧
      x.GetItem r.pID = none ∧ x.items = L1 ++ L2 ∧
      (x.operatorPlusEq p).state.items = L1 ++ r :: L2 := by
  rcases operatorPlusEq_cases x p with ⟨_, e, he⟩ | ⟨r, c1, c2, pre, post, _, _, _, _, _, _, _, _, _, h9⟩ |
      ⟨r, c1, c2, b, pre, hd, post, h1, h2, h3, h4, h5, h6, h7, h8, h9⟩
  · rw [he] at h
    simp at h
  · rw [h9] at h
    simp at h
  · obtain ⟨A, B, hA, hB⟩ := hd.items_split b (alphaIndex_lt h4)
    refine ⟨r, c1, c2, b, DataStructure.items ⟨pre⟩ ++ A,
      hd.bucket b ++ (B ++ DataStructure.items ⟨post⟩), h1, h2, h4, h3, ?_, ?_⟩
    · rcases h7 with h7 | ⟨h7, h7', _⟩
      · have : x = ⟨pre ++ hd :: post⟩ := by rw [← h7]
        rw [this, items_mk_mid, hA]
        simp
      · have : x = ⟨pre ++ post⟩ := by rw [← h7]
        have hb : hd.bucket b = [] := by rw [h7']; exact makeHeader_bucket c1 b
        have hi : hd.items = [] := by rw [h7']; exact makeHeader_items c1
        rw [hi, hb] at hA
        have hA' : A = [] := by
          cases A with
          | nil => rfl
          | cons a A => simp at hA
        have hB' : B = [] := by
          subst hA'
          simpa using hA.symm
        rw [this, items_mk_append, hA', hB', hb]
        simp
    · rw [h8, items_mk_mid, hB]
      simp

/-- A call of `operator-=` that does not throw removes one record with the given id from
the record sequence and keeps the order of the others. -/
theorem operatorMinusEq_items_of_ok {x : DataStructure} {p : Option (List Nat)}
    (h : (x.operatorMinusEq p).thrown = none) :
    ∃ r L1 L2, r.pID = p ∧ x.items = L1 ++ r :: L2 ∧
      (x.operatorMinusEq p).state.items = L1 ++ L2 := by
  rcases operatorMinusEq_cases x p with ⟨_, e, he⟩ |
      ⟨s, c1, c2, b, pre, hd, post, remaining, h1, h2, h3, h4, h5, h6, h7, h8, h9⟩
  · rw [he] at h
    simp at h
  · obtain ⟨A, B, hA, hB⟩ := hd.items_split b (alphaIndex_lt h3)
    obtain ⟨l1, r, l2, u1, u2, u3, _⟩ := unlinkItem_some h7
    have hx : x = ⟨pre ++ hd :: post⟩ := by rw [← h4]
    refine ⟨r, DataStructure.items ⟨pre⟩ ++ (A ++ l1),
      l2 ++ (B ++ DataStructure.items ⟨post⟩), by rw [u2, h1], ?_, ?_⟩
    · rw [hx, items_mk_mid, hA, u1]
      simp
    · rw [h8]
      have key : DataStructure.items ⟨pre ++ hd.setBucket b remaining :: post⟩ =
          DataStructure.items ⟨pre⟩ ++ (A ++ l1) ++ (l2 ++ (B ++ DataStructure.items ⟨post⟩)) := by
        rw [items_mk_mid, hB, u3]
        simp
      by_cases hE : (hd.setBucket b remaining).isHeaderEmpty = true
      · rw [if_pos hE, ← key, items_mk_mid, items_mk_append]
        have : (hd.setBucket b remaining).items = [] := by
          unfold HEADER_C.isHeaderEmpty at hE
          unfold HEADER_C.items
          rw [List.all_eq_true] at hE
          apply List.eq_nil_iff_forall_not_mem.2
          intro a ha
          obtain ⟨l, hl, hal⟩ := List.mem_flatten.1 ha
          have := hE l hl
          rw [List.isEmpty_iff] at this
          rw [this] at hal
          simp at hal
        rw [this]
        rfl
      · rw [if_neg hE, key]

/-! ## The representation invariant is preserved -/

theorem sorted_insert {pre post : List HEADER_C} {newHeader : HEADER_C} {c : Nat}
    (hs : (pre ++ post).Pairwise fun a b => charValue a.cBegin < charValue b.cBegin)
    (hpre : ∀ a ∈ pre, charValue a.cBegin < charValue c)
    (hpost : ∀ a, post.head? = some a → charValue c < charValue a.cBegin)
    (hc : newHeader.cBegin = c) :
    (pre ++ newHeader :: post).Pairwise fun a b => charValue a.cBegin < charValue b.cBegin := by
  obtain ⟨s1, s2, s3⟩ := List.pairwise_append.1 hs
  have hall : ∀ b ∈ post, charValue c < charValue b.cBegin := by
    cases post with
    | nil => simp
    | cons a post =>
      have ha := hpost a rfl
      intro b hb
      rcases List.mem_cons.1 hb with rfl | hb
      · exact ha
      · have := (List.pairwise_cons.1 s2).1 b hb
        omega
  rw [List.pairwise_append]
  refine ⟨s1, List.pairwise_cons.2 ⟨?_, s2⟩, ?_⟩
  · intro b hb
    rw [hc]; exact hall b hb
  · intro a ha b hb
    rcases List.mem_cons.1 hb with rfl | hb
    · rw [hc]; exact hpre a ha
    · exact s3 a ha b hb

theorem sorted_replace {pre post : List HEADER_C} {hd hd' : HEADER_C}
    (hs : (pre ++ hd :: post).Pairwise fun a b => charValue a.cBegin < charValue b.cBegin)
    (hc : hd'.cBegin = hd.cBegin) :
    (pre ++ hd' :: post).Pairwise fun a b => charValue a.cBegin < charValue b.cBegin := by
  obtain ⟨s1, s2, s3⟩ := List.pairwise_append.1 hs
  obtain ⟨s4, s5⟩ := List.pairwise_cons.1 s2
  rw [List.pairwise_append]
  refine ⟨s1, List.pairwise_cons.2 ⟨?_, s5⟩, ?_⟩
  · intro b hb
    rw [hc]; exact s4 b hb
  · intro a ha b hb
    rcases List.mem_cons.1 hb with rfl | hb
    · rw [hc]; exact s3 a ha hd (List.mem_cons_self _ _)
    · exact s3 a ha b (List.mem_cons_of_mem _ hb)

theorem sorted_drop {pre post : List HEADER_C} {hd : HEADER_C}
    (hs : (pre ++ hd :: post).Pairwise fun a b => charValue a.cBegin < charValue b.cBegin) :
    (pre ++ post).Pairwise fun a b => charValue a.cBegin < charValue b.cBegin := by
  apply hs.sublist
  exact List.Sublist.append_left (List.sublist_cons_self hd post) pre

theorem placed_setBucket {hd : HEADER_C} {c b : Nat} {l : List ITEM2}
    (hold : ∀ i, ∀ r ∈ hd.bucket i, Placed c i r) (hb : b < ALPHA)
    (hl : ∀ r ∈ l, Placed c b r) :
    ∀ i, ∀ r ∈ (hd.setBucket b l).bucket i, Placed c i r := by
  intro i r hr
  rw [HEADER_C.bucket_setBucket hd b i l hb] at hr
  split at hr
  · rename_i hi
    subst hi
    exact hl r hr
  · exact hold i r hr

theorem RepInv.of_empty : RepInv DataStructure.empty :=
  ⟨List.Pairwise.nil, by intro h hh; simp [DataStructure.empty] at hh,
    by simp [DataStructure.empty, DataStructure.items]⟩

/-- The invariant survives `operator+=`, whether it throws or not. -/
theorem RepInv.after_insert {x : DataStructure} (hx : RepInv x) (p : Option ITEM2) :
    RepInv (x.operatorPlusEq p).state := by
  rcases operatorPlusEq_cases x p with ⟨h1, _⟩ |
      ⟨r, c1, c2, pre, post, _, _, _, _, _, h6, h7, h8, h9, h10⟩ |
      ⟨r, c1, c2, b, pre, hd, post, h1, h2, h3, h4, h5, h6, h7, h8, h9⟩
  · rw [h1]; exact hx
  · have hs := hx.sorted
    rw [h6] at hs
    refine ⟨?_, ?_, ?_⟩
    · rw [h9]
      exact sorted_insert hs h7 h8 rfl
    · rw [h9]
      intro h hh i r' hr'
      rcases List.mem_append.1 hh with hm | hm
      · exact hx.placed h (by rw [h6]; exact List.mem_append_left _ hm) i r' hr'
      · rcases List.mem_cons.1 hm with rfl | hm
        · rw [makeHeader_bucket] at hr'
          simp at hr'
        · exact hx.placed h (by rw [h6]; exact List.mem_append_right _ hm) i r' hr'
    · rw [operatorPlusEq_items_of_thrown h10]
      exact hx.unique
  · have hbuckets : ∀ i, ∀ r' ∈ hd.bucket i, Placed hd.cBegin i r' := by
      rcases h7 with h7 | ⟨_, h7', _⟩
      · exact hx.placed hd (by rw [h7]; simp)
      · intro i r' hr'
        rw [h7', makeHeader_bucket] at hr'
        simp at hr'
    have hmemx : ∀ h, h ∈ pre ∨ h ∈ post → h ∈ x.pStruct2 := by
      intro h hh
      rcases h7 with h7 | ⟨h7, _, _⟩
      · rw [h7]
        rcases hh with hh | hh
        · exact List.mem_append_left _ hh
        · exact List.mem_append_right _ (List.mem_cons_of_mem _ hh)
      · rw [h7]
        exact List.mem_append.2 hh
    obtain ⟨s, hs⟩ := parseID_ok_some h2
    refine ⟨?_, ?_, ?_⟩
    · rw [h8]
      rcases h7 with h7 | ⟨h7, _, h7''⟩
      · have hs := hx.sorted
        rw [h7] at hs
        exact sorted_replace hs rfl
      · have hs := hx.sorted
        rw [h7] at hs
        exact sorted_insert hs h6 h7'' h5
    · rw [h8]
      intro h hh i r' hr'
      rcases List.mem_append.1 hh with hm | hm
      · exact hx.placed h (hmemx h (Or.inl hm)) i r' hr'
      · rcases List.mem_cons.1 hm with rfl | hm
        · refine placed_setBucket hbuckets (alphaIndex_lt h4) ?_ i r' hr'
          intro r'' hr''
          rcases List.mem_cons.1 hr'' with rfl | hr''
          · exact ⟨s, c2, hs, by rw [← hs, h2, h5], h4⟩
          · exact hbuckets b r'' hr''
        · exact hx.placed h (hmemx h (Or.inr hm)) i r' hr'
    · obtain ⟨r', c1', c2', b', L1, L2, e1, _, _, _, e5, e6⟩ := operatorPlusEq_items_of_ok h9
      have : r' = r := by
        rw [h1] at e1
        exact (Option.some.inj e1).symm
      subst this
      rw [e6]
      have hu := hx.unique
      rw [e5] at hu
      rw [List.map_append, List.map_cons]
      rw [List.map_append] at hu
      refine List.nodup_middle.2 (List.nodup_cons.2 ⟨?_, hu⟩)
      intro hmem
      rw [← List.map_append, ← e5] at hmem
      obtain ⟨r'', hr'', hid⟩ := List.mem_map.1 hmem
      exact (hx.GetItem_eq_none_iff.1 h3) r'' hr'' hid

/-- The invariant survives `operator-=`, whether it throws or not. -/
theorem RepInv.after_remove {x : DataStructure} (hx : RepInv x) (p : Option (List Nat)) :
    RepInv (x.operatorMinusEq p).state := by
  rcases operatorMinusEq_cases x p with ⟨h1, _⟩ |
      ⟨s, c1, c2, b, pre, hd, post, remaining, h1, h2, h3, h4, h5, h6, h7, h8, h9⟩
  · rw [h1]; exact hx
  · have hs := hx.sorted
    rw [h4] at hs
    obtain ⟨l1, r, l2, u1, u2, u3, _⟩ := unlinkItem_some h7
    have huniq : ((x.operatorMinusEq p).state.items.map ITEM2.pID).Nodup := by
      obtain ⟨r', L1, L2, _, e2, e3⟩ := operatorMinusEq_items_of_ok h9
      rw [e3]
      have hu := hx.unique
      rw [e2] at hu
      apply hu.sublist
      apply List.Sublist.map
      exact List.Sublist.append_left (List.sublist_cons_self r' L2) L1
    by_cases hE : (hd.setBucket b remaining).isHeaderEmpty = true
    · rw [if_pos hE] at h8
      refine ⟨?_, ?_, huniq⟩
      · rw [h8]; exact sorted_drop hs
      · rw [h8]
        intro h hh
        apply hx.placed h
        rw [h4]
        rcases List.mem_append.1 hh with hm | hm
        · exact List.mem_append_left _ hm
        · exact List.mem_append_right _ (List.mem_cons_of_mem _ hm)
    · rw [if_neg hE] at h8
      refine ⟨?_, ?_, huniq⟩
      · rw [h8]; exact sorted_replace hs rfl
      · rw [h8]
        intro h hh i r' hr'
        rcases List.mem_append.1 hh with hm | hm
        · exact hx.placed h (by rw [h4]; exact List.mem_append_left _ hm) i r' hr'
        · rcases List.mem_cons.1 hm with rfl | hm
          · have hold := hx.placed hd (by rw [h4]; simp)
            refine placed_setBucket hold (alphaIndex_lt h3) ?_ i r' hr'
            intro r'' hr''
            apply hold b r''
            rw [u1]
            rw [u3] at hr''
            rcases List.mem_append.1 hr'' with hm' | hm'
            · exact List.mem_append_left _ hm'
            · exact List.mem_append_right _ (List.mem_cons_of_mem _ hm')
          · exact hx.placed h (by rw [h4]; exact List.mem_append_right _ (List.mem_cons_of_mem _ hm))
              i r' hr'

/-! ## Copies and files -/

theorem copyBucket_eq (l : List ITEM2) : copyBucket l = l := by
  induction l with
  | nil => rfl
  | cons a l ih => simp [copyBucket, ih, cloneItem2_eq]

theorem copyHeader_eq (h : HEADER_C) : copyHeader h = h := by
  cases h with
  | mk c items ha =>
    have : items.map copyBucket = items := by
      rw [show copyBucket = id from funext copyBucket_eq]
      exact List.map_id items
    simp [copyHeader, makeHeader, this]

theorem DataStructure.copy_eq (x : DataStructure) : x.copy = x := by
  cases x with
  | mk head =>
    simp only [DataStructure.copy, DataStructure.mk.injEq]
    rw [show copyHeader = id from funext copyHeader_eq]
    exact List.map_id head

/-- One iteration of the reading loop that goes through is one non-throwing `operator+=`. -/
theorem readItems_succ_ok {n : Nat} {s : IStream} {x y : DataStructure}
    (h : readItems (n + 1) s x = .ok y) :
    ∃ r s', (x.operatorPlusEq (some r)).thrown = none ∧
      readItems n s' (x.operatorPlusEq (some r)).state = .ok y := by
  unfold readItems at h
  simp only at h
  split_ifs at h
  all_goals
    split at h
    · exact absurd h (by simp)
    · rename_i hth
      exact ⟨_, _, hth, h⟩

theorem RepInv.of_readItems {n : Nat} {s : IStream} {x y : DataStructure} (hx : RepInv x)
    (h : readItems n s x = .ok y) : RepInv y := by
  induction n generalizing s x with
  | zero =>
    simp only [readItems, Except.ok.injEq] at h
    rw [← h]; exact hx
  | succ n ih =>
    obtain ⟨r, s', _, h2⟩ := readItems_succ_ok h
    exact ih (hx.after_insert (some r)) h2

theorem RepInv.of_read {file : List Nat} {y : DataStructure}
    (h : DataStructure.read file = .ok y) : RepInv y := by
  unfold DataStructure.read at h
  simp only at h
  split at h
  · simp at h
  · exact RepInv.of_readItems RepInv.of_empty h

/-- Every object a client can obtain satisfies the representation invariant. -/
theorem Reachable.inv {x : DataStructure} (h : Reachable x) : RepInv x := by
  induction h with
  | empty => exact RepInv.of_empty
  | insert p _ ih => exact ih.after_insert p
  | remove p _ ih => exact ih.after_remove p
  | copy _ ih => rw [DataStructure.copy_eq]; exact ih
  | read file h => exact RepInv.of_read h

/-! ## When `operator-=` throws -/

/-- Under the invariant, removing the id of a stored record does not throw. -/
theorem RepInv.operatorMinusEq_ok {x : DataStructure} (hx : RepInv x) {r : ITEM2}
    (hr : r ∈ x.items) : (x.operatorMinusEq r.pID).thrown = none := by
  obtain ⟨h, hh, i, hi⟩ := (x.mem_items r).1 hr
  obtain ⟨s, c2, hs, hp, ha⟩ := hx.placed h hh i r hi
  obtain ⟨k, hk, hg⟩ := findHeader_of_mem hx.sorted hh
  have hu : ∃ remaining, unlinkItem (h.bucket i) s = some remaining := by
    cases hsc : unlinkItem (h.bucket i) s with
    | some remaining => exact ⟨remaining, rfl⟩
    | none => exact absurd hs (unlinkItem_none.1 hsc r hi)
  obtain ⟨remaining, hu⟩ := hu
  rw [hs]
  unfold DataStructure.operatorMinusEq
  simp only [hp, hk, ha, hg, Option.getD_some, hu]
  split
  · split <;> rfl
  · rfl

/-- Once the id is parsed, the only exception `operator-=` throws is "No item with the
specified ID exists". -/
theorem operatorMinusEq_thrown_of_parsed {x : DataStructure} {p : Option (List Nat)}
    {cc : Nat × Nat} {e : Error} (hp : parseID p = .ok cc)
    (h : (x.operatorMinusEq p).thrown = some e) : e = Error.noSuchItem := by
  obtain ⟨c1, c2⟩ := cc
  unfold DataStructure.operatorMinusEq at h
  simp only [hp] at h
  split at h
  · simpa using h.symm
  · split at h
    · simpa using h.symm
    · split at h
      · simpa using h.symm
      · split at h
        · simpa using h.symm
        · split at h
          · split at h <;> simp at h
          · simp at h

/-! ## Empty headers -/

theorem all_nil_iff_getD (L : List (List ITEM2)) :
    (∀ l ∈ L, l = []) ↔ ∀ i, L.getD i [] = [] := by
  induction L with
  | nil => simp
  | cons l L ih =>
    constructor
    · intro h i
      cases i with
      | zero => simpa using h l (List.mem_cons_self _ _)
      | succ i =>
        have := (ih.1 fun l' hl' => h l' (List.mem_cons_of_mem _ hl')) i
        simpa using this
    · intro h l' hl'
      rcases List.mem_cons.1 hl' with rfl | hl'
      · simpa using h 0
      · exact (ih.2 fun i => by simpa using h (i + 1)) l' hl'

theorem HEADER_C.bucket_of_ge (h : HEADER_C) {i : Nat} (hi : ALPHA ≤ i) : h.bucket i = [] := by
  unfold HEADER_C.bucket
  rw [List.getD_eq_getElem?_getD, List.getElem?_eq_none (by rw [h.alpha]; exact hi)]
  rfl

/-- The check `isHeaderEmpty` of `operator-=` holds exactly when all 26 buckets are empty. -/
theorem HEADER_C.isHeaderEmpty_iff (h : HEADER_C) :
    h.isHeaderEmpty = true ↔ ∀ i, i < ALPHA → h.bucket i = [] := by
  unfold HEADER_C.isHeaderEmpty
  rw [List.all_eq_true]
  simp only [List.isEmpty_iff]
  rw [all_nil_iff_getD]
  constructor
  · intro hall i _
    exact hall i
  · intro hall i
    by_cases hi : i < ALPHA
    · exact hall i hi
    · exact h.bucket_of_ge (Nat.le_of_not_lt hi)

/-! ## Equality -/

theorem sameCodeAndTime_iff (a b : ITEM2) :
    sameCodeAndTime a b = true ↔ a.Code = b.Code ∧ a.pTime = b.pTime := by
  unfold sameCodeAndTime
  cases hta : a.pTime with
  | none =>
    cases htb : b.pTime with
    | none => by_cases hc : a.Code = b.Code <;> simp [hc]
    | some tb => by_cases hc : a.Code = b.Code <;> simp [hc]
  | some ta =>
    cases htb : b.pTime with
    | none => by_cases hc : a.Code = b.Code <;> simp [hc]
    | some tb =>
      by_cases hc : a.Code = b.Code
      · simp only [hc, ne_eq, not_true_eq_false, if_false, Option.isSome_some, true_and,
          Option.some.injEq]
        cases ta with
        | mk h1 m1 s1 =>
          cases tb with
          | mk h2 m2 s2 =>
            simp only [TIME.mk.injEq]
            by_cases e1 : h1 = h2 <;> by_cases e2 : m1 = m2 <;> by_cases e3 : s1 = s2 <;>
              simp [e1, e2, e3]
      · simp [hc]

theorem RepInv.items_nodup {x : DataStructure} (hx : RepInv x) : x.items.Nodup :=
  List.Nodup.of_map _ hx.unique

/-- Under the invariant `operator==` holds exactly when the counts agree and every record
of the left object is a record of the right one. -/
theorem operatorEqEq_iff {a b : DataStructure} (hb : RepInv b) :
    a.operatorEqEq b = true ↔
      a.items.length = b.items.length ∧ ∀ r ∈ a.items, r ∈ b.items := by
  unfold DataStructure.operatorEqEq
  rw [DataStructure.GetItemsNumber_eq, DataStructure.GetItemsNumber_eq]
  by_cases hlen : a.items.length = b.items.length
  · simp only [hlen, ne_eq, not_true_eq_false, if_false, List.all_eq_true, true_and]
    constructor
    · intro h r hr
      have hr' := h r hr
      cases hg : b.GetItem r.pID with
      | none => simp [hg] at hr'
      | some r' =>
        simp only [hg] at hr'
        obtain ⟨h1, h2⟩ := GetItem_some_mem hg
        obtain ⟨h3, h4⟩ := (sameCodeAndTime_iff r r').1 hr'
        have : r' = r := by
          cases r; cases r'
          simp only [ITEM2.mk.injEq]
          simp only at h2 h3 h4
          exact ⟨h2, h3.symm, h4.symm⟩
        rw [← this]; exact h1
    · intro h r hr
      rw [hb.GetItem_of_mem (h r hr)]
      exact (sameCodeAndTime_iff r r).2 ⟨rfl, rfl⟩
  · simp [hlen]

/-- Under the invariant of both objects `operator==` is equality of the sets of records. -/
theorem operatorEqEq_iff_same_records {a b : DataStructure} (ha : RepInv a) (hb : RepInv b) :
    a.operatorEqEq b = true ↔ ∀ r, r ∈ a.items ↔ r ∈ b.items := by
  rw [operatorEqEq_iff hb]
  constructor
  · rintro ⟨hlen, hsub⟩
    have hperm : a.items.Perm b.items :=
      (List.subperm_of_subset ha.items_nodup hsub).perm_of_length_le (by omega)
    intro r
    exact hperm.mem_iff
  · intro h
    have hperm : a.items.Perm b.items :=
      (List.perm_ext_iff_of_nodup ha.items_nodup hb.items_nodup).2 h
    exact ⟨hperm.length_eq, fun r hr => (h r).1 hr⟩

/-! ## Decoding what `Write` encodes -/

theorem u32Bytes_length (n : Nat) : (u32Bytes n).length = 4 := rfl

theorem u32OfBytes_u32Bytes {n : Nat} (h : n < 4294967296) : u32OfBytes (u32Bytes n) = n := by
  unfold u32OfBytes u32Bytes
  simp only [List.getD_cons_zero, List.getD_cons_succ]
  omega

theorem intOfBits_intBits {v : Int} (h1 : -2147483648 ≤ v) (h2 : v < 2147483648) :
    intOfBits (intBits v) = v := by
  unfold intOfBits intBits
  split <;> omega

theorem intBits_lt (v : Int) : intBits v < 4294967296 := by
  unfold intBits
  omega

theorem timeOfBytes_timeBytes {t : TIME} (h : t.inRange = true) :
    timeOfBytes (timeBytes t) = t := by
  unfold TIME.inRange at h
  simp only [Bool.and_eq_true, decide_eq_true_eq] at h
  obtain ⟨⟨⟨a1, a2⟩, ⟨b1, b2⟩⟩, ⟨c1, c2⟩⟩ := h
  cases t with
  | mk hh mm ss =>
    have e1 : (timeBytes ⟨hh, mm, ss⟩).take 4 = u32Bytes (intBits hh) := rfl
    have e2 : ((timeBytes ⟨hh, mm, ss⟩).drop 4).take 4 = u32Bytes (intBits mm) := rfl
    have e3 : ((timeBytes ⟨hh, mm, ss⟩).drop 8).take 4 = u32Bytes (intBits ss) := rfl
    unfold timeOfBytes
    rw [e1, e2, e3, u32OfBytes_u32Bytes (intBits_lt _), u32OfBytes_u32Bytes (intBits_lt _),
      u32OfBytes_u32Bytes (intBits_lt _), intOfBits_intBits a1 a2, intOfBits_intBits b1 b2,
      intOfBits_intBits c1 c2]

theorem timeBytes_length (t : TIME) : (timeBytes t).length = sizeofTIME := rfl

theorem IStream.read_append (bytes rest : List Nat) (n : Nat) (h : bytes.length = n) :
    IStream.read ⟨bytes ++ rest, true⟩ n = (some bytes, ⟨rest, true⟩) := by
  unfold IStream.read
  subst h
  simp

theorem cString_eq {s : List Nat} (h : ∀ c ∈ s, 0 < c ∧ c < 256) : cString s = s := by
  unfold cString
  rw [List.takeWhile_eq_self_iff]
  intro c hc
  have := (h c hc).1
  simp
  omega

theorem representable_spec {r : ITEM2} (h : r.representable = true) :
    ∃ s, r.pID = some s ∧ (∀ c ∈ s, 0 < c ∧ c < 256) ∧ s.length < 4294967296 ∧
      r.Code < 4294967296 ∧ ∀ t, r.pTime = some t → t.inRange = true := by
  unfold ITEM2.representable at h
  cases hp : r.pID with
  | none => simp [hp] at h
  | some s =>
    simp only [hp, Bool.and_eq_true, List.all_eq_true, decide_eq_true_eq] at h
    refine ⟨s, rfl, h.1.1.1, h.1.1.2, h.1.2, ?_⟩
    intro t ht
    simpa [ht] using h.2

theorem readable_spec {r : ITEM2} (h : r.readable = true) :
    r.representable = true ∧ ∀ s, r.pID = some s → s.length + 1 < 4294967296 := by
  unfold ITEM2.readable at h
  simp only [Bool.and_eq_true] at h
  refine ⟨h.1, ?_⟩
  intro s hs
  simpa [hs] using h.2

/-- One iteration of the reading loop on the bytes `Write` emits for a record the reading
constructor can take in: the record is rebuilt field by field and handed to
`operator+=`. -/
theorem readItems_writeItem (n : Nat) (r : ITEM2) (rest : List Nat) (y : DataStructure)
    (hread : r.readable = true) (hne : r.pID ≠ some []) :
    readItems (n + 1) ⟨writeItem r ++ rest, true⟩ y =
      match (y.operatorPlusEq (some r)).thrown with
      | some e => .error e
      | none => readItems n ⟨rest, true⟩ (y.operatorPlusEq (some r)).state := by
  obtain ⟨hrep, hfit⟩ := readable_spec hread
  obtain ⟨s, hs, hbytes, hlen, hcode, htime⟩ := representable_spec hrep
  have hlen1 : s.length + 1 < 4294967296 := hfit s hs
  have hmod1 : (s.length + 1) % 4294967296 = s.length + 1 := Nat.mod_eq_of_lt hlen1
  have hs0 : s.length ≠ 0 := by
    intro h0
    apply hne
    rw [hs, List.length_eq_zero.1 h0]
  have hmod : s.length % 4294967296 = s.length := Nat.mod_eq_of_lt hlen
  cases r with
  | mk pid code time =>
    simp only at hs hcode htime
    subst hs
    cases time with
    | none =>
      have hw : writeItem ⟨some s, code, none⟩ ++ rest =
          u32Bytes s.length ++ (s ++ (u32Bytes code ++ ([0] ++ rest))) := by
        simp [writeItem, codeBytes, hmod]
      rw [hw, readItems]
      simp only [IStream.read_append _ _ 4 (u32Bytes_length _), u32OfBytes_u32Bytes hlen,
        IStream.read_append s _ s.length rfl, u32OfBytes_u32Bytes hcode,
        IStream.read_append [0] _ 1 rfl, cString_eq hbytes]
      simp [hs0, cString_eq hbytes, hmod1]
    | some t =>
      have hw : writeItem ⟨some s, code, some t⟩ ++ rest =
          u32Bytes s.length ++ (s ++ (u32Bytes code ++ ([1] ++ (timeBytes t ++ rest)))) := by
        simp [writeItem, codeBytes, hmod]
      rw [hw, readItems]
      simp only [IStream.read_append _ _ 4 (u32Bytes_length _), u32OfBytes_u32Bytes hlen,
        IStream.read_append s _ s.length rfl, u32OfBytes_u32Bytes hcode,
        IStream.read_append [1] _ 1 rfl, cString_eq hbytes]
      simp [hs0, IStream.read_append _ _ sizeofTIME (timeBytes_length t),
        timeOfBytes_timeBytes (htime t rfl), cString_eq hbytes, hmod1]

/-- One iteration of the reading loop on the bytes `Write` emits for a representable record
whose id has `2^32 - 1` bytes: the size of the id buffer wraps to 0 and the copy of the id
runs past it. -/
theorem readItems_writeItem_overrun (n : Nat) (r : ITEM2) (rest : List Nat)
    (y : DataStructure) (hrep : r.representable = true)
    (hmax : ∀ s, r.pID = some s → s.length = 4294967295) :
    readItems (n + 1) ⟨writeItem r ++ rest, true⟩ y = .error .idBufferOverrun := by
  obtain ⟨s, hs, hbytes, hlen, hcode, htime⟩ := representable_spec hrep
  have hmaxs : s.length = 4294967295 := hmax s hs
  have hs0 : s.length ≠ 0 := by omega
  have hmod : s.length % 4294967296 = s.length := Nat.mod_eq_of_lt hlen
  have hov : (s.length + 1) % 4294967296 < s.length + 1 := by
    rw [hmaxs]; norm_num
  cases r with
  | mk pid code time =>
    simp only at hs hcode htime
    subst hs
    cases time with
    | none =>
      have hw : writeItem ⟨some s, code, none⟩ ++ rest =
          u32Bytes s.length ++ (s ++ (u32Bytes code ++ ([0] ++ rest))) := by
        simp [writeItem, codeBytes, hmod]
      rw [hw, readItems]
      simp only [IStream.read_append _ _ 4 (u32Bytes_length _), u32OfBytes_u32Bytes hlen,
        IStream.read_append s _ s.length rfl, u32OfBytes_u32Bytes hcode,
        IStream.read_append [0] _ 1 rfl, cString_eq hbytes]
      simp [hs0, hov]
    | some t =>
      have hw : writeItem ⟨some s, code, some t⟩ ++ rest =
          u32Bytes s.length ++ (s ++ (u32Bytes code ++ ([1] ++ (timeBytes t ++ rest)))) := by
        simp [writeItem, codeBytes, hmod]
      rw [hw, readItems]
      simp only [IStream.read_append _ _ 4 (u32Bytes_length _), u32OfBytes_u32Bytes hlen,
        IStream.read_append s _ s.length rfl, u32OfBytes_u32Bytes hcode,
        IStream.read_append [1] _ 1 rfl, cString_eq hbytes]
      simp [hs0, IStream.read_append _ _ sizeofTIME (timeBytes_length t), hov]

theorem parseID_nil_ne_ok (cc : Nat × Nat) : parseID (some []) ≠ .ok cc := by
  simp [parseID, strchr]

/-- Reading back the bytes of a list of records that can all be inserted: the loop goes
through and the resulting object holds the old records and those of the list. -/
theorem readItems_written (L : List ITEM2) (rest : List Nat) (y0 : DataStructure)
    (hy0 : RepInv y0) (hrep : ∀ r ∈ L, r.readable = true)
    (hplaced : ∀ r ∈ L, ∃ c1 c2 b, parseID r.pID = .ok (c1, c2) ∧ alphaIndex c2 = some b)
    (hnodup : (L.map ITEM2.pID).Nodup)
    (hfresh : ∀ r ∈ L, ∀ q ∈ y0.items, q.pID ≠ r.pID) :
    ∃ y, readItems L.length ⟨(L.map writeItem).flatten ++ rest, true⟩ y0 = .ok y ∧
      RepInv y ∧ ∀ q, q ∈ y.items ↔ q ∈ y0.items ∨ q ∈ L := by
  induction L generalizing y0 with
  | nil => exact ⟨y0, rfl, hy0, by simp⟩
  | cons r L ih =>
    obtain ⟨c1, c2, b, hp, ha⟩ := hplaced r (List.mem_cons_self _ _)
    have hne : r.pID ≠ some [] := by
      intro h
      rw [h] at hp
      exact parseID_nil_ne_ok _ hp
    have hg : y0.GetItem r.pID = none :=
      hy0.GetItem_eq_none_iff.2 (hfresh r (List.mem_cons_self _ _))
    have hok := operatorPlusEq_succeeds hp hg ha
    obtain ⟨r', _, _, _, L1, L2, e1, _, _, _, e5, e6⟩ := operatorPlusEq_items_of_ok hok
    have : r' = r := (Option.some.inj e1).symm
    subst this
    have hmem : ∀ q, q ∈ (y0.operatorPlusEq (some r')).state.items ↔ q = r' ∨ q ∈ y0.items := by
      intro q
      rw [e6, e5]
      simp only [List.mem_append, List.mem_cons]
      tauto
    rw [List.map_cons, List.nodup_cons] at hnodup
    obtain ⟨y, h1, h2, h3⟩ := ih (y0.operatorPlusEq (some r')).state (hy0.after_insert _)
      (fun q hq => hrep q (List.mem_cons_of_mem _ hq))
      (fun q hq => hplaced q (List.mem_cons_of_mem _ hq)) hnodup.2
      (by
        intro q hq q' hq' hid
        rcases (hmem q').1 hq' with h | h
        · subst h
          exact hnodup.1 (by rw [hid]; exact List.mem_map_of_mem _ hq)
        · exact hfresh q (List.mem_cons_of_mem _ hq) q' h hid)
    refine ⟨y, ?_, h2, ?_⟩
    · simp only [List.map_cons, List.flatten_cons, List.length_cons, List.append_assoc]
      rw [readItems_writeItem L.length r' _ y0 (hrep r' (List.mem_cons_self _ _)) hne]
      simp only [hok]
      exact h1
    · intro q
      rw [h3, hmem]
      simp only [List.mem_cons]
      tauto

theorem read_header (count : Nat) (body : List Nat) (hc : count < 4294967296) :
    DataStructure.read (u32Bytes 0x53324453 ++ u32Bytes 1 ++ u32Bytes count ++ body) =
      readItems count ⟨body, true⟩ DataStructure.empty := by
  have hr : IStream.read ⟨u32Bytes 0x53324453 ++ u32Bytes 1 ++ u32Bytes count ++ body, true⟩ 12 =
      (some (u32Bytes 0x53324453 ++ u32Bytes 1 ++ u32Bytes count), ⟨body, true⟩) :=
    IStream.read_append _ body 12 rfl
  have e1 : (u32Bytes 0x53324453 ++ u32Bytes 1 ++ u32Bytes count).take 4 = u32Bytes 0x53324453 :=
    rfl
  have e2 : ((u32Bytes 0x53324453 ++ u32Bytes 1 ++ u32Bytes count).drop 4).take 4 = u32Bytes 1 :=
    rfl
  have e3 : ((u32Bytes 0x53324453 ++ u32Bytes 1 ++ u32Bytes count).drop 8).take 4 =
      u32Bytes count := rfl
  unfold DataStructure.read
  simp only [hr, Option.getD_some, e1, e2, e3, u32OfBytes_u32Bytes hc]
  rw [u32OfBytes_u32Bytes (by norm_num), u32OfBytes_u32Bytes (by norm_num)]
  simp

/-! ## Verified claims -/

/-- Writing and reading back: for every reachable object `x` that is not empty, holds
fewer than `2^32` records and whose records the reading constructor can take in (C-string
ids of at most `2^32 - 2` bytes, codes that fit in 32 bits, `int` time fields), `Write`
succeeds, the reading constructor applied to the bytes written succeeds, and the object
`y` it builds compares equal to `x` with `operator==` in both directions: it stores
exactly the records of `x`, each with the same id, code, time presence and time values. -/
theorem write_read_round_trip (x : DataStructure) (hx : Reachable x)
    (hne : x.GetItemsNumber ≠ 0) (hcount : x.GetItemsNumber < 4294967296)
    (hrep : ∀ r ∈ x.items, r.readable = true) :
    ∃ file y, x.Write = .ok file ∧ DataStructure.read file = .ok y ∧
      y.operatorEqEq x = true ∧ x.operatorEqEq y = true ∧
      ∀ r, r ∈ y.items ↔ r ∈ x.items := by
  have hinv := hx.inv
  have hplaced : ∀ r ∈ x.items, ∃ c1 c2 b, parseID r.pID = .ok (c1, c2) ∧
      alphaIndex c2 = some b := by
    intro r hr
    obtain ⟨h, hh, i, hi⟩ := (x.mem_items r).1 hr
    obtain ⟨s, c2, e1, e2, e3⟩ := hinv.placed h hh i r hi
    exact ⟨h.cBegin, c2, i, by rw [e1]; exact e2, e3⟩
  obtain ⟨y, h1, h2, h3⟩ := readItems_written x.items [] DataStructure.empty RepInv.of_empty
    hrep hplaced hinv.unique (by
      intro r _ q hq
      simp [DataStructure.empty, DataStructure.items] at hq)
  have hmem : ∀ r, r ∈ y.items ↔ r ∈ x.items := by
    intro r
    rw [h3]
    simp [DataStructure.empty, DataStructure.items]
  refine ⟨u32Bytes 0x53324453 ++ u32Bytes 1 ++ u32Bytes x.GetItemsNumber ++
      (x.items.map writeItem).flatten, y, ?_, ?_, ?_, ?_, hmem⟩
  · unfold DataStructure.Write
    simp only [hne, if_false]
  · rw [read_header _ _ hcount, DataStructure.GetItemsNumber_eq]
    simpa using h1
  · exact (operatorEqEq_iff_same_records h2 hinv).2 hmem
  · exact (operatorEqEq_iff_same_records hinv h2).2 fun r => (hmem r).symm

/-- The id `idLong n` has `n + 2` bytes. -/
theorem idLong_length (n : Nat) : (idLong n).length = n + 2 := by
  simp [idLong]

/-- The record `recLong n` is representable as long as its id is shorter than `2^32`
bytes. -/
theorem recLong_representable (n : Nat) (h : n + 2 < 4294967296) :
    (recLong n).representable = true := by
  have hall : ∀ c ∈ idLong n, 0 < c ∧ c < 256 := by
    intro c hc
    simp only [idLong, List.mem_cons, List.mem_replicate] at hc
    rcases hc with rfl | rfl | ⟨_, rfl⟩ <;> decide
  have hlen : (idLong n).length < 4294967296 := by
    rw [idLong_length]; exact h
  simp only [ITEM2.representable, recLong, Bool.and_eq_true, List.all_eq_true,
    decide_eq_true_eq]
  exact ⟨⟨⟨fun c hc => hall c hc, hlen⟩, by norm_num⟩, trivial⟩

/-- The id `idLong (k + 1)` has the initials 'A' and 'B'. -/
theorem parseID_idLong (k : Nat) : parseID (some (idLong (k + 1))) = .ok (65, 66) := by
  simp [parseID, idLong, strchr, charAt, List.replicate_succ]

/-- Inserting `recLong (k + 1)` into the empty object succeeds and stores that record
alone. -/
theorem indexLong_spec (k : Nat) :
    (DataStructure.empty.operatorPlusEq (some (recLong (k + 1)))).thrown = none ∧
      (indexLong (k + 1)).items = [recLong (k + 1)] := by
  have hp : parseID (recLong (k + 1)).pID = .ok (65, 66) := parseID_idLong k
  have hg : DataStructure.empty.GetItem (recLong (k + 1)).pID = none := by
    show DataStructure.empty.GetItem (some (idLong (k + 1))) = none
    unfold DataStructure.GetItem
    simp only [parseID_idLong k]
    rfl
  have hok : (DataStructure.empty.operatorPlusEq (some (recLong (k + 1)))).thrown = none :=
    operatorPlusEq_succeeds hp hg (by decide : alphaIndex 66 = some 1)
  refine ⟨hok, ?_⟩
  obtain ⟨r, c1, c2, b, L1, L2, h1, _, _, _, h5, h6⟩ := operatorPlusEq_items_of_ok hok
  have hr : recLong (k + 1) = r := Option.some.inj h1
  have hnil : L1 ++ L2 = [] := by
    rw [← h5]; rfl
  obtain ⟨hL1, hL2⟩ := List.append_eq_nil.1 hnil
  show (DataStructure.empty.operatorPlusEq (some (recLong (k + 1)))).state.items = _
  rw [h6, hL1, hL2, hr]
  rfl

/-- Writing the object that holds the record `recLong n` alone, `n + 2` being `2^32 - 1`,
and reading the bytes back: the record is within the bounds of the file format, the
insertion and `Write` succeed, and the reading constructor overruns the id buffer. -/
theorem indexLong_write_read (n : Nat) (hn : n + 2 = 4294967295) :
    (idLong n).length = 4294967295 ∧
      (recLong n).representable = true ∧
      Reachable (indexLong n) ∧ ReachableOk (indexLong n) ∧
      (indexLong n).items = [recLong n] ∧
      (indexLong n).GetItemsNumber = 1 ∧
      (indexLong n).Write =
        .ok (u32Bytes 0x53324453 ++ u32Bytes 1 ++ u32Bytes 1 ++ writeItem (recLong n)) ∧
      DataStructure.read
          (u32Bytes 0x53324453 ++ u32Bytes 1 ++ u32Bytes 1 ++ writeItem (recLong n)) =
        .error Error.idBufferOverrun ∧
      Error.idBufferOverrun.kind = ErrorClass.UndefinedBehaviour := by
  obtain ⟨k, rfl⟩ : ∃ k, n = k + 1 := ⟨n - 1, by omega⟩
  obtain ⟨hok, hitems⟩ := indexLong_spec k
  have hlen : (idLong (k + 1)).length = 4294967295 := by
    rw [idLong_length]; exact hn
  have hrep : (recLong (k + 1)).representable = true :=
    recLong_representable (k + 1) (by omega)
  have hcount : (indexLong (k + 1)).GetItemsNumber = 1 := by
    rw [DataStructure.GetItemsNumber_eq, hitems]; rfl
  refine ⟨hlen, hrep, Reachable.insert _ Reachable.empty,
    ReachableOk.insert _ ReachableOk.empty hok, hitems, hcount, ?_, ?_, rfl⟩
  · unfold DataStructure.Write
    simp only [hcount, hitems, List.map_cons, List.map_nil, List.flatten_cons,
      List.flatten_nil, List.append_nil]
    rfl
  · rw [read_header 1 _ (by norm_num)]
    have h := readItems_writeItem_overrun 0 (recLong (k + 1)) [] DataStructure.empty hrep
      (by
        intro s hs
        have : idLong (k + 1) = s := Option.some.inj hs
        rw [← this]; exact hlen)
    simpa using h

/-- C1 (evaluation at the failing input): the object that holds the single record with the
id "A BB...B" of `2^32 - 1` bytes (shorter than `2^32`), code 1 and no time is obtained from
the empty object by one successful `operator+=`, and `Write` succeeds on it; but the
reading constructor, given the bytes written, does not build an object equal to it: it
computes the size `idLength + 1` of the id buffer in `uint32_t`, which wraps to 0, and
copies the `2^32 - 1` id bytes past the end of that buffer. -/
theorem C1_read_overruns_longest_id :
    (idLong 4294967293).length = 4294967295 ∧
      (recLong 4294967293).representable = true ∧
      Reachable (indexLong 4294967293) ∧ ReachableOk (indexLong 4294967293) ∧
      (indexLong 4294967293).items = [recLong 4294967293] ∧
      (indexLong 4294967293).GetItemsNumber = 1 ∧
      (indexLong 4294967293).Write =
        .ok (u32Bytes 0x53324453 ++ u32Bytes 1 ++ u32Bytes 1 ++
          writeItem (recLong 4294967293)) ∧
      DataStructure.read
          (u32Bytes 0x53324453 ++ u32Bytes 1 ++ u32Bytes 1 ++
            writeItem (recLong 4294967293)) =
        .error Error.idBufferOverrun ∧
      Error.idBufferOverrun.kind = ErrorClass.UndefinedBehaviour :=
  indexLong_write_read 4294967293 (by norm_num)

/-- C2 (evaluation at the failing input): inserting a record with id "Al 1" into the empty
object throws "Invalid ID: second word initial not a letter", yet the object is not left as
it was: the header list now holds a header for 'A' with 26 empty buckets, because
`operator+=` links the new header before it checks the second initial. -/
theorem C2_failed_insert_leaves_header :
    (DataStructure.empty.operatorPlusEq (some ⟨some idAlOne, 7, none⟩)).thrown =
        some Error.secondInitialNotLetter ∧
      (DataStructure.empty.operatorPlusEq (some ⟨some idAlOne, 7, none⟩)).state =
        ⟨[makeHeader 65]⟩ ∧
      (DataStructure.empty.operatorPlusEq (some ⟨some idAlOne, 7, none⟩)).state ≠
        DataStructure.empty := by
  decide

/-- C3: in a reachable object that stores a record with id `s`, `operator+=` of any record
whose id is `s` throws "Item with this ID already exists" (class DuplicateIdentifier),
and the object, hence its count and its content, is exactly as before. -/
theorem C3_duplicate_rejected (x : DataStructure) (hx : Reachable x) (s : List Nat)
    (stored : ITEM2) (hstored : stored ∈ x.items) (hs : stored.pID = some s)
    (r : ITEM2) (hr : r.pID = some s) :
    (x.operatorPlusEq (some r)).thrown = some Error.itemExists ∧
      Error.itemExists.kind = ErrorClass.DuplicateIdentifier ∧
      (x.operatorPlusEq (some r)).state = x ∧
      (x.operatorPlusEq (some r)).state.GetItemsNumber = x.GetItemsNumber ∧
      (x.operatorPlusEq (some r)).state.items = x.items := by
  have hinv := hx.inv
  obtain ⟨h, hh, i, hi⟩ := (x.mem_items stored).1 hstored
  obtain ⟨s', c2, e1, e2, _⟩ := hinv.placed h hh i stored hi
  have hss : s' = s := by
    rw [hs] at e1
    exact (Option.some.inj e1).symm
  subst hss
  have hg : x.GetItem (some s') = some stored := by
    rw [← hs]; exact hinv.GetItem_of_mem hstored
  have hst : x.operatorPlusEq (some r) = ⟨x, some Error.itemExists⟩ := by
    unfold DataStructure.operatorPlusEq
    simp [hr, e2, hg]
  rw [hst]
  exact ⟨rfl, rfl, rfl, rfl, rfl⟩

/-- C3 at a concrete input: "Alice Smith" inserted a second time, with another code. -/
theorem C3_duplicate_rejected_witness :
    (indexAlice.operatorPlusEq (some ⟨some idAliceSmith, 9, none⟩)).thrown =
        some Error.itemExists ∧
      Error.itemExists.kind = ErrorClass.DuplicateIdentifier ∧
      (indexAlice.operatorPlusEq (some ⟨some idAliceSmith, 9, none⟩)).state = indexAlice ∧
      (indexAlice.operatorPlusEq (some ⟨some idAliceSmith, 9, none⟩)).state.GetItemsNumber =
        indexAlice.GetItemsNumber ∧
      (indexAlice.operatorPlusEq (some ⟨some idAliceSmith, 9, none⟩)).state.items =
        indexAlice.items :=
  C3_duplicate_rejected indexAlice (Reachable.insert _ Reachable.empty) idAliceSmith recAlice
    (by decide) rfl ⟨some idAliceSmith, 9, none⟩ rfl

/-- C4: when `operator+=` of `r` on a reachable object does not throw, `GetItem` with the
id of `r` returns a record equal to `r` in id, code and time, and `GetItem` with any other
argument returns what it returned before the call. -/
theorem C4_find_after_insert (x : DataStructure) (hx : Reachable x) (r : ITEM2)
    (hok : (x.operatorPlusEq (some r)).thrown = none) :
    (x.operatorPlusEq (some r)).state.GetItem r.pID = some r ∧
      ∀ p : Option (List Nat), p ≠ r.pID →
        (x.operatorPlusEq (some r)).state.GetItem p = x.GetItem p := by
  have hinv := hx.inv
  have hinv' := hinv.after_insert (some r)
  obtain ⟨r', c1, c2, b, L1, L2, e1, _, _, _, e5, e6⟩ := operatorPlusEq_items_of_ok hok
  have : r' = r := (Option.some.inj e1).symm
  subst this
  have hmem : ∀ q, q ∈ (x.operatorPlusEq (some r')).state.items ↔ q = r' ∨ q ∈ x.items := by
    intro q
    rw [e6, e5]
    simp only [List.mem_append, List.mem_cons]
    tauto
  constructor
  · exact hinv'.GetItem_of_mem ((hmem r').2 (Or.inl rfl))
  · intro p hp
    apply Option.ext
    intro q
    simp only [Option.mem_def]
    rw [hinv'.GetItem_eq_some_iff, hinv.GetItem_eq_some_iff, hmem]
    constructor
    · rintro ⟨h1 | h1, h2⟩
      · subst h1
        exact absurd h2.symm hp
      · exact ⟨h1, h2⟩
    · rintro ⟨h1, h2⟩
      exact ⟨Or.inr h1, h2⟩

/-- C4 at a concrete input: "Bob Smith" inserted after "Alice Smith". -/
theorem C4_find_after_insert_witness :
    (indexAlice.operatorPlusEq (some recBob)).state.GetItem recBob.pID = some recBob ∧
      ∀ p : Option (List Nat), p ≠ recBob.pID →
        (indexAlice.operatorPlusEq (some recBob)).state.GetItem p = indexAlice.GetItem p :=
  C4_find_after_insert indexAlice (Reachable.insert _ Reachable.empty) recBob (by decide)

/-- C5: for every object, `GetItemsNumber` after an `operator+=` that does not throw is the
count before plus 1; after an `operator-=` that does not throw it is the count before
minus 1 (the count before being at least 1); after an `operator+=` or `operator-=` that
throws it is the count before. -/
theorem C5_count_arithmetic (x : DataStructure) :
    (∀ p, (x.operatorPlusEq p).thrown = none →
        (x.operatorPlusEq p).state.GetItemsNumber = x.GetItemsNumber + 1) ∧
      (∀ pID, (x.operatorMinusEq pID).thrown = none →
        1 ≤ x.GetItemsNumber ∧
          (x.operatorMinusEq pID).state.GetItemsNumber = x.GetItemsNumber - 1) ∧
      (∀ p e, (x.operatorPlusEq p).thrown = some e →
        (x.operatorPlusEq p).state.GetItemsNumber = x.GetItemsNumber) ∧
      (∀ pID e, (x.operatorMinusEq pID).thrown = some e →
        (x.operatorMinusEq pID).state.GetItemsNumber = x.GetItemsNumber) := by
  refine ⟨?_, ?_, ?_, ?_⟩
  · intro p h
    obtain ⟨r, c1, c2, b, L1, L2, _, _, _, _, e5, e6⟩ := operatorPlusEq_items_of_ok h
    rw [DataStructure.GetItemsNumber_eq, DataStructure.GetItemsNumber_eq, e5, e6]
    simp only [List.length_append, List.length_cons]
    omega
  · intro p h
    obtain ⟨r, L1, L2, _, e2, e3⟩ := operatorMinusEq_items_of_ok h
    rw [DataStructure.GetItemsNumber_eq, DataStructure.GetItemsNumber_eq, e2, e3]
    simp only [List.length_append, List.length_cons]
    omega
  · intro p e h
    rw [DataStructure.GetItemsNumber_eq, DataStructure.GetItemsNumber_eq,
      operatorPlusEq_items_of_thrown h]
  · intro p e h
    rcases operatorMinusEq_cases x p with ⟨h1, _⟩ | ⟨_, _, _, _, _, _, _, _, _, _, _, _, _, _, _, _, h9⟩
    · rw [h1]
    · rw [h9] at h
      simp at h

/-- C5 at concrete inputs: a successful and a failed insert, a successful and a failed
remove on the object holding "Alice Smith" and "Bob Smith". -/
theorem C5_count_arithmetic_witness :
    ((indexAliceBob.operatorPlusEq (some ⟨some [67, 32, 68], 3, none⟩)).thrown = none ∧
        (indexAliceBob.operatorPlusEq (some ⟨some [67, 32, 68], 3, none⟩)).state.GetItemsNumber =
          indexAliceBob.GetItemsNumber + 1) ∧
      ((indexAliceBob.operatorMinusEq (some idAliceSmith)).thrown = none ∧
        (indexAliceBob.operatorMinusEq (some idAliceSmith)).state.GetItemsNumber =
          indexAliceBob.GetItemsNumber - 1) ∧
      ((indexAliceBob.operatorPlusEq (some ⟨some idAlOne, 7, none⟩)).thrown =
          some Error.secondInitialNotLetter ∧
        (indexAliceBob.operatorPlusEq (some ⟨some idAlOne, 7, none⟩)).state.GetItemsNumber =
          indexAliceBob.GetItemsNumber) ∧
      ((indexAliceBob.operatorMinusEq (some idAlOne)).thrown = some Error.noSuchItem ∧
        (indexAliceBob.operatorMinusEq (some idAlOne)).state.GetItemsNumber =
          indexAliceBob.GetItemsNumber) :=
  ⟨⟨by decide, (C5_count_arithmetic indexAliceBob).1 _ (by decide)⟩,
    ⟨by decide, ((C5_count_arithmetic indexAliceBob).2.1 _ (by decide)).2⟩,
    ⟨by decide, (C5_count_arithmetic indexAliceBob).2.2.1 _ _
      (by decide : (indexAliceBob.operatorPlusEq (some ⟨some idAlOne, 7, none⟩)).thrown =
        some Error.secondInitialNotLetter)⟩,
    ⟨by decide, (C5_count_arithmetic indexAliceBob).2.2.2 _ _
      (by decide : (indexAliceBob.operatorMinusEq (some idAlOne)).thrown =
        some Error.noSuchItem)⟩⟩

/-- C6: in a reachable object that stores a record with id `s`, `operator-=` of `s` does
not throw; afterwards `GetItem` of `s` returns null, and for every other stored record
`GetItem` of its id still returns that record, with the same code and time. -/
theorem C6_find_after_remove (x : DataStructure) (hx : Reachable x) (s : List Nat)
    (stored : ITEM2) (hstored : stored ∈ x.items) (hs : stored.pID = some s) :
    (x.operatorMinusEq (some s)).thrown = none ∧
      (x.operatorMinusEq (some s)).state.GetItem (some s) = none ∧
      ∀ t ∈ x.items, t.pID ≠ some s →
        (x.operatorMinusEq (some s)).state.GetItem t.pID = some t := by
  have hinv := hx.inv
  have hinv' := hinv.after_remove (some s)
  have hok : (x.operatorMinusEq (some s)).thrown = none := by
    rw [← hs]; exact hinv.operatorMinusEq_ok hstored
  obtain ⟨r, L1, L2, e1, e2, e3⟩ := operatorMinusEq_items_of_ok hok
  have hu := hinv.unique
  rw [e2, List.map_append, List.map_cons] at hu
  have hu' := List.nodup_middle.1 hu
  rw [List.nodup_cons, ← List.map_append] at hu'
  refine ⟨hok, ?_, ?_⟩
  · rw [hinv'.GetItem_eq_none_iff, e3]
    intro q hq hqid
    apply hu'.1
    rw [e1, ← hqid]
    exact List.mem_map_of_mem _ hq
  · intro t ht hts
    apply hinv'.GetItem_of_mem
    rw [e3]
    rw [e2] at ht
    rcases List.mem_append.1 ht with h | h
    · exact List.mem_append_left _ h
    · rcases List.mem_cons.1 h with h | h
      · rw [h, e1] at hts
        exact absurd rfl hts
      · exact List.mem_append_right _ h

/-- C6 at a concrete input: "Alice Smith" removed from the object that holds "Alice Smith"
and "Bob Smith". -/
theorem C6_find_after_remove_witness :
    (indexAliceBob.operatorMinusEq (some idAliceSmith)).thrown = none ∧
      (indexAliceBob.operatorMinusEq (some idAliceSmith)).state.GetItem (some idAliceSmith) =
        none ∧
      ∀ t ∈ indexAliceBob.items, t.pID ≠ some idAliceSmith →
        (indexAliceBob.operatorMinusEq (some idAliceSmith)).state.GetItem t.pID = some t :=
  C6_find_after_remove indexAliceBob (Reachable.insert _ (Reachable.insert _ Reachable.empty))
    idAliceSmith recAlice (by decide) rfl

/-- C7: for every object and every id that no stored record has, `operator-=` throws and
leaves the object exactly as it was; when `parseID` accepts the id (a well-formed two-word
id), the exception is "No item with the specified ID exists" (class NotFound), whether the
first initial has no header, the second initial is not a letter, or the bucket does not
hold the id. -/
theorem C7_remove_absent (x : DataStructure) (pID : Option (List Nat))
    (habsent : ∀ r ∈ x.items, r.pID ≠ pID) :
    (∃ e, (x.operatorMinusEq pID).thrown = some e ∧
        ∀ cc, parseID pID = .ok cc → e = Error.noSuchItem ∧ e.kind = ErrorClass.NotFound) ∧
      (x.operatorMinusEq pID).state = x := by
  rcases operatorMinusEq_cases x pID with ⟨h1, e, he⟩ |
      ⟨s, c1, c2, b, pre, hd, post, remaining, _, _, _, _, _, _, _, _, h9⟩
  · refine ⟨⟨e, he, ?_⟩, h1⟩
    intro cc hcc
    have := operatorMinusEq_thrown_of_parsed hcc he
    subst this
    exact ⟨rfl, rfl⟩
  · obtain ⟨r, L1, L2, e1, e2, _⟩ := operatorMinusEq_items_of_ok h9
    exact absurd e1 (habsent r (by rw [e2]; simp))

/-- C7 at a concrete input: "Bob Smith" removed from the object that holds only
"Alice Smith" (no header for 'B'). -/
theorem C7_remove_absent_witness :
    (∃ e, (indexAlice.operatorMinusEq (some idBobSmith)).thrown = some e ∧
        ∀ cc, parseID (some idBobSmith) = .ok cc →
          e = Error.noSuchItem ∧ e.kind = ErrorClass.NotFound) ∧
      (indexAlice.operatorMinusEq (some idBobSmith)).state = indexAlice :=
  C7_remove_absent indexAlice (some idBobSmith) (by decide)

/-- C8: for reachable objects `a` and `b`, `operator==` returns true if and only if `a` and
`b` store exactly the same records (same id, same code, same time presence and values);
so the result depends only on the sets of records, not on their order inside the buckets,
and comparing in the other direction gives the same result although only the records of
the left operand are traversed. -/
theorem C8_equality_is_set_equality (a b : DataStructure) (ha : Reachable a)
    (hb : Reachable b) :
    (a.operatorEqEq b = true ↔ ∀ r, r ∈ a.items ↔ r ∈ b.items) ∧
      a.operatorEqEq b = b.operatorEqEq a := by
  have h1 := operatorEqEq_iff_same_records ha.inv hb.inv
  have h2 := operatorEqEq_iff_same_records hb.inv ha.inv
  refine ⟨h1, ?_⟩
  have hiff : a.operatorEqEq b = true ↔ b.operatorEqEq a = true := by
    rw [h1, h2]
    exact ⟨fun h r => (h r).symm, fun h r => (h r).symm⟩
  cases hab : a.operatorEqEq b <;> cases hba : b.operatorEqEq a <;> simp_all

/-- C8 at a concrete input: the object holding "Alice Smith" and "Bob Smith" against the
one holding only "Alice Smith". -/
theorem C8_equality_is_set_equality_witness :
    (indexAliceBob.operatorEqEq indexAlice = true ↔
        ∀ r, r ∈ indexAliceBob.items ↔ r ∈ indexAlice.items) ∧
      indexAliceBob.operatorEqEq indexAlice = indexAlice.operatorEqEq indexAliceBob :=
  C8_equality_is_set_equality indexAliceBob indexAlice
    (Reachable.insert _ (Reachable.insert _ Reachable.empty))
    (Reachable.insert _ Reachable.empty)

/-- C9: for every reachable object `x` (whatever calls produced it, throwing or not), the
copy made by the copy constructor compares equal to `x` with `operator==` in both
directions, and it is the same structure: the same header sequence with the same records
in the same order in every bucket. -/
theorem C9_copy_equals_original (x : DataStructure) (hx : Reachable x) :
    x.copy.operatorEqEq x = true ∧ x.operatorEqEq x.copy = true ∧ x.copy = x := by
  have hinv := hx.inv
  have hself : x.operatorEqEq x = true := by
    unfold DataStructure.operatorEqEq
    simp only [ne_eq, not_true_eq_false, if_false, List.all_eq_true]
    intro r hr
    rw [hinv.GetItem_of_mem hr]
    simp only
    unfold sameCodeAndTime
    cases r.pTime <;> simp
  rw [DataStructure.copy_eq]
  exact ⟨hself, hself, rfl⟩

/-- C9 at a concrete input: the copy of the object that holds "Alice Smith" and
"Bob Smith". -/
theorem C9_copy_equals_original_witness :
    indexAliceBob.copy.operatorEqEq indexAliceBob = true ∧
      indexAliceBob.operatorEqEq indexAliceBob.copy = true ∧
      indexAliceBob.copy = indexAliceBob :=
  C9_copy_equals_original indexAliceBob
    (Reachable.insert _ (Reachable.insert _ Reachable.empty))

/-- C10: in a reachable object that stores a record with id `s`, `operator-=` of `s` does
not throw and acts on the header `hd` of the first initial of `s` only: that header loses
the record from the bucket of the second initial and keeps every other record in place
(`hd'`); the header is unlinked if and only if all 26 buckets of `hd'` are empty, and then
no header for that initial is left; otherwise `hd'` takes the place of `hd`.  In both cases
the headers before and after it (`pre`, `post`) are unchanged and in the same order. -/
theorem C10_header_removed_iff_empty (x : DataStructure) (hx : Reachable x) (s : List Nat)
    (stored : ITEM2) (hstored : stored ∈ x.items) (hs : stored.pID = some s) :
    ∃ pre hd post hd' c2 b l1 l2,
      (x.operatorMinusEq (some s)).thrown = none ∧
      x.pStruct2 = pre ++ hd :: post ∧
      parseID (some s) = .ok (hd.cBegin, c2) ∧ alphaIndex c2 = some b ∧
      hd.bucket b = l1 ++ stored :: l2 ∧
      hd'.cBegin = hd.cBegin ∧ hd'.bucket b = l1 ++ l2 ∧
      (∀ i, i ≠ b → hd'.bucket i = hd.bucket i) ∧
      ((∀ i, i < ALPHA → hd'.bucket i = []) →
        (x.operatorMinusEq (some s)).state.pStruct2 = pre ++ post) ∧
      (¬ (∀ i, i < ALPHA → hd'.bucket i = []) →
        (x.operatorMinusEq (some s)).state.pStruct2 = pre ++ hd' :: post) ∧
      ((∀ g ∈ (x.operatorMinusEq (some s)).state.pStruct2, g.cBegin ≠ hd.cBegin) ↔
        ∀ i, i < ALPHA → hd'.bucket i = []) := by
  have hinv := hx.inv
  have hok : (x.operatorMinusEq (some s)).thrown = none := by
    rw [← hs]; exact hinv.operatorMinusEq_ok hstored
  rcases operatorMinusEq_cases x (some s) with ⟨_, e, he⟩ |
      ⟨s', c1, c2, b, pre, hd, post, remaining, h1, h2, h3, h4, h5, h6, h7, h8, h9⟩
  · rw [he] at hok
    simp at hok
  · have hss : s' = s := (Option.some.inj h1).symm
    subst hss
    obtain ⟨l1, r, l2, u1, u2, u3, _⟩ := unlinkItem_some h7
    have hb := alphaIndex_lt h3
    have hrmem : r ∈ x.items := by
      rw [x.mem_items]
      exact ⟨hd, by rw [h4]; simp, b, by rw [u1]; simp⟩
    have hr : r = stored := hinv.eq_of_pID hrmem hstored (by rw [u2, hs])
    subst hr
    have hsorted := hinv.sorted
    rw [h4] at hsorted
    obtain ⟨_, s2, s3⟩ := List.pairwise_append.1 hsorted
    obtain ⟨s4, _⟩ := List.pairwise_cons.1 s2
    have hE := (hd.setBucket b remaining).isHeaderEmpty_iff
    refine ⟨pre, hd, post, hd.setBucket b remaining, c2, b, l1, l2, hok, h4,
      by rw [h5]; exact h2, h3, u1, rfl, ?_, ?_, ?_, ?_, ?_⟩
    · rw [HEADER_C.bucket_setBucket hd b b remaining hb, if_pos rfl, u3]
    · intro i hi
      rw [HEADER_C.bucket_setBucket hd b i remaining hb, if_neg hi]
    · intro hall
      rw [h8, if_pos (hE.2 hall)]
    · intro hall
      rw [h8, if_neg (fun h => hall (hE.1 h))]
    · constructor
      · intro hno
        by_contra hne
        rw [h8, if_neg (fun h => hne (hE.1 h))] at hno
        exact hno (hd.setBucket b remaining) (by simp) rfl
      · intro hall g hg hgc
        rw [h8, if_pos (hE.2 hall)] at hg
        rcases List.mem_append.1 hg with hm | hm
        · have := s3 g hm hd (List.mem_cons_self _ _)
          rw [hgc] at this
          omega
        · have := s4 g hm
          rw [hgc] at this
          omega

/-- C10 at a concrete input: "Alice Smith" removed from the object that holds "Alice Smith"
and "Bob Smith". -/
theorem C10_header_removed_iff_empty_witness :
    ∃ pre hd post hd' c2 b l1 l2,
      (indexAliceBob.operatorMinusEq (some idAliceSmith)).thrown = none ∧
      indexAliceBob.pStruct2 = pre ++ hd :: post ∧
      parseID (some idAliceSmith) = .ok (hd.cBegin, c2) ∧ alphaIndex c2 = some b ∧
      hd.bucket b = l1 ++ recAlice :: l2 ∧
      hd'.cBegin = hd.cBegin ∧ hd'.bucket b = l1 ++ l2 ∧
      (∀ i, i ≠ b → hd'.bucket i = hd.bucket i) ∧
      ((∀ i, i < ALPHA → hd'.bucket i = []) →
        (indexAliceBob.operatorMinusEq (some idAliceSmith)).state.pStruct2 = pre ++ post) ∧
      (¬ (∀ i, i < ALPHA → hd'.bucket i = []) →
        (indexAliceBob.operatorMinusEq (some idAliceSmith)).state.pStruct2 =
          pre ++ hd' :: post) ∧
      ((∀ g ∈ (indexAliceBob.operatorMinusEq (some idAliceSmith)).state.pStruct2,
          g.cBegin ≠ hd.cBegin) ↔
        ∀ i, i < ALPHA → hd'.bucket i = []) :=
  C10_header_removed_iff_empty indexAliceBob
    (Reachable.insert _ (Reachable.insert _ Reachable.empty)) idAliceSmith recAlice
    (by decide) rfl

/-! ## Order of the header list -/

theorem findHeader_none_of_absent {head : List HEADER_C} {c : Nat}
    (h : ∀ g ∈ head, g.cBegin ≠ c) : (findHeader head c).1 = none := by
  cases hf : (findHeader head c).1 with
  | none => rfl
  | some k =>
    obtain ⟨pre, hd, post, h1, _, h3, _⟩ := findHeader_some hf
    exact absurd h3 (h hd (by rw [h1]; simp))

theorem GetItem_none_of_no_header {x : DataStructure} {s : List Nat} {c1 c2 : Nat}
    (hp : parseID (some s) = .ok (c1, c2)) (hf : (findHeader x.pStruct2 c1).1 = none) :
    x.GetItem (some s) = none := by
  unfold DataStructure.GetItem
  simp only [hp, hf]

/-- What `operator+=` does once the id is parsed and found not to be stored. -/
theorem operatorPlusEq_of_checks {x : DataStructure} {r : ITEM2} {c1 c2 : Nat}
    (hp : parseID r.pID = .ok (c1, c2)) (hg : x.GetItem r.pID = none) :
    x.operatorPlusEq (some r) =
      match alphaIndex c2 with
      | none => ⟨⟨(ensureHeader x.pStruct2 c1).1⟩, some Error.secondInitialNotLetter⟩
      | some b =>
        ⟨⟨updateHeader (ensureHeader x.pStruct2 c1).1 (ensureHeader x.pStruct2 c1).2
          fun header => header.setBucket b (cloneItem2 r :: header.bucket b)⟩, none⟩ := by
  unfold DataStructure.operatorPlusEq
  simp only [hp, hg, Option.isSome_none, Bool.false_eq_true, if_false]

/-- A call of `operator+=` whose id parses and whose first initial has no header links a
header for it, whether the call then throws or not. -/
theorem operatorPlusEq_fresh {x : DataStructure} {r : ITEM2} {c1 c2 : Nat}
    (hp : parseID r.pID = .ok (c1, c2)) (hf : (findHeader x.pStruct2 c1).1 = none) :
    ∃ pre g post, x.pStruct2 = pre ++ post ∧
      (x.operatorPlusEq (some r)).state.pStruct2 = pre ++ g :: post ∧ g.cBegin = c1 ∧
      (∀ a ∈ pre, charValue a.cBegin < charValue c1) ∧
      (∀ a, post.head? = some a → charValue c1 < charValue a.cBegin) := by
  obtain ⟨s, hs⟩ := parseID_ok_some hp
  have hg : x.GetItem r.pID = none := by
    rw [hs]; rw [hs] at hp; exact GetItem_none_of_no_header hp hf
  obtain ⟨pre, hd, post, e1, e2, e3, e4, e5⟩ := ensureHeader_spec x.pStruct2 c1
  rcases e5 with ⟨e6, _⟩ | ⟨_, e7, _, e9⟩
  · rw [hf] at e6
    simp at e6
  · rw [operatorPlusEq_of_checks hp hg]
    cases ha : alphaIndex c2 with
    | none => exact ⟨pre, hd, post, e7, e1, e3, e4, e9⟩
    | some b =>
      refine ⟨pre, hd.setBucket b (cloneItem2 r :: hd.bucket b), post, e7, ?_, e3, e4, e9⟩
      simp only [e1, e2, updateHeader_append]

theorem sorted_post_gt {pre post : List HEADER_C} {c : Nat}
    (hs : (pre ++ post).Pairwise fun a b => charValue a.cBegin < charValue b.cBegin)
    (hpost : ∀ a, post.head? = some a → charValue c < charValue a.cBegin) :
    ∀ b ∈ post, charValue c < charValue b.cBegin := by
  obtain ⟨_, s2, _⟩ := List.pairwise_append.1 hs
  cases post with
  | nil => simp
  | cons a post =>
    have ha := hpost a rfl
    intro b hb
    rcases List.mem_cons.1 hb with rfl | hb
    · exact ha
    · have := (List.pairwise_cons.1 s2).1 b hb
      omega

/-- In a list split as `pre ++ post` with `pre` below `c` and `post` above `c`, the split
is the only place where a header for `c` keeps the order strict. -/
theorem sorted_split_unique {pre post pre' post' : List HEADER_C} {g : HEADER_C} {c : Nat}
    (hc : g.cBegin = c) (heq : pre ++ post = pre' ++ post')
    (hpre : ∀ a ∈ pre, charValue a.cBegin < charValue c)
    (hpost : ∀ a ∈ post, charValue c < charValue a.cBegin)
    (hs : (pre' ++ g :: post').Pairwise fun a b => charValue a.cBegin < charValue b.cBegin) :
    pre' = pre ∧ post' = post := by
  obtain ⟨_, s2, s3⟩ := List.pairwise_append.1 hs
  obtain ⟨s4, _⟩ := List.pairwise_cons.1 s2
  have hpre' : ∀ a ∈ pre', charValue a.cBegin < charValue c := by
    intro a ha
    have := s3 a ha g (List.mem_cons_self _ _)
    rw [hc] at this
    exact this
  have hpost' : ∀ a ∈ post', charValue c < charValue a.cBegin := by
    intro a ha
    have := s4 a ha
    rw [hc] at this
    exact this
  rcases List.append_eq_append_iff.1 heq with ⟨m, h1, h2⟩ | ⟨m, h1, h2⟩
  · cases m with
    | nil => simp at h1 h2; exact ⟨h1, h2.symm⟩
    | cons a m =>
      exfalso
      have ha1 := hpre' a (by rw [h1]; simp)
      have ha2 := hpost a (by rw [h2]; simp)
      omega
  · cases m with
    | nil => simp at h1 h2; exact ⟨h1.symm, h2⟩
    | cons a m =>
      exfalso
      have ha1 := hpre a (by rw [h1]; simp)
      have ha2 := hpost' a (by rw [h2]; simp)
      omega

/-- C11: in every reachable object the header list is strictly increasing by `cBegin` (in
the order of `char` that `findHeader` compares with), so no two headers have the same
`cBegin`; and `operator+=` of a record whose id parses and whose first initial has no
header yet links a header for it at the one position that keeps the list strictly
increasing, the other headers staying in place. -/
theorem C11_header_order (x : DataStructure) (hx : Reachable x) :
    x.pStruct2.Pairwise (fun a b => charValue a.cBegin < charValue b.cBegin) ∧
      (x.pStruct2.map HEADER_C.cBegin).Nodup ∧
      ∀ (r : ITEM2) (c1 c2 : Nat), parseID r.pID = .ok (c1, c2) →
        (∀ g ∈ x.pStruct2, g.cBegin ≠ c1) →
        ∃ pre g post, x.pStruct2 = pre ++ post ∧
          (x.operatorPlusEq (some r)).state.pStruct2 = pre ++ g :: post ∧ g.cBegin = c1 ∧
          (pre ++ g :: post).Pairwise (fun a b => charValue a.cBegin < charValue b.cBegin) ∧
          ∀ pre' post', x.pStruct2 = pre' ++ post' →
            (pre' ++ g :: post').Pairwise
              (fun a b => charValue a.cBegin < charValue b.cBegin) →
            pre' = pre ∧ post' = post := by
  have hinv := hx.inv
  refine ⟨hinv.sorted, ?_, ?_⟩
  · rw [List.Nodup, List.pairwise_map]
    exact hinv.sorted.imp fun {a b} h e => by rw [e] at h; omega
  · intro r c1 c2 hp habs
    obtain ⟨pre, g, post, e1, e2, e3, e4, e5⟩ :=
      operatorPlusEq_fresh hp (findHeader_none_of_absent habs)
    have hs := hinv.sorted
    rw [e1] at hs
    refine ⟨pre, g, post, e1, e2, e3, sorted_insert hs e4 e5 e3, ?_⟩
    intro pre' post' h1 h2
    exact sorted_split_unique e3 (by rw [← e1, h1]) e4 (sorted_post_gt hs e5) h2

/-- C11 at a concrete input: "Bob Smith" inserted into the object that holds only
"Alice Smith". -/
theorem C11_header_order_witness :
    indexAlice.pStruct2.Pairwise (fun a b => charValue a.cBegin < charValue b.cBegin) ∧
      (indexAlice.pStruct2.map HEADER_C.cBegin).Nodup ∧
      ∀ (r : ITEM2) (c1 c2 : Nat), parseID r.pID = .ok (c1, c2) →
        (∀ g ∈ indexAlice.pStruct2, g.cBegin ≠ c1) →
        ∃ pre g post, indexAlice.pStruct2 = pre ++ post ∧
          (indexAlice.operatorPlusEq (some r)).state.pStruct2 = pre ++ g :: post ∧
          g.cBegin = c1 ∧
          (pre ++ g :: post).Pairwise (fun a b => charValue a.cBegin < charValue b.cBegin) ∧
          ∀ pre' post', indexAlice.pStruct2 = pre' ++ post' →
            (pre' ++ g :: post').Pairwise
              (fun a b => charValue a.cBegin < charValue b.cBegin) →
            pre' = pre ∧ post' = post :=
  C11_header_order indexAlice (Reachable.insert _ Reachable.empty)

/-! ## First initials -/

theorem parseID_fst {s : List Nat} {c1 c2 : Nat} (h : parseID (some s) = .ok (c1, c2)) :
    c1 = charAt s 0 := by
  unfold parseID at h
  simp only at h
  split at h
  · simp at h
  · split at h
    · simp at h
    · simp only [Except.ok.injEq, Prod.mk.injEq] at h
      exact h.1.symm

/-- C12 (counterexample): inserting "alice smith" into the empty object succeeds and
leaves a header whose `cBegin` is the lower-case 'a' (97), not an upper-case letter;
inserting "Alice Smith" as well yields two headers, 'A' and 'a'; and inserting "1x y"
into the empty object succeeds and leaves a header for the digit '1' (49). -/
theorem C12_counterexample :
    Reachable (DataStructure.empty.operatorPlusEq (some ⟨some idLowerAlice, 1, none⟩)).state ∧
      (DataStructure.empty.operatorPlusEq (some ⟨some idLowerAlice, 1, none⟩)).thrown = none ∧
      ((DataStructure.empty.operatorPlusEq (some ⟨some idLowerAlice, 1, none⟩)).state.pStruct2.map
          HEADER_C.cBegin = [97]) ∧
      ¬ (∀ g ∈ (DataStructure.empty.operatorPlusEq
            (some ⟨some idLowerAlice, 1, none⟩)).state.pStruct2,
          65 ≤ g.cBegin ∧ g.cBegin ≤ 90) ∧
      ((indexAlice.operatorPlusEq (some ⟨some idLowerAlice, 1, none⟩)).state.pStruct2.map
          HEADER_C.cBegin = [65, 97]) ∧
      (DataStructure.empty.operatorPlusEq (some ⟨some idDigitFirst, 1, none⟩)).thrown = none ∧
      ((DataStructure.empty.operatorPlusEq (some ⟨some idDigitFirst, 1, none⟩)).state.pStruct2.map
          HEADER_C.cBegin = [49]) :=
  ⟨Reachable.insert _ Reachable.empty, by decide, by decide, by decide, by decide, by decide,
    by decide⟩

/-- C12 (amended): in every reachable object the `cBegin` of a header is the first
character of the ids filed under it, taken as it is, without case folding and without a
letter check: every record of a header has an id whose first character equals `cBegin`,
and `operator+=` of a record whose id parses and is not stored yet leaves a header whose
`cBegin` is the first character of that id, whatever the character; hence ids whose
first characters differ, be it only in case, are filed under different headers. -/
theorem C12_first_initial_verbatim (x : DataStructure) (hx : Reachable x) :
    (∀ g ∈ x.pStruct2, ∀ r ∈ g.items, ∃ s, r.pID = some s ∧ charAt s 0 = g.cBegin) ∧
      (∀ (r : ITEM2) (s : List Nat) (c1 c2 : Nat), r.pID = some s →
        parseID (some s) = .ok (c1, c2) → x.GetItem (some s) = none →
        ∃ g ∈ (x.operatorPlusEq (some r)).state.pStruct2, g.cBegin = charAt s 0) ∧
      (∀ g1 ∈ x.pStruct2, ∀ g2 ∈ x.pStruct2, ∀ r1 ∈ g1.items, ∀ r2 ∈ g2.items,
        ∀ s1 s2, r1.pID = some s1 → r2.pID = some s2 → charAt s1 0 ≠ charAt s2 0 →
        g1 ≠ g2) := by
  have hinv := hx.inv
  have hfirst : ∀ g ∈ x.pStruct2, ∀ r ∈ g.items, ∃ s, r.pID = some s ∧
      charAt s 0 = g.cBegin := by
    intro g hg r hr
    obtain ⟨i, hi⟩ := (HEADER_C.mem_bucket_iff g r).1 hr
    obtain ⟨s, c2, e1, e2, _⟩ := hinv.placed g hg i r hi
    exact ⟨s, e1, (parseID_fst e2).symm⟩
  refine ⟨hfirst, ?_, ?_⟩
  · intro r s c1 c2 hs hp hg
    have hc := parseID_fst hp
    subst hc
    rw [← hs] at hp hg
    obtain ⟨pre, hd, post, e1, e2, e3, _, _⟩ := ensureHeader_spec x.pStruct2 (charAt s 0)
    rw [operatorPlusEq_of_checks hp hg]
    cases ha : alphaIndex c2 with
    | none => exact ⟨hd, by simp [e1], e3⟩
    | some b =>
      refine ⟨hd.setBucket b (cloneItem2 r :: hd.bucket b), ?_, e3⟩
      simp only [e1, e2, updateHeader_append]
      simp
  · intro g1 hg1 g2 hg2 r1 hr1 r2 hr2 s1 s2 h1 h2 hne heq
    obtain ⟨t1, e1, e2⟩ := hfirst g1 hg1 r1 hr1
    obtain ⟨t2, e3, e4⟩ := hfirst g2 hg2 r2 hr2
    rw [h1] at e1
    rw [h2] at e3
    have := Option.some.inj e1
    subst this
    have := Option.some.inj e3
    subst this
    rw [heq] at e2
    exact hne (e2.trans e4.symm)

/-- C12 (amended) at a concrete input: the object that holds "Alice Smith". -/
theorem C12_first_initial_verbatim_witness :
    (∀ g ∈ indexAlice.pStruct2, ∀ r ∈ g.items, ∃ s, r.pID = some s ∧ charAt s 0 = g.cBegin) ∧
      (∀ (r : ITEM2) (s : List Nat) (c1 c2 : Nat), r.pID = some s →
        parseID (some s) = .ok (c1, c2) → indexAlice.GetItem (some s) = none →
        ∃ g ∈ (indexAlice.operatorPlusEq (some r)).state.pStruct2, g.cBegin = charAt s 0) ∧
      (∀ g1 ∈ indexAlice.pStruct2, ∀ g2 ∈ indexAlice.pStruct2, ∀ r1 ∈ g1.items,
        ∀ r2 ∈ g2.items, ∀ s1 s2, r1.pID = some s1 → r2.pID = some s2 →
        charAt s1 0 ≠ charAt s2 0 → g1 ≠ g2) :=
  C12_first_initial_verbatim indexAlice (Reachable.insert _ Reachable.empty)

/-- C13: in every reachable object (default construction, `operator+=`, `operator-=`,
copy construction, reading constructor) no two stored records have the same id, wherever
they are stored: the ids met along the traversal of all headers and buckets are pairwise
distinct, every id is non-null, and two stored records with the same id are one record. -/
theorem C13_unique_ids (x : DataStructure) (hx : Reachable x) :
    (x.items.map ITEM2.pID).Nodup ∧
      (∀ r ∈ x.items, ∃ s, r.pID = some s) ∧
      ∀ g1 ∈ x.pStruct2, ∀ g2 ∈ x.pStruct2, ∀ i1 i2, ∀ r1 ∈ g1.bucket i1,
        ∀ r2 ∈ g2.bucket i2, r1.pID = r2.pID → r1 = r2 ∧ g1 = g2 ∧ i1 = i2 := by
  have hinv := hx.inv
  refine ⟨hinv.unique, fun r hr => hinv.pID_some hr, ?_⟩
  intro g1 hg1 g2 hg2 i1 i2 r1 hr1 r2 hr2 hid
  have hm1 : r1 ∈ x.items := (x.mem_items r1).2 ⟨g1, hg1, i1, hr1⟩
  have hm2 : r2 ∈ x.items := (x.mem_items r2).2 ⟨g2, hg2, i2, hr2⟩
  have hr : r1 = r2 := hinv.eq_of_pID hm1 hm2 hid
  subst hr
  obtain ⟨s, c2, e1, e2, e3⟩ := hinv.placed g1 hg1 i1 r1 hr1
  obtain ⟨s', c2', e1', e2', e3'⟩ := hinv.placed g2 hg2 i2 r1 hr2
  rw [e1] at e1'
  have := Option.some.inj e1'
  subst this
  rw [e2] at e2'
  simp only [Except.ok.injEq, Prod.mk.injEq] at e2'
  obtain ⟨hc, hc2⟩ := e2'
  subst hc2
  rw [e3] at e3'
  refine ⟨rfl, ?_, Option.some.inj e3'⟩
  have hsym : x.pStruct2.Pairwise fun a b : HEADER_C => charValue a.cBegin ≠ charValue b.cBegin :=
    hinv.sorted.imp fun {a b} h => by omega
  by_contra hne
  exact List.Pairwise.forall (fun a b h => Ne.symm h) hsym hg1 hg2 hne (by rw [hc])

/-- C13 at a concrete input: the object that holds "Alice Smith" and "Bob Smith". -/
theorem C13_unique_ids_witness :
    (indexAliceBob.items.map ITEM2.pID).Nodup ∧
      (∀ r ∈ indexAliceBob.items, ∃ s, r.pID = some s) ∧
      ∀ g1 ∈ indexAliceBob.pStruct2, ∀ g2 ∈ indexAliceBob.pStruct2, ∀ i1 i2,
        ∀ r1 ∈ g1.bucket i1, ∀ r2 ∈ g2.bucket i2, r1.pID = r2.pID →
        r1 = r2 ∧ g1 = g2 ∧ i1 = i2 :=
  C13_unique_ids indexAliceBob (Reachable.insert _ (Reachable.insert _ Reachable.empty))

/-! ## Parsing of ids -/

theorem strchr_eq_indexOf (s : List Nat) (ch : Nat) :
    strchr s ch = if ch ∈ s then some (s.indexOf ch) else none := by
  induction s with
  | nil => simp [strchr]
  | cons a s ih =>
    unfold strchr
    by_cases hac : a = ch
    · subst hac
      simp [List.indexOf_cons]
    · have hca : ¬ ch = a := fun h => hac h.symm
      rw [if_neg hac, ih]
      by_cases hm : ch ∈ s
      · simp [hm, List.indexOf_cons, hac, hca]
      · simp [hm, hca]

/-- C14: for every id that is null or a C string, `parseID` throws exactly when the id is
null or empty, holds no space, starts with a space, or has its leftmost space as its last
character; what it throws is of class InvalidIdentifier; in every other case it returns
the first character of the id and the character right after the leftmost space, without
looking at any other character. -/
theorem C14_parseID_contract (id : Option (List Nat))
    (hstr : ∀ s, id = some s → ∀ c ∈ s, c ≠ 0) :
    ((∃ e, parseID id = .error e) ↔
        id = none ∨ ∃ s, id = some s ∧
          (s = [] ∨ 32 ∉ s ∨ s.head? = some 32 ∨ s.indexOf 32 + 1 = s.length)) ∧
      (∀ e, parseID id = .error e → e.kind = ErrorClass.InvalidIdentifier) ∧
      (∀ s, id = some s → s ≠ [] → 32 ∈ s → s.head? ≠ some 32 →
        s.indexOf 32 + 1 ≠ s.length →
        parseID id = .ok (s.getD 0 0, s.getD (s.indexOf 32 + 1) 0)) := by
  cases id with
  | none =>
    refine ⟨⟨fun _ => Or.inl rfl, fun _ => ⟨_, rfl⟩⟩, ?_, ?_⟩
    · intro e he
      simp only [parseID, Except.error.injEq] at he
      subst he
      rfl
    · intro s hs
      simp at hs
  | some s =>
    have hnz := hstr s rfl
    by_cases hsp : 32 ∈ s
    · have hidx : s.indexOf 32 < s.length := List.indexOf_lt_length.2 hsp
      have hhead : s.indexOf 32 = 0 ↔ s.head? = some 32 := by
        cases s with
        | nil => simp at hsp
        | cons a s =>
          by_cases ha : a = 32
          · simp [List.indexOf_cons, ha]
          · simp [List.indexOf_cons, ha]
      have hlast : charAt s (s.indexOf 32 + 1) = 0 ↔ s.indexOf 32 + 1 = s.length := by
        unfold charAt
        constructor
        · intro h0
          by_contra hne
          have hlt : s.indexOf 32 + 1 < s.length := by omega
          rw [List.getD_eq_getElem _ _ hlt] at h0
          exact hnz _ (List.getElem_mem hlt) h0
        · intro h
          rw [List.getD_eq_default _ _ (by omega)]
      have hparse : parseID (some s) =
          if s.indexOf 32 = 0 ∨ charAt s (s.indexOf 32 + 1) = 0 then .error .idNotTwoWords
          else .ok (charAt s 0, charAt s (s.indexOf 32 + 1)) := by
        unfold parseID
        simp only [strchr_eq_indexOf, hsp, if_true]
      refine ⟨?_, ?_, ?_⟩
      · rw [hparse]
        constructor
        · rintro ⟨e, he⟩
          right
          refine ⟨s, rfl, ?_⟩
          split at he
          · rename_i hc
            rcases hc with hc | hc
            · exact Or.inr (Or.inr (Or.inl (hhead.1 hc)))
            · exact Or.inr (Or.inr (Or.inr (hlast.1 hc)))
          · simp at he
        · rintro (h | ⟨s', hs', h⟩)
          · simp at h
          · have := Option.some.inj hs'
            subst this
            rcases h with h | h | h | h
            · subst h; simp at hsp
            · exact absurd hsp h
            · rw [if_pos (Or.inl (hhead.2 h))]; exact ⟨_, rfl⟩
            · rw [if_pos (Or.inr (hlast.2 h))]; exact ⟨_, rfl⟩
      · intro e he
        rw [hparse] at he
        split at he
        · simp only [Except.error.injEq] at he
          subst he; rfl
        · simp at he
      · intro s' hs' _ _ h3 h4
        have := Option.some.inj hs'
        subst this
        rw [hparse, if_neg]
        · rfl
        · rintro (h | h)
          · exact h3 (hhead.1 h)
          · exact h4 (hlast.1 h)
    · have hparse : parseID (some s) = .error .idNotTwoWords := by
        unfold parseID
        simp only [strchr_eq_indexOf, hsp, if_false]
      refine ⟨?_, ?_, ?_⟩
      · rw [hparse]
        exact ⟨fun _ => Or.inr ⟨s, rfl, Or.inr (Or.inl hsp)⟩, fun _ => ⟨_, rfl⟩⟩
      · intro e he
        rw [hparse] at he
        simp only [Except.error.injEq] at he
        subst he; rfl
      · intro s' hs' _ h2
        have := Option.some.inj hs'
        subst this
        exact absurd h2 hsp

/-- C14 at a concrete input: the id "Alice Smith". -/
theorem C14_parseID_contract_witness :
    ((∃ e, parseID (some idAliceSmith) = .error e) ↔
        some idAliceSmith = none ∨ ∃ s, some idAliceSmith = some s ∧
          (s = [] ∨ 32 ∉ s ∨ s.head? = some 32 ∨ s.indexOf 32 + 1 = s.length)) ∧
      (∀ e, parseID (some idAliceSmith) = .error e → e.kind = ErrorClass.InvalidIdentifier) ∧
      (∀ s, some idAliceSmith = some s → s ≠ [] → 32 ∈ s → s.head? ≠ some 32 →
        s.indexOf 32 + 1 ≠ s.length →
        parseID (some idAliceSmith) = .ok (s.getD 0 0, s.getD (s.indexOf 32 + 1) 0)) :=
  C14_parseID_contract (some idAliceSmith) (by
    intro s hs c hc
    have := Option.some.inj hs
    subst this
    revert c
    decide)

/-! ## Lookup with a malformed id -/

theorem GetItem_none_of_not_letter (x : DataStructure) {id : Option (List Nat)} {c1 c2 : Nat}
    (hp : parseID id = .ok (c1, c2)) (ha : alphaIndex c2 = none) : x.GetItem id = none := by
  obtain ⟨s, rfl⟩ := parseID_ok_some hp
  unfold DataStructure.GetItem
  simp only [hp, ha]
  split <;> rfl

theorem GetItem_none_of_parse_error (x : DataStructure) {id : Option (List Nat)} {e : Error}
    (hp : parseID id = .error e) : x.GetItem id = none := by
  cases id with
  | none => rfl
  | some s =>
    unfold DataStructure.GetItem
    simp only [hp]

theorem parseID_error_kind {id : Option (List Nat)} {e : Error}
    (h : parseID id = .error e) : e.kind = ErrorClass.InvalidIdentifier := by
  unfold parseID at h
  split at h
  · simp only [Except.error.injEq] at h
    subst h; rfl
  · split at h
    · simp only [Except.error.injEq] at h
      subst h; rfl
    · split at h
      · simp only [Except.error.injEq] at h
        subst h; rfl
      · simp at h

/-- C15: for every object and every id that `parseID` rejects (such as "Alice") or whose
second initial is not a letter, `GetItem` returns null (it never throws), whereas
`operator+=` of any record with that id throws an exception of class InvalidIdentifier. -/
theorem C15_lookup_of_malformed_id (x : DataStructure) (id : Option (List Nat))
    (hbad : (∃ e, parseID id = .error e) ∨
      ∃ c1 c2, parseID id = .ok (c1, c2) ∧ alphaIndex c2 = none) :
    x.GetItem id = none ∧
      ∀ r : ITEM2, r.pID = id →
        ∃ e, (x.operatorPlusEq (some r)).thrown = some e ∧
          e.kind = ErrorClass.InvalidIdentifier := by
  rcases hbad with ⟨e, he⟩ | ⟨c1, c2, hp, ha⟩
  · refine ⟨GetItem_none_of_parse_error x he, ?_⟩
    intro r hr
    have hk := parseID_error_kind he
    refine ⟨e, ?_, hk⟩
    unfold DataStructure.operatorPlusEq
    simp only [hr, he]
  · have hg := GetItem_none_of_not_letter x hp ha
    refine ⟨hg, ?_⟩
    intro r hr
    rw [← hr] at hp hg
    rw [operatorPlusEq_of_checks hp hg]
    simp only [ha]
    exact ⟨_, rfl, rfl⟩

/-- C15 at a concrete input: the one-word id "Alice" on the object holding
"Alice Smith". -/
theorem C15_lookup_of_malformed_id_witness :
    indexAlice.GetItem (some idAlice) = none ∧
      ∀ r : ITEM2, r.pID = some idAlice →
        ∃ e, (indexAlice.operatorPlusEq (some r)).thrown = some e ∧
          e.kind = ErrorClass.InvalidIdentifier :=
  C15_lookup_of_malformed_id indexAlice (some idAlice) (Or.inl ⟨Error.idNotTwoWords, rfl⟩)

/-! ## Placement of the records -/

theorem alphaIndex_toupper {c i : Nat} (h : alphaIndex c = some i) : toupper c = 65 + i := by
  unfold alphaIndex at h
  simp only at h
  split at h
  · simp only [Option.some.injEq] at h
    omega
  · simp at h

/-- C19: in every reachable object (default construction, `operator+=`, `operator-=`, copy
construction, reading constructor), a record stored in bucket `i` of a header `g` has a
non-null id that `parseID` accepts, whose first character is `g.cBegin` and whose second
initial is a letter that `alphaIndex` maps to `i` (its upper-case form is the `i`-th
letter, `i` below 26); so the records of one bucket agree on the first initial and, up to
case, on the second, and `GetItem`, which scans that one bucket only, returns the record
when given its id. -/
theorem C19_placement (x : DataStructure) (hx : Reachable x) :
    ∀ g ∈ x.pStruct2, ∀ i, ∀ r ∈ g.bucket i,
      ∃ s c2, r.pID = some s ∧ parseID (some s) = .ok (g.cBegin, c2) ∧
        charAt s 0 = g.cBegin ∧ alphaIndex c2 = some i ∧ i < ALPHA ∧ toupper c2 = 65 + i ∧
        x.GetItem (some s) = some r := by
  have hinv := hx.inv
  intro g hg i r hr
  obtain ⟨s, c2, e1, e2, e3⟩ := hinv.placed g hg i r hr
  refine ⟨s, c2, e1, e2, (parseID_fst e2).symm, e3, alphaIndex_lt e3, alphaIndex_toupper e3, ?_⟩
  rw [← e1]
  exact hinv.GetItem_of_mem ((x.mem_items r).2 ⟨g, hg, i, hr⟩)

/-- C19 at a concrete input: the record "Alice Smith" in bucket 18 ('S') of the header
for 'A' of the object that holds "Alice Smith" and "Bob Smith". -/
theorem C19_placement_witness :
    ∃ s c2, recAlice.pID = some s ∧
      parseID (some s) = .ok (((makeHeader 65).setBucket 18 [recAlice]).cBegin, c2) ∧
      charAt s 0 = ((makeHeader 65).setBucket 18 [recAlice]).cBegin ∧
      alphaIndex c2 = some 18 ∧ 18 < ALPHA ∧ toupper c2 = 65 + 18 ∧
      indexAliceBob.GetItem (some s) = some recAlice :=
  C19_placement indexAliceBob (Reachable.insert _ (Reachable.insert _ Reachable.empty))
    ((makeHeader 65).setBucket 18 [recAlice]) (by decide) 18 recAlice (by decide)

/-! ## The bucket a lookup scans -/

theorem bucketAt_of_mem {x : DataStructure} {g : HEADER_C}
    (hs : x.pStruct2.Pairwise fun a b => charValue a.cBegin < charValue b.cBegin)
    (hg : g ∈ x.pStruct2) (i : Nat) : x.bucketAt g.cBegin i = g.bucket i := by
  obtain ⟨k, hk, hget⟩ := findHeader_of_mem hs hg
  unfold DataStructure.bucketAt
  simp only [hk, hget]

theorem bucketAt_of_absent {x : DataStructure} {c : Nat}
    (h : ∀ g ∈ x.pStruct2, g.cBegin ≠ c) (i : Nat) : x.bucketAt c i = [] := by
  unfold DataStructure.bucketAt
  simp only [findHeader_none_of_absent h]

theorem sorted_mid_absent {pre post : List HEADER_C} {hd : HEADER_C}
    (hs : (pre ++ hd :: post).Pairwise fun a b => charValue a.cBegin < charValue b.cBegin) :
    ∀ g, g ∈ pre ∨ g ∈ post → g.cBegin ≠ hd.cBegin := by
  obtain ⟨_, s2, s3⟩ := List.pairwise_append.1 hs
  obtain ⟨s4, _⟩ := List.pairwise_cons.1 s2
  intro g hg hc
  rcases hg with hg | hg
  · have := s3 g hg hd (List.mem_cons_self _ _)
    rw [hc] at this
    omega
  · have := s4 g hg
    rw [hc] at this
    omega

/-- Under the invariant, a successful `operator+=` puts the record at the head of the
bucket its id selects and leaves every other bucket as it was. -/
theorem RepInv.bucketAt_insert {x : DataStructure} (hx : RepInv x) {r : ITEM2}
    (hok : (x.operatorPlusEq (some r)).thrown = none) :
    ∃ c1 b, r.slot = some (c1, b) ∧
      (x.operatorPlusEq (some r)).state.bucketAt c1 b = r :: x.bucketAt c1 b ∧
      ∀ c i, (c ≠ c1 ∨ i ≠ b) →
        (x.operatorPlusEq (some r)).state.bucketAt c i = x.bucketAt c i := by
  have hx' := hx.after_insert (some r)
  rcases operatorPlusEq_cases x (some r) with ⟨_, e, he⟩ |
      ⟨_, _, _, _, _, _, _, _, _, _, _, _, _, _, h9⟩ |
      ⟨r', c1, c2, b, pre, hd, post, h1, h2, h3, h4, h5, h6, h7, h8, h9⟩
  · rw [he] at hok; simp at hok
  · rw [h9] at hok; simp at hok
  · have := Option.some.inj h1
    subst this
    have hb := alphaIndex_lt h4
    have hs' := hx'.sorted
    rw [h8] at hs'
    have hmem' : hd.setBucket b (r :: hd.bucket b) ∈
        (x.operatorPlusEq (some r)).state.pStruct2 := by rw [h8]; simp
    have hsx' : (x.operatorPlusEq (some r)).state.pStruct2.Pairwise
        fun a b => charValue a.cBegin < charValue b.cBegin := hx'.sorted
    -- the bucket of the header for `c1` in `x`
    have hold : ∀ i, x.bucketAt c1 i = hd.bucket i := by
      intro i
      rcases h7 with h7 | ⟨h7, h7', _⟩
      · rw [← h5]
        exact bucketAt_of_mem hx.sorted (by rw [h7]; simp) i
      · rw [h7', makeHeader_bucket]
        apply bucketAt_of_absent
        intro g hg
        rw [h7] at hg
        have := sorted_mid_absent hs' g (List.mem_append.1 hg)
        rw [HEADER_C.cBegin_setBucket, h5] at this
        exact this
    have hnew : ∀ i, (x.operatorPlusEq (some r)).state.bucketAt c1 i =
        (hd.setBucket b (r :: hd.bucket b)).bucket i := by
      intro i
      have := bucketAt_of_mem hsx' hmem' i
      rw [HEADER_C.cBegin_setBucket, h5] at this
      exact this
    refine ⟨c1, b, ?_, ?_, ?_⟩
    · unfold ITEM2.slot
      simp only [h2, h4, Option.map_some']
    · rw [hnew, hold, HEADER_C.bucket_setBucket hd b b _ hb, if_pos rfl]
    · intro c i hci
      by_cases hc : c = c1
      · subst hc
        have hi : i ≠ b := by
          rcases hci with h | h
          · exact absurd rfl h
          · exact h
        rw [hnew, hold, HEADER_C.bucket_setBucket hd b i _ hb, if_neg hi]
      · have hothers : ∀ g, g.cBegin = c →
            (g ∈ (x.operatorPlusEq (some r)).state.pStruct2 ↔ g ∈ x.pStruct2) := by
          intro g hgc
          rw [h8]
          rcases h7 with h7 | ⟨h7, _, _⟩
          · rw [h7]
            simp only [List.mem_append, List.mem_cons]
            constructor
            · rintro (h | h | h)
              · exact Or.inl h
              · rw [h, HEADER_C.cBegin_setBucket, h5] at hgc
                exact absurd hgc.symm hc
              · exact Or.inr (Or.inr h)
            · rintro (h | h | h)
              · exact Or.inl h
              · rw [h, h5] at hgc
                exact absurd hgc.symm hc
              · exact Or.inr (Or.inr h)
          · rw [h7]
            simp only [List.mem_append, List.mem_cons]
            constructor
            · rintro (h | h | h)
              · exact Or.inl h
              · rw [h, HEADER_C.cBegin_setBucket, h5] at hgc
                exact absurd hgc.symm hc
              · exact Or.inr h
            · rintro (h | h)
              · exact Or.inl h
              · exact Or.inr (Or.inr h)
        by_cases hex : ∃ g ∈ x.pStruct2, g.cBegin = c
        · obtain ⟨g, hg, hgc⟩ := hex
          rw [← hgc, bucketAt_of_mem hx.sorted hg i,
            bucketAt_of_mem hsx' ((hothers g hgc).2 hg) i]
        · have habs : ∀ g ∈ x.pStruct2, g.cBegin ≠ c := fun g hg hgc => hex ⟨g, hg, hgc⟩
          rw [bucketAt_of_absent habs i]
          apply bucketAt_of_absent
          intro g hg hgc
          exact habs g ((hothers g hgc).1 hg) hgc

/-- Under the invariant, after a run of successful calls of `operator+=` every bucket holds
the records the run sent to it, latest first, in front of what it held before. -/
theorem RepInv.bucketAt_insertAll {x : DataStructure} (hx : RepInv x) (L : List ITEM2)
    (hok : insertAllOk x L = true) :
    RepInv (insertAll x L) ∧
      ∀ c i, (insertAll x L).bucketAt c i =
        (L.filter fun r => decide (r.slot = some (c, i))).reverse ++ x.bucketAt c i := by
  induction L generalizing x with
  | nil => exact ⟨hx, fun c i => by simp [insertAll]⟩
  | cons r L ih =>
    simp only [insertAllOk, Bool.and_eq_true, Option.isNone_iff_eq_none] at hok
    obtain ⟨c1, b, hslot, hhead, hrest⟩ := hx.bucketAt_insert hok.1
    obtain ⟨h1, h2⟩ := ih (hx.after_insert (some r)) hok.2
    refine ⟨h1, ?_⟩
    intro c i
    simp only [insertAll]
    rw [h2 c i]
    by_cases hci : c = c1 ∧ i = b
    · obtain ⟨rfl, rfl⟩ := hci
      rw [hhead, List.filter_cons_of_pos (by simp [hslot])]
      simp
    · have hne : c ≠ c1 ∨ i ≠ b := by
        by_cases hc : c = c1
        · exact Or.inr fun hi => hci ⟨hc, hi⟩
        · exact Or.inl hc
      rw [hrest c i hne, List.filter_cons_of_neg]
      simp only [hslot, Option.some.injEq, Prod.mk.injEq, decide_eq_true_eq]
      rintro ⟨h1, h2⟩
      exact hci ⟨h1.symm, h2.symm⟩

/-- C18: when `operator+=` of `r` on a reachable object does not throw, the record is the
head of the bucket selected by its two initials, the rest of that bucket is the list the
bucket held before, in the same order, and every other bucket of every header is
unchanged; hence, after any run of successful insertions, each bucket lists the records
the run sent to it in reverse order of insertion, in front of its previous content. -/
theorem C18_most_recent_first (x : DataStructure) (hx : Reachable x) (r : ITEM2)
    (hok : (x.operatorPlusEq (some r)).thrown = none) :
    (∃ c1 b, r.slot = some (c1, b) ∧
        (x.operatorPlusEq (some r)).state.bucketAt c1 b = r :: x.bucketAt c1 b ∧
        ∀ c i, (c ≠ c1 ∨ i ≠ b) →
          (x.operatorPlusEq (some r)).state.bucketAt c i = x.bucketAt c i) ∧
      ∀ L : List ITEM2, insertAllOk x L = true →
        ∀ c i, (insertAll x L).bucketAt c i =
          (L.filter fun q => decide (q.slot = some (c, i))).reverse ++ x.bucketAt c i :=
  ⟨hx.inv.bucketAt_insert hok, fun L hL => (hx.inv.bucketAt_insertAll L hL).2⟩

/-- C18 at a concrete input: "Bob Smith" inserted after "Alice Smith". -/
theorem C18_most_recent_first_witness :
    (∃ c1 b, recBob.slot = some (c1, b) ∧
        (indexAlice.operatorPlusEq (some recBob)).state.bucketAt c1 b =
          recBob :: indexAlice.bucketAt c1 b ∧
        ∀ c i, (c ≠ c1 ∨ i ≠ b) →
          (indexAlice.operatorPlusEq (some recBob)).state.bucketAt c i =
            indexAlice.bucketAt c i) ∧
      ∀ L : List ITEM2, insertAllOk indexAlice L = true →
        ∀ c i, (insertAll indexAlice L).bucketAt c i =
          (L.filter fun q => decide (q.slot = some (c, i))).reverse ++
            indexAlice.bucketAt c i :=
  C18_most_recent_first indexAlice (Reachable.insert _ Reachable.empty) recBob (by decide)

/-! ## Output of `Write` and of `operator<<` -/

theorem range_flatMap_getD {α β : Type} (L : List (List α)) (f : List α → List β) :
    (List.range L.length).flatMap (fun i => f (L.getD i [])) = L.flatMap f := by
  induction L with
  | nil => simp
  | cons l L ih =>
    rw [List.length_cons, List.range_succ_eq_map, List.flatMap_cons, List.flatMap_cons]
    congr 1
    rw [← ih]
    simp [List.flatMap_map]

theorem specTraversal_eq_items (x : DataStructure) : specTraversal x = x.items := by
  unfold specTraversal DataStructure.items
  rw [List.flatMap_def]
  congr 1
  apply List.map_congr_left
  intro g _
  have h := range_flatMap_getD g.ppItems id
  rw [g.alpha] at h
  unfold HEADER_C.items HEADER_C.bucket
  simp only [id] at h
  rw [show (26 : Nat) = ALPHA from rfl, h, List.flatMap_def, List.map_id]

theorem writeItem_eq_specRecord {r : ITEM2} (h : (r.pID.getD []).length < 4294967296) :
    writeItem r = specRecord r := by
  unfold writeItem specRecord
  simp only [Nat.mod_eq_of_lt h, List.take_length, codeBytes]
  cases r.pTime with
  | none => simp
  | some t => simp [timeBytes]

/-- C17: `Write` throws, and then "Data structure is empty" (class EmptyStructure), if and
only if `GetItemsNumber` is 0.  Otherwise, for an object with fewer than `2^32` records
whose ids are non-null and shorter than `2^32` bytes, the bytes written are the file of the
specification: the 12-byte header whose three fields read back as `0x53324453`, 1 and
`GetItemsNumber`, followed by exactly `GetItemsNumber` records, each as `u32 idLength`, id
bytes, `u32 code`, `hasTime` byte and optional time triple, in the order header sequence,
bucket 0 to 25, list head to tail; and `operator<<` prints one line per record in that
same order. -/
theorem C17_write_output (x : DataStructure) (hcount : x.GetItemsNumber < 4294967296)
    (hids : ∀ r ∈ x.items, (r.pID.getD []).length < 4294967296) :
    ((∃ e, x.Write = .error e) ↔ x.GetItemsNumber = 0) ∧
      (∀ e, x.Write = .error e →
        e = Error.structureEmpty ∧ e.kind = ErrorClass.EmptyStructure) ∧
      (x.GetItemsNumber ≠ 0 → x.Write = .ok (specFile x)) ∧
      (specFile x).take 12 = u32Bytes 0x53324453 ++ u32Bytes 1 ++ u32Bytes x.GetItemsNumber ∧
      u32OfBytes ((specFile x).take 4) = 0x53324453 ∧
      u32OfBytes (((specFile x).drop 4).take 4) = 1 ∧
      u32OfBytes (((specFile x).drop 8).take 4) = x.GetItemsNumber ∧
      (specFile x).drop 12 = (specTraversal x).flatMap specRecord ∧
      (specTraversal x).length = x.GetItemsNumber ∧
      x.operatorShl =
        (specTraversal x).flatMap fun r => r.pID.getD [] ++ [32] ++ decimal r.Code ++ [10] := by
  have hW : x.Write = if x.GetItemsNumber = 0 then .error .structureEmpty
      else .ok (u32Bytes 0x53324453 ++ u32Bytes 1 ++ u32Bytes x.GetItemsNumber ++
        (x.items.map writeItem).flatten) := rfl
  have hbody : (x.items.map writeItem).flatten = (specTraversal x).flatMap specRecord := by
    rw [specTraversal_eq_items, List.flatMap_def]
    congr 1
    apply List.map_congr_left
    intro r hr
    exact writeItem_eq_specRecord (hids r hr)
  have e0 : (specFile x).take 12 =
      u32Bytes 0x53324453 ++ u32Bytes 1 ++ u32Bytes x.GetItemsNumber := rfl
  have e1 : (specFile x).take 4 = u32Bytes 0x53324453 := rfl
  have e2 : ((specFile x).drop 4).take 4 = u32Bytes 1 := rfl
  have e3 : ((specFile x).drop 8).take 4 = u32Bytes x.GetItemsNumber := rfl
  have e4 : (specFile x).drop 12 = (specTraversal x).flatMap specRecord := rfl
  refine ⟨?_, ?_, ?_, e0, ?_, ?_, ?_, e4, ?_, ?_⟩
  · rw [hW]
    constructor
    · rintro ⟨e, he⟩
      by_contra hne
      rw [if_neg hne] at he
      simp at he
    · intro h0
      rw [if_pos h0]
      exact ⟨_, rfl⟩
  · intro e he
    rw [hW] at he
    split at he
    · simp only [Except.error.injEq] at he
      subst he
      exact ⟨rfl, rfl⟩
    · simp at he
  · intro hne
    rw [hW, if_neg hne, hbody]
    rfl
  · rw [e1, u32OfBytes_u32Bytes (by norm_num)]
  · rw [e2, u32OfBytes_u32Bytes (by norm_num)]
  · rw [e3, u32OfBytes_u32Bytes hcount]
  · rw [specTraversal_eq_items, DataStructure.GetItemsNumber_eq]
  · unfold DataStructure.operatorShl specTraversal
    rw [List.flatMap_assoc]
    apply List.flatMap_congr
    intro g _
    rw [show (26 : Nat) = ALPHA from rfl, List.flatMap_assoc]

/-- C17 at a concrete input: the object that holds "Alice Smith" and "Bob Smith". -/
theorem C17_write_output_witness :
    ((∃ e, indexAliceBob.Write = .error e) ↔ indexAliceBob.GetItemsNumber = 0) ∧
      (∀ e, indexAliceBob.Write = .error e →
        e = Error.structureEmpty ∧ e.kind = ErrorClass.EmptyStructure) ∧
      (indexAliceBob.GetItemsNumber ≠ 0 → indexAliceBob.Write = .ok (specFile indexAliceBob)) ∧
      (specFile indexAliceBob).take 12 =
        u32Bytes 0x53324453 ++ u32Bytes 1 ++ u32Bytes indexAliceBob.GetItemsNumber ∧
      u32OfBytes ((specFile indexAliceBob).take 4) = 0x53324453 ∧
      u32OfBytes (((specFile indexAliceBob).drop 4).take 4) = 1 ∧
      u32OfBytes (((specFile indexAliceBob).drop 8).take 4) = indexAliceBob.GetItemsNumber ∧
      (specFile indexAliceBob).drop 12 = (specTraversal indexAliceBob).flatMap specRecord ∧
      (specTraversal indexAliceBob).length = indexAliceBob.GetItemsNumber ∧
      indexAliceBob.operatorShl =
        (specTraversal indexAliceBob).flatMap fun r =>
          r.pID.getD [] ++ [32] ++ decimal r.Code ++ [10] :=
  C17_write_output indexAliceBob (by decide) (by decide)

/-! ## One iteration of the reading loop on arbitrary bytes -/

theorem IStream.read_good (bytes : List Nat) (n : Nat) (h : n ≤ bytes.length) :
    IStream.read ⟨bytes, true⟩ n = (some (bytes.take n), ⟨bytes.drop n, true⟩) := by
  unfold IStream.read
  simp [h]

theorem IStream.read_short (bytes : List Nat) (n : Nat) (h : bytes.length < n) :
    IStream.read ⟨bytes, true⟩ n = (none, ⟨bytes, false⟩) := by
  unfold IStream.read
  simp [Nat.not_le.2 h]

theorem IStream.read_failed (bytes : List Nat) (n : Nat) :
    IStream.read ⟨bytes, false⟩ n = (none, ⟨bytes, false⟩) := by
  unfold IStream.read
  simp

theorem specRecordShape_zeroId {bytes : List Nat} (h : specRecordShape bytes = .zeroId) :
    4 ≤ bytes.length ∧ u32OfBytes (bytes.take 4) = 0 := by
  unfold specRecordShape at h
  simp only at h
  split_ifs at h with h1 h2
  exact ⟨by omega, h2⟩

theorem specRecordShape_whole {bytes : List Nat} {size : Nat}
    (h : specRecordShape bytes = .whole size) :
    u32OfBytes (bytes.take 4) ≠ 0 ∧
      size = 4 + u32OfBytes (bytes.take 4) + 4 + 1 +
        (if bytes.getD (4 + u32OfBytes (bytes.take 4) + 4) 0 ≠ 0 then 12 else 0) ∧
      size ≤ bytes.length := by
  unfold specRecordShape at h
  simp only at h
  split_ifs at h with h1 h2 h3 h4 h5
  · simp only [RecordShape.whole.injEq] at h
    subst h
    refine ⟨h2, ?_, by omega⟩
    rw [if_pos h4]
  · simp only [RecordShape.whole.injEq] at h
    subst h
    refine ⟨h2, ?_, by omega⟩
    rw [if_neg h4]

theorem specRecordShape_cut {bytes : List Nat} (h : specRecordShape bytes = .cut) :
    bytes.length < 4 ∨
      (u32OfBytes (bytes.take 4) ≠ 0 ∧
        bytes.length < 4 + u32OfBytes (bytes.take 4) + 4 + 1 +
          (if bytes.getD (4 + u32OfBytes (bytes.take 4) + 4) 0 ≠ 0 then 12 else 0)) := by
  unfold specRecordShape at h
  simp only at h
  split_ifs at h with h1 h2 h3 h4 h5
  · exact Or.inl h1
  · right
    refine ⟨h2, ?_⟩
    split_ifs <;> omega
  · right
    refine ⟨h2, ?_⟩
    rw [if_pos h4]
    omega

theorem readItems_zeroId (n : Nat) (bytes : List Nat) (x : DataStructure)
    (h : specRecordShape bytes = .zeroId) :
    readItems (n + 1) ⟨bytes, true⟩ x = .error .corruptIdLength := by
  obtain ⟨h4, h0⟩ := specRecordShape_zeroId h
  rw [readItems]
  simp [IStream.read_good bytes 4 h4, h0]

theorem readItems_whole (n : Nat) (bytes : List Nat) (x : DataStructure) (size : Nat)
    (h : specRecordShape bytes = .whole size) :
    readItems (n + 1) ⟨bytes, true⟩ x =
      if 4294967295 ≤ u32OfBytes (bytes.take 4) then .error .idBufferOverrun
      else
        match (x.operatorPlusEq (some (specDecode bytes))).thrown with
        | some e => .error e
        | none => readItems n ⟨bytes.drop size, true⟩
            (x.operatorPlusEq (some (specDecode bytes))).state := by
  obtain ⟨h0, hsize, hlen⟩ := specRecordShape_whole h
  have h4 : 4 ≤ bytes.length := by omega
  have h5 : u32OfBytes (bytes.take 4) ≤ (bytes.drop 4).length := by
    rw [List.length_drop]; omega
  have h6 : 4 ≤ ((bytes.drop 4).drop (u32OfBytes (bytes.take 4))).length := by
    rw [List.length_drop, List.length_drop]; omega
  have h7 : 1 ≤ (((bytes.drop 4).drop (u32OfBytes (bytes.take 4))).drop 4).length := by
    rw [List.length_drop, List.length_drop, List.length_drop]; omega
  have hflag : ((((bytes.drop 4).drop (u32OfBytes (bytes.take 4))).drop 4).take 1).getD 0 0 =
      bytes.getD (4 + u32OfBytes (bytes.take 4) + 4) 0 := by
    simp only [List.drop_drop, List.getD_eq_getElem?_getD, List.getElem?_take, List.getElem?_drop]
    simp
  have hcond : ((u32OfBytes (bytes.take 4) + 1) % 4294967296 <
      u32OfBytes (bytes.take 4) + 1) ↔ 4294967295 ≤ u32OfBytes (bytes.take 4) := by
    constructor
    · intro hlt
      by_contra hsmall
      rw [Nat.mod_eq_of_lt (by omega)] at hlt
      exact Nat.lt_irrefl _ hlt
    · intro hbig
      exact Nat.lt_of_lt_of_le (Nat.mod_lt _ (by norm_num)) (by omega)
  rw [readItems]
  simp only [IStream.read_good bytes 4 h4, IStream.read_good (bytes.drop 4) _ h5,
    IStream.read_good _ 4 h6, IStream.read_good _ 1 h7, hflag]
  by_cases hf : bytes.getD (4 + u32OfBytes (bytes.take 4) + 4) 0 = 0
  · have hsz : size = 4 + u32OfBytes (bytes.take 4) + 4 + 1 := by
      rw [hsize, if_neg (by simpa using hf)]
    have hdata : List.drop 1 (List.drop 4 (List.drop (u32OfBytes (List.take 4 bytes))
        (List.drop 4 bytes))) = bytes.drop size := by
      rw [hsz]
      simp only [List.drop_drop]
    have hcode : List.take 4 (List.drop (u32OfBytes (List.take 4 bytes)) (List.drop 4 bytes)) =
        (bytes.drop (4 + u32OfBytes (bytes.take 4))).take 4 := by
      simp only [List.drop_drop]
    simp only [hdata, hcode, hf, ne_eq, not_true_eq_false, if_false, Option.getD_some,
      Bool.true_eq_false, false_or, h0, hcond, if_false, specDecode]
  · have hsz : size = 4 + u32OfBytes (bytes.take 4) + 4 + 1 + 12 := by
      rw [hsize, if_pos hf]
    have h8 : sizeofTIME ≤ (List.drop 1 (List.drop 4 (List.drop (u32OfBytes (List.take 4 bytes))
        (List.drop 4 bytes)))).length := by
      simp only [List.length_drop, sizeofTIME]; omega
    have hdata : List.drop sizeofTIME (List.drop 1 (List.drop 4
        (List.drop (u32OfBytes (List.take 4 bytes)) (List.drop 4 bytes)))) = bytes.drop size := by
      rw [hsz]
      simp only [List.drop_drop, sizeofTIME]
    have htime : List.take sizeofTIME (List.drop 1 (List.drop 4
        (List.drop (u32OfBytes (List.take 4 bytes)) (List.drop 4 bytes)))) =
        (bytes.drop (4 + u32OfBytes (bytes.take 4) + 4 + 1)).take 12 := by
      simp only [List.drop_drop, sizeofTIME]
    have hcode : List.take 4 (List.drop (u32OfBytes (List.take 4 bytes)) (List.drop 4 bytes)) =
        (bytes.drop (4 + u32OfBytes (bytes.take 4))).take 4 := by
      simp only [List.drop_drop]
    simp only [IStream.read_good _ _ h8, hdata, htime, hcode, hf, ne_eq, not_false_eq_true,
      if_true, Option.getD_some, Bool.true_eq_false, false_or, h0, hcond, if_false, specDecode]

theorem readItems_cut (n : Nat) (bytes : List Nat) (x : DataStructure)
    (h : specRecordShape bytes = .cut) :
    ∃ e, readItems (n + 1) ⟨bytes, true⟩ x = .error e ∧ e.kind = ErrorClass.CorruptFile := by
  rcases specRecordShape_cut h with h4 | ⟨h0, hlen⟩
  · refine ⟨.corruptIdLength, ?_, rfl⟩
    rw [readItems]
    simp [IStream.read_short bytes 4 h4]
  · by_cases h4 : bytes.length < 4
    · refine ⟨.corruptIdLength, ?_, rfl⟩
      rw [readItems]
      simp [IStream.read_short bytes 4 h4]
    · have h4' : 4 ≤ bytes.length := by omega
      refine ⟨.corruptItem, ?_, rfl⟩
      rw [readItems]
      simp only [IStream.read_good bytes 4 h4']
      by_cases h5 : u32OfBytes (bytes.take 4) ≤ (bytes.drop 4).length
      · simp only [IStream.read_good (bytes.drop 4) _ h5]
        by_cases h6 : 4 ≤ ((bytes.drop 4).drop (u32OfBytes (bytes.take 4))).length
        · simp only [IStream.read_good _ 4 h6]
          by_cases h7 : 1 ≤ (((bytes.drop 4).drop (u32OfBytes (bytes.take 4))).drop 4).length
          · have hflag : ((((bytes.drop 4).drop (u32OfBytes (bytes.take 4))).drop 4).take 1).getD
                0 0 = bytes.getD (4 + u32OfBytes (bytes.take 4) + 4) 0 := by
              simp only [List.drop_drop, List.getD_eq_getElem?_getD, List.getElem?_take,
                List.getElem?_drop]
              simp
            simp only [IStream.read_good _ 1 h7, hflag]
            simp only [List.length_drop] at h5 h6 h7
            by_cases hf : bytes.getD (4 + u32OfBytes (bytes.take 4) + 4) 0 = 0
            · rw [if_neg (by simpa using hf)] at hlen
              omega
            · rw [if_pos hf] at hlen
              have h8 : (List.drop 1 (List.drop 4 (List.drop (u32OfBytes (List.take 4 bytes))
                  (List.drop 4 bytes)))).length < sizeofTIME := by
                simp only [List.length_drop, sizeofTIME]; omega
              simp only [ne_eq, hf, not_false_eq_true, if_true, IStream.read_short _ _ h8]
              simp [h0]
          · simp only [IStream.read_short _ 1 (Nat.not_le.1 h7), IStream.read_failed]
            simp [h0]
        · simp only [IStream.read_short _ 4 (Nat.not_le.1 h6), IStream.read_failed]
          simp [h0]
      · simp only [IStream.read_short _ _ (Nat.not_le.1 h5), IStream.read_failed]
        simp [h0]

/-! ## Reading defective files -/

theorem operatorPlusEq_thrown_kind {x : DataStructure} {p : Option ITEM2} {e : Error}
    (h : (x.operatorPlusEq p).thrown = some e) :
    e.kind = ErrorClass.InvalidIdentifier ∨ e.kind = ErrorClass.DuplicateIdentifier := by
  unfold DataStructure.operatorPlusEq at h
  split at h
  · simp only [Option.some.injEq] at h
    subst h; exact Or.inl rfl
  · split at h
    · rename_i e' hp
      simp only [Option.some.injEq] at h
      subst h
      exact Or.inl (parseID_error_kind hp)
    · split at h
      · simp only [Option.some.injEq] at h
        subst h; exact Or.inr rfl
      · split at h
        · simp only [Option.some.injEq] at h
          subst h; exact Or.inl rfl
        · simp at h

/-- Reading `n` records from bytes of which one is defective never succeeds.  When no
complete record before the defective one is oversized, the loop stops with a corrupt-file
error at the defective record if `operator+=` accepts all the records before it, and with
the exception of the first rejected `operator+=` otherwise. -/
theorem readItems_defective (n : Nat) (bytes : List Nat) (x : DataStructure)
    (hd : specDefective n bytes = true) :
    (∃ e, readItems n ⟨bytes, true⟩ x = .error e) ∧
      (specOversized n bytes = false →
        (insertAllOk x (specRecordsBefore n bytes) = true →
          ∃ e, readItems n ⟨bytes, true⟩ x = .error e ∧ e.kind = ErrorClass.CorruptFile) ∧
        (insertAllOk x (specRecordsBefore n bytes) = false →
          ∃ e, readItems n ⟨bytes, true⟩ x = .error e ∧
            (e.kind = ErrorClass.InvalidIdentifier ∨
              e.kind = ErrorClass.DuplicateIdentifier))) := by
  induction n generalizing bytes x with
  | zero => simp [specDefective] at hd
  | succ n ih =>
    cases hs : specRecordShape bytes with
    | zeroId =>
      refine ⟨⟨_, readItems_zeroId n bytes x hs⟩, fun _ =>
        ⟨fun _ => ⟨_, readItems_zeroId n bytes x hs, rfl⟩, ?_⟩⟩
      intro h
      simp [specRecordsBefore, hs, insertAllOk] at h
    | cut =>
      obtain ⟨e, he, hk⟩ := readItems_cut n bytes x hs
      refine ⟨⟨e, he⟩, fun _ => ⟨fun _ => ⟨e, he, hk⟩, ?_⟩⟩
      intro h
      simp [specRecordsBefore, hs, insertAllOk] at h
    | whole size =>
      have hd' : specDefective n (bytes.drop size) = true := by
        simpa [specDefective, hs] using hd
      have hrec : specRecordsBefore (n + 1) bytes =
          specDecode bytes :: specRecordsBefore n (bytes.drop size) := by
        simp [specRecordsBefore, hs]
      rw [hrec, readItems_whole n bytes x size hs]
      by_cases hbig : 4294967295 ≤ u32OfBytes (bytes.take 4)
      · rw [if_pos hbig]
        refine ⟨⟨_, rfl⟩, ?_⟩
        intro hov
        simp [specOversized, hs, hbig] at hov
      · rw [if_neg hbig]
        have hov' : specOversized (n + 1) bytes = false →
            specOversized n (bytes.drop size) = false := by
          intro hov
          simpa [specOversized, hs, hbig] using hov
        cases ht : (x.operatorPlusEq (some (specDecode bytes))).thrown with
        | some e =>
          refine ⟨⟨e, rfl⟩, fun _ => ⟨?_, fun _ => ⟨e, rfl, operatorPlusEq_thrown_kind ht⟩⟩⟩
          intro h
          simp [insertAllOk, ht] at h
        | none =>
          obtain ⟨ih0, ih12⟩ := ih (bytes.drop size)
            (x.operatorPlusEq (some (specDecode bytes))).state hd'
          refine ⟨ih0, fun hov => ⟨?_, ?_⟩⟩
          · intro h
            simp only [insertAllOk, ht, Option.isNone_none, Bool.true_and] at h
            exact (ih12 (hov' hov)).1 h
          · intro h
            simp only [insertAllOk, ht, Option.isNone_none, Bool.true_and] at h
            exact (ih12 (hov' hov)).2 h

theorem read_of_header (f : List Nat) (h : 12 ≤ f.length) :
    DataStructure.read f =
      if u32OfBytes (f.take 4) ≠ 0x53324453 ∨ u32OfBytes ((f.drop 4).take 4) ≠ 1 then
        .error .invalidFileFormat
      else readItems (u32OfBytes ((f.drop 8).take 4)) ⟨f.drop 12, true⟩ DataStructure.empty := by
  have e1 : (f.take 12).take 4 = f.take 4 := by
    rw [List.take_take]; simp
  have e2 : ((f.take 12).drop 4).take 4 = (f.drop 4).take 4 := by
    rw [List.drop_take, List.take_take]; simp
  have e3 : ((f.take 12).drop 8).take 4 = (f.drop 8).take 4 := by
    rw [List.drop_take, List.take_take]; simp
  unfold DataStructure.read
  simp only [IStream.read_good f 12 h, Option.getD_some, e1, e2, e3]
  simp

theorem read_short_header (f : List Nat) (h : f.length < 12) :
    DataStructure.read f = .error .invalidFileFormat := by
  unfold DataStructure.read
  simp only [IStream.read_short f 12 h]
  simp

/-- C16 (counterexample): a file with a good header announcing two records, the first
being the one-word id "Alice" and the second having `idLength` 0, is not rejected as a
corrupt file: the reading constructor hands "Alice" to `operator+=` first, which throws
"ID must contain two words separated by space" (class InvalidIdentifier), and the record
with `idLength` 0 is never looked at.  The same happens when the file ends right after the
first record. -/
theorem C16_counterexample :
    specDefective 2 (fileAliceThenZero.drop 12) = true ∧
      specRecordShape (fileAliceThenZero.drop 26) = RecordShape.zeroId ∧
      DataStructure.read fileAliceThenZero = .error Error.idNotTwoWords ∧
      specDefective 2 ((fileAliceThenZero.take 26).drop 12) = true ∧
      specRecordShape ((fileAliceThenZero.take 26).drop 26) = RecordShape.cut ∧
      DataStructure.read (fileAliceThenZero.take 26) = .error Error.idNotTwoWords ∧
      Error.idNotTwoWords.kind ≠ ErrorClass.CorruptFile :=
  ⟨by decide, by decide, rfl, by decide, by decide, rfl, by decide⟩

/-- C16 (amended): for every byte sequence `f`, reading fails with "Invalid file format"
(class CorruptFile) when `f` is shorter than the 12-byte header, when its magic is not
`0x53324453` or when its version is not 1.  With a good header, when one of the `count`
records has `idLength` 0 or `f` ends before the last of them is complete, reading never
yields an object; when moreover no complete record before the defective one has an
`idLength` of `2^32 - 1` or more (for which the reader overruns its id buffer), it fails
with an error of class CorruptFile if `operator+=` accepts every record that stands before
the defective one, and otherwise with the exception of the first `operator+=` that rejects
a record (class InvalidIdentifier or DuplicateIdentifier).
Reading a file with a good header whose count is 0 succeeds and yields the empty object,
whose `GetItemsNumber` is 0. -/
theorem C16_read_validation (f : List Nat) :
    (f.length < 12 → DataStructure.read f = .error Error.invalidFileFormat) ∧
      (u32OfBytes (f.take 4) ≠ 0x53324453 →
        DataStructure.read f = .error Error.invalidFileFormat) ∧
      (u32OfBytes ((f.drop 4).take 4) ≠ 1 →
        DataStructure.read f = .error Error.invalidFileFormat) ∧
      Error.invalidFileFormat.kind = ErrorClass.CorruptFile ∧
      (12 ≤ f.length → u32OfBytes (f.take 4) = 0x53324453 →
        u32OfBytes ((f.drop 4).take 4) = 1 →
        specDefective (u32OfBytes ((f.drop 8).take 4)) (f.drop 12) = true →
        (∃ e, DataStructure.read f = .error e) ∧
          (specOversized (u32OfBytes ((f.drop 8).take 4)) (f.drop 12) = false →
            (insertAllOk DataStructure.empty
                (specRecordsBefore (u32OfBytes ((f.drop 8).take 4)) (f.drop 12)) = true →
              ∃ e, DataStructure.read f = .error e ∧ e.kind = ErrorClass.CorruptFile) ∧
            (insertAllOk DataStructure.empty
                (specRecordsBefore (u32OfBytes ((f.drop 8).take 4)) (f.drop 12)) = false →
              ∃ e, DataStructure.read f = .error e ∧
                (e.kind = ErrorClass.InvalidIdentifier ∨
                  e.kind = ErrorClass.DuplicateIdentifier)))) ∧
      (12 ≤ f.length → u32OfBytes (f.take 4) = 0x53324453 →
        u32OfBytes ((f.drop 4).take 4) = 1 → u32OfBytes ((f.drop 8).take 4) = 0 →
        DataStructure.read f = .ok DataStructure.empty ∧
          DataStructure.empty.GetItemsNumber = 0) := by
  refine ⟨read_short_header f, ?_, ?_, rfl, ?_, ?_⟩
  · intro hm
    by_cases h : 12 ≤ f.length
    · rw [read_of_header f h, if_pos (Or.inl hm)]
    · exact read_short_header f (by omega)
  · intro hv
    by_cases h : 12 ≤ f.length
    · rw [read_of_header f h, if_pos (Or.inr hv)]
    · exact read_short_header f (by omega)
  · intro h hm hv hd
    rw [read_of_header f h, if_neg (by simp [hm, hv])]
    exact readItems_defective _ _ _ hd
  · intro h hm hv hc
    rw [read_of_header f h, if_neg (by simp [hm, hv]), hc]
    exact ⟨rfl, rfl⟩

/-- C16 (amended) at a concrete input: a file announcing one record that ends in the
middle of the id. -/
theorem C16_read_validation_witness :
    ∃ e, DataStructure.read fileCutShort = .error e ∧ e.kind = ErrorClass.CorruptFile :=
  (((C16_read_validation fileCutShort).2.2.2.2.1 (by decide) (by decide) (by decide)
    (by decide)).2 (by decide)).1 (by decide)

/-! ## The records a bucket holds, read off the traversal -/

theorem Placed.slot_eq {c i : Nat} {r : ITEM2} (h : Placed c i r) : r.slot = some (c, i) := by
  obtain ⟨s, c2, h1, h2, h3⟩ := h
  unfold ITEM2.slot
  rw [h1, h2]
  simp only [h3, Option.map_some']

theorem flatten_map_nil {α : Type} (l : List α) (F : α → List ITEM2) (h : ∀ a ∈ l, F a = []) :
    (l.map F).flatten = [] := by
  induction l with
  | nil => rfl
  | cons a l ih =>
    rw [List.map_cons, List.flatten_cons, h a (List.mem_cons_self _ _),
      ih fun b hb => h b (List.mem_cons_of_mem _ hb)]
    rfl

theorem flatten_single (M : List (List ITEM2)) (k : Nat)
    (h : ∀ j, j ≠ k → M.getD j [] = []) : M.flatten = M.getD k [] := by
  induction M generalizing k with
  | nil => simp
  | cons m M ih =>
    cases k with
    | zero =>
      have hM : ∀ l ∈ M, l = [] :=
        (all_nil_iff_getD M).2 fun j => by simpa using h (j + 1) (by omega)
      have : M.flatten = [] := by
        have := flatten_map_nil M id (fun a ha => hM a ha)
        simpa using this
      simp [this]
    | succ k =>
      have hm : m = [] := by simpa using h 0 (by omega)
      have := ih k fun j hj => by simpa using h (j + 1) (by omega)
      simp [hm, this]

theorem getD_map_filter (L : List (List ITEM2)) (p : ITEM2 → Bool) (j : Nat) :
    (L.map (List.filter p)).getD j [] = (L.getD j []).filter p := by
  have := List.getD_map L [] (n := j) (List.filter p)
  simpa using this

/-- The records of a well-placed header that select the place `(c, i)` are its bucket `i`
when its `cBegin` is `c`, and none otherwise. -/
theorem header_items_filter {g : HEADER_C} (hg : ∀ j, ∀ r ∈ g.bucket j, Placed g.cBegin j r)
    (c i : Nat) :
    g.items.filter (fun r => decide (r.slot = some (c, i))) =
      if g.cBegin = c then g.bucket i else [] := by
  unfold HEADER_C.items
  rw [List.filter_flatten, flatten_single _ i, getD_map_filter]
  · change List.filter _ (g.bucket i) = _
    by_cases hc : g.cBegin = c
    · rw [if_pos hc, List.filter_eq_self]
      intro r hr
      simp [(hg i r hr).slot_eq, hc]
    · rw [if_neg hc, List.filter_eq_nil_iff]
      intro r hr
      simp [(hg i r hr).slot_eq, hc]
  · intro j hj
    rw [getD_map_filter]
    change List.filter _ (g.bucket j) = _
    rw [List.filter_eq_nil_iff]
    intro r hr
    simp [(hg j r hr).slot_eq, hj]

/-- Under the invariant, the records of the traversal that select the place `(c, i)` are,
in the same order, the bucket a lookup of that place scans. -/
theorem RepInv.items_filter {x : DataStructure} (hx : RepInv x) (c i : Nat) :
    x.items.filter (fun r => decide (r.slot = some (c, i))) = x.bucketAt c i := by
  have hF : ∀ g ∈ x.pStruct2, g.items.filter (fun r => decide (r.slot = some (c, i))) =
      if g.cBegin = c then g.bucket i else [] :=
    fun g hg => header_items_filter (hx.placed g hg) c i
  unfold DataStructure.items
  rw [List.filter_flatten, List.map_map]
  by_cases hex : ∃ g ∈ x.pStruct2, g.cBegin = c
  · obtain ⟨g, hg, hgc⟩ := hex
    subst hgc
    obtain ⟨pre, post, hsplit⟩ := List.append_of_mem hg
    have hs := hx.sorted
    rw [hsplit] at hs
    have hothers := sorted_mid_absent hs
    have hnil : ∀ l : List HEADER_C, (∀ a ∈ l, a ∈ pre ∨ a ∈ post) →
        (l.map (List.filter (fun r => decide (r.slot = some (g.cBegin, i))) ∘
          HEADER_C.items)).flatten = [] := by
      intro l hl
      apply flatten_map_nil
      intro a ha
      simp only [Function.comp]
      rw [hF a (by rw [hsplit]; rcases hl a ha with h | h
                   · exact List.mem_append_left _ h
                   · exact List.mem_append_right _ (List.mem_cons_of_mem _ h))]
      rw [if_neg]
      exact hothers a (hl a ha)
    rw [bucketAt_of_mem hx.sorted hg i]
    rw [hsplit, List.map_append, List.map_cons, List.flatten_append, List.flatten_cons,
      hnil pre (fun a ha => Or.inl ha), hnil post (fun a ha => Or.inr ha)]
    simp only [Function.comp, List.nil_append, List.append_nil]
    rw [hF g hg, if_pos rfl]
  · have habs : ∀ g ∈ x.pStruct2, g.cBegin ≠ c := fun g hg hgc => hex ⟨g, hg, hgc⟩
    rw [bucketAt_of_absent habs i]
    apply flatten_map_nil
    intro a ha
    simp only [Function.comp]
    rw [hF a ha, if_neg (habs a ha)]

/-! ## An object is determined by its buckets -/

theorem list_ext_getD (l1 l2 : List (List ITEM2)) (hlen : l1.length = l2.length)
    (h : ∀ i, l1.getD i [] = l2.getD i []) : l1 = l2 := by
  apply List.ext_getElem hlen
  intro n h1 h2
  have := h n
  rw [List.getD_eq_getElem _ _ h1, List.getD_eq_getElem _ _ h2] at this
  exact this

theorem header_ext {g1 g2 : HEADER_C} (hc : g1.cBegin = g2.cBegin)
    (hb : ∀ i, g1.bucket i = g2.bucket i) : g1 = g2 := by
  cases g1 with
  | mk c1 p1 a1 =>
    cases g2 with
    | mk c2 p2 a2 =>
      simp only at hc
      subst hc
      have : p1 = p2 := list_ext_getD p1 p2 (a1.trans a2.symm) hb
      subst this
      rfl

theorem exists_bucket_of_not_empty {g : HEADER_C} (h : g.isHeaderEmpty = false) :
    ∃ i, g.bucket i ≠ [] := by
  by_contra hno
  have hall : ∀ i, i < ALPHA → g.bucket i = [] := by
    intro i _
    by_contra hi
    exact hno ⟨i, hi⟩
  have := (g.isHeaderEmpty_iff).2 hall
  rw [h] at this
  simp at this

theorem headers_subset {a b : DataStructure} (ha : RepInv a) (hb : RepInv b)
    (hna : NoEmptyHeader a)
    (h : ∀ c i, a.bucketAt c i = b.bucketAt c i) : ∀ g ∈ a.pStruct2, g ∈ b.pStruct2 := by
  intro g hg
  obtain ⟨i, hi⟩ := exists_bucket_of_not_empty (hna g hg)
  have h1 : a.bucketAt g.cBegin i = g.bucket i := bucketAt_of_mem ha.sorted hg i
  have hex : ∃ g' ∈ b.pStruct2, g'.cBegin = g.cBegin := by
    by_contra hno
    have habs : ∀ g' ∈ b.pStruct2, g'.cBegin ≠ g.cBegin := fun g' hg' hc => hno ⟨g', hg', hc⟩
    have := bucketAt_of_absent habs i
    rw [← h, h1] at this
    exact hi this
  obtain ⟨g', hg', hc⟩ := hex
  have : g' = g := by
    apply header_ext hc
    intro j
    rw [← bucketAt_of_mem hb.sorted hg' j, hc, ← h, bucketAt_of_mem ha.sorted hg j]
  rw [← this]
  exact hg'

/-- Two objects that satisfy the invariant and have no empty header are the same object
as soon as a lookup scans the same bucket in both for every place. -/
theorem ext_of_bucketAt {a b : DataStructure} (ha : RepInv a) (hb : RepInv b)
    (hna : NoEmptyHeader a) (hnb : NoEmptyHeader b)
    (h : ∀ c i, a.bucketAt c i = b.bucketAt c i) : a = b := by
  have hab := headers_subset ha hb hna h
  have hba := headers_subset hb ha hnb fun c i => (h c i).symm
  have hnodup : ∀ x : DataStructure, RepInv x → x.pStruct2.Nodup := by
    intro x hx
    exact hx.sorted.imp fun {p q} hpq hne => by rw [hne] at hpq; omega
  have hperm : a.pStruct2.Perm b.pStruct2 :=
    (List.perm_ext_iff_of_nodup (hnodup a ha) (hnodup b hb)).2
      fun g => ⟨hab g, hba g⟩
  haveI : IsAntisymm HEADER_C fun p q => charValue p.cBegin < charValue q.cBegin :=
    ⟨fun p q h1 h2 => by omega⟩
  have := List.eq_of_perm_of_sorted hperm ha.sorted hb.sorted
  cases a; cases b
  simp only at this
  rw [this]

/-! ## The mirror image of an object -/

theorem HEADER_C.bucket_reversed (g : HEADER_C) (i : Nat) :
    g.reversed.bucket i = (g.bucket i).reverse := by
  unfold HEADER_C.bucket HEADER_C.reversed
  have := List.getD_map g.ppItems [] (n := i) List.reverse
  simpa using this

theorem HEADER_C.isHeaderEmpty_reversed (g : HEADER_C) :
    g.reversed.isHeaderEmpty = g.isHeaderEmpty := by
  unfold HEADER_C.isHeaderEmpty HEADER_C.reversed
  simp only [List.all_map]
  congr 1
  funext l
  cases l <;> simp

theorem HEADER_C.reversed_twice (g : HEADER_C) : g.reversed.reversed = g := by
  refine @header_ext g.reversed.reversed g rfl ?_
  intro i
  rw [HEADER_C.bucket_reversed, HEADER_C.bucket_reversed, List.reverse_reverse]

theorem DataStructure.reversed_involutive (x : DataStructure) : x.reversed.reversed = x := by
  cases x with
  | mk head =>
    simp only [DataStructure.reversed, List.map_map, DataStructure.mk.injEq]
    rw [show HEADER_C.reversed ∘ HEADER_C.reversed = id from
      funext fun g => HEADER_C.reversed_twice g]
    exact List.map_id head

theorem flatten_map_reverse_perm (L : List (List ITEM2)) :
    (L.map List.reverse).flatten.Perm L.flatten := by
  induction L with
  | nil => exact List.Perm.refl _
  | cons l L ih =>
    simp only [List.map_cons, List.flatten_cons]
    exact List.Perm.append (List.reverse_perm l) ih

theorem DataStructure.items_reversed_perm (x : DataStructure) :
    x.reversed.items.Perm x.items := by
  cases x with
  | mk head =>
    unfold DataStructure.items DataStructure.reversed
    simp only
    induction head with
    | nil => exact List.Perm.refl _
    | cons g head ih =>
      simp only [List.map_cons, List.flatten_cons]
      exact List.Perm.append (flatten_map_reverse_perm g.ppItems) ih

theorem NoEmptyHeader.mirror_ok {x : DataStructure} (h : NoEmptyHeader x) :
    NoEmptyHeader x.reversed := by
  intro g hg
  obtain ⟨g0, hg0, rfl⟩ := List.mem_map.1 hg
  rw [HEADER_C.isHeaderEmpty_reversed]
  exact h g0 hg0

theorem RepInv.mirror {x : DataStructure} (hx : RepInv x) : RepInv x.reversed := by
  refine ⟨?_, ?_, ?_⟩
  · unfold DataStructure.reversed
    simp only
    rw [List.pairwise_map]
    exact hx.sorted
  · intro g hg i r hr
    obtain ⟨g0, hg0, rfl⟩ := List.mem_map.1 hg
    rw [HEADER_C.bucket_reversed, List.mem_reverse] at hr
    exact hx.placed g0 hg0 i r hr
  · exact ((x.items_reversed_perm.map ITEM2.pID).nodup_iff).2 hx.unique

theorem RepInv.bucketAt_reversed {x : DataStructure} (hx : RepInv x) (c i : Nat) :
    x.reversed.bucketAt c i = (x.bucketAt c i).reverse := by
  by_cases hex : ∃ g ∈ x.pStruct2, g.cBegin = c
  · obtain ⟨g, hg, hgc⟩ := hex
    subst hgc
    have hg' : g.reversed ∈ x.reversed.pStruct2 := List.mem_map.2 ⟨g, hg, rfl⟩
    have := bucketAt_of_mem hx.mirror.sorted hg' i
    rw [bucketAt_of_mem hx.sorted hg i, ← HEADER_C.bucket_reversed]
    exact this
  · have habs : ∀ g ∈ x.pStruct2, g.cBegin ≠ c := fun g hg hgc => hex ⟨g, hg, hgc⟩
    rw [bucketAt_of_absent habs i]
    apply bucketAt_of_absent
    intro g hg
    obtain ⟨g0, hg0, rfl⟩ := List.mem_map.1 hg
    exact habs g0 hg0

/-! ## Successful calls leave no empty header -/

theorem not_empty_of_bucket {g : HEADER_C} {b : Nat} (hb : b < ALPHA) (h : g.bucket b ≠ []) :
    g.isHeaderEmpty = false := by
  cases he : g.isHeaderEmpty with
  | false => rfl
  | true => exact absurd ((g.isHeaderEmpty_iff).1 he b hb) h

theorem NoEmptyHeader.of_insert_ok {x : DataStructure} (hx : NoEmptyHeader x) {r : ITEM2}
    (hok : (x.operatorPlusEq (some r)).thrown = none) :
    NoEmptyHeader (x.operatorPlusEq (some r)).state := by
  rcases operatorPlusEq_cases x (some r) with ⟨_, e, he⟩ |
      ⟨_, _, _, _, _, _, _, _, _, _, _, _, _, _, h9⟩ |
      ⟨r', c1, c2, b, pre, hd, post, h1, h2, h3, h4, h5, h6, h7, h8, h9⟩
  · rw [he] at hok; simp at hok
  · rw [h9] at hok; simp at hok
  · intro g hg
    rw [h8] at hg
    have hold : ∀ g, g ∈ pre ∨ g ∈ post → g ∈ x.pStruct2 := by
      intro g hg
      rcases h7 with h7 | ⟨h7, _, _⟩
      · rw [h7]
        rcases hg with hg | hg
        · exact List.mem_append_left _ hg
        · exact List.mem_append_right _ (List.mem_cons_of_mem _ hg)
      · rw [h7]; exact List.mem_append.2 hg
    rcases List.mem_append.1 hg with hm | hm
    · exact hx g (hold g (Or.inl hm))
    · rcases List.mem_cons.1 hm with rfl | hm
      · apply not_empty_of_bucket (alphaIndex_lt h4)
        rw [HEADER_C.bucket_setBucket hd b b _ (alphaIndex_lt h4), if_pos rfl]
        simp
      · exact hx g (hold g (Or.inr hm))

theorem NoEmptyHeader.of_remove_ok {x : DataStructure} (hx : NoEmptyHeader x)
    {p : Option (List Nat)} (hok : (x.operatorMinusEq p).thrown = none) :
    NoEmptyHeader (x.operatorMinusEq p).state := by
  rcases operatorMinusEq_cases x p with ⟨_, e, he⟩ |
      ⟨s, c1, c2, b, pre, hd, post, remaining, h1, h2, h3, h4, h5, h6, h7, h8, h9⟩
  · rw [he] at hok; simp at hok
  · intro g hg
    rw [h8] at hg
    have hold : ∀ g, g ∈ pre ∨ g ∈ post → g ∈ x.pStruct2 := by
      intro g hg
      rw [h4]
      rcases hg with hg | hg
      · exact List.mem_append_left _ hg
      · exact List.mem_append_right _ (List.mem_cons_of_mem _ hg)
    by_cases hE : (hd.setBucket b remaining).isHeaderEmpty = true
    · rw [if_pos hE] at hg
      exact hx g (hold g (List.mem_append.1 hg))
    · rw [if_neg hE] at hg
      rcases List.mem_append.1 hg with hm | hm
      · exact hx g (hold g (Or.inl hm))
      · rcases List.mem_cons.1 hm with rfl | hm
        · simpa using hE
        · exact hx g (hold g (Or.inr hm))

theorem ReachableOk.reachable {x : DataStructure} (h : ReachableOk x) : Reachable x := by
  induction h with
  | empty => exact Reachable.empty
  | insert r _ _ ih => exact Reachable.insert _ ih
  | remove p _ _ ih => exact Reachable.remove _ ih

theorem ReachableOk.noEmptyHeader {x : DataStructure} (h : ReachableOk x) :
    NoEmptyHeader x := by
  induction h with
  | empty => intro g hg; simp [DataStructure.empty] at hg
  | insert r _ hok ih => exact ih.of_insert_ok hok
  | remove p _ hok ih => exact ih.of_remove_ok hok

/-! ## Reading back what `Write` wrote, as a structure -/

/-- Reading back the bytes of a list of records that can all be inserted is the run of
`operator+=` over the list. -/
theorem readItems_written_eq (L : List ITEM2) (rest : List Nat) (y0 : DataStructure)
    (hy0 : RepInv y0) (hrep : ∀ r ∈ L, r.readable = true)
    (hplaced : ∀ r ∈ L, ∃ c1 c2 b, parseID r.pID = .ok (c1, c2) ∧ alphaIndex c2 = some b)
    (hnodup : (L.map ITEM2.pID).Nodup)
    (hfresh : ∀ r ∈ L, ∀ q ∈ y0.items, q.pID ≠ r.pID) :
    readItems L.length ⟨(L.map writeItem).flatten ++ rest, true⟩ y0 = .ok (insertAll y0 L) ∧
      insertAllOk y0 L = true := by
  induction L generalizing y0 with
  | nil => exact ⟨rfl, rfl⟩
  | cons r L ih =>
    obtain ⟨c1, c2, b, hp, ha⟩ := hplaced r (List.mem_cons_self _ _)
    have hne : r.pID ≠ some [] := by
      intro h
      rw [h] at hp
      exact parseID_nil_ne_ok _ hp
    have hg : y0.GetItem r.pID = none :=
      hy0.GetItem_eq_none_iff.2 (hfresh r (List.mem_cons_self _ _))
    have hok := operatorPlusEq_succeeds hp hg ha
    obtain ⟨r', _, _, _, L1, L2, e1, _, _, _, e5, e6⟩ := operatorPlusEq_items_of_ok hok
    have : r' = r := (Option.some.inj e1).symm
    subst this
    have hmem : ∀ q, q ∈ (y0.operatorPlusEq (some r')).state.items ↔ q = r' ∨ q ∈ y0.items := by
      intro q
      rw [e6, e5]
      simp only [List.mem_append, List.mem_cons]
      tauto
    rw [List.map_cons, List.nodup_cons] at hnodup
    obtain ⟨h1, h2⟩ := ih (y0.operatorPlusEq (some r')).state (hy0.after_insert _)
      (fun q hq => hrep q (List.mem_cons_of_mem _ hq))
      (fun q hq => hplaced q (List.mem_cons_of_mem _ hq)) hnodup.2
      (by
        intro q hq q' hq' hid
        rcases (hmem q').1 hq' with h | h
        · subst h
          exact hnodup.1 (by rw [hid]; exact List.mem_map_of_mem _ hq)
        · exact hfresh q (List.mem_cons_of_mem _ hq) q' h hid)
    constructor
    · simp only [List.map_cons, List.flatten_cons, List.length_cons, List.append_assoc]
      rw [readItems_writeItem L.length r' _ y0 (hrep r' (List.mem_cons_self _ _)) hne]
      simp only [hok, insertAll]
      exact h1
    · simp only [insertAllOk, hok, Option.isNone_none, Bool.true_and]
      exact h2

theorem NoEmptyHeader.insertAll_ok {x : DataStructure} (hx : NoEmptyHeader x) (L : List ITEM2)
    (hok : insertAllOk x L = true) : NoEmptyHeader (insertAll x L) := by
  induction L generalizing x with
  | nil => exact hx
  | cons r L ih =>
    simp only [insertAllOk, Bool.and_eq_true, Option.isNone_iff_eq_none] at hok
    exact ih (hx.of_insert_ok hok.1) hok.2

/-- For an object that satisfies the invariant, has no empty header, is not empty, holds
fewer than `2^32` records, all readable: `Write` succeeds and the reading constructor
rebuilds from its bytes the mirror image of the object. -/
theorem read_write_eq_reversed {x : DataStructure} (hinv : RepInv x) (hno : NoEmptyHeader x)
    (hne : x.GetItemsNumber ≠ 0) (hcount : x.GetItemsNumber < 4294967296)
    (hrep : ∀ r ∈ x.items, r.readable = true) :
    x.Write = .ok (u32Bytes 0x53324453 ++ u32Bytes 1 ++ u32Bytes x.GetItemsNumber ++
        (x.items.map writeItem).flatten) ∧
      DataStructure.read (u32Bytes 0x53324453 ++ u32Bytes 1 ++ u32Bytes x.GetItemsNumber ++
        (x.items.map writeItem).flatten) = .ok x.reversed := by
  have hplaced : ∀ r ∈ x.items, ∃ c1 c2 b, parseID r.pID = .ok (c1, c2) ∧
      alphaIndex c2 = some b := by
    intro r hr
    obtain ⟨h, hh, i, hi⟩ := (x.mem_items r).1 hr
    obtain ⟨s, c2, e1, e2, e3⟩ := hinv.placed h hh i r hi
    exact ⟨h.cBegin, c2, i, by rw [e1]; exact e2, e3⟩
  obtain ⟨h1, h2⟩ := readItems_written_eq x.items [] DataStructure.empty RepInv.of_empty
    hrep hplaced hinv.unique (by
      intro r _ q hq
      simp [DataStructure.empty, DataStructure.items] at hq)
  obtain ⟨h3, h4⟩ := RepInv.of_empty.bucketAt_insertAll x.items h2
  have hnoE : NoEmptyHeader DataStructure.empty := by
    intro g hg; simp [DataStructure.empty] at hg
  have heq : insertAll DataStructure.empty x.items = x.reversed := by
    apply ext_of_bucketAt h3 hinv.mirror (hnoE.insertAll_ok x.items h2) hno.mirror_ok
    intro c i
    have hE : DataStructure.empty.bucketAt c i = [] := rfl
    rw [h4 c i, hinv.items_filter c i, hinv.bucketAt_reversed c i, hE, List.append_nil]
  constructor
  · unfold DataStructure.Write
    simp only [hne, if_false]
  · rw [read_header _ _ hcount, DataStructure.GetItemsNumber_eq, ← heq]
    simpa using h1

theorem reverse_ne_of_nodup {l : List ITEM2} (hn : l.Nodup) (h2 : 2 ≤ l.length) :
    l.reverse ≠ l := by
  match l, hn, h2 with
  | a :: b :: t, hn, _ =>
    intro heq
    have h1 : (a :: b :: t).reverse.getLast? = some a := by
      rw [List.getLast?_reverse]; rfl
    rw [heq, List.getLast?_cons_cons] at h1
    have hmem : a ∈ b :: t := List.mem_of_getLast?_eq_some h1
    exact (List.nodup_cons.1 hn).1 hmem

/-- C20: for every object `x` obtained from the empty one by successful calls of
`operator+=` and `operator-=`, not empty, holding fewer than `2^32` records that the
reading constructor can take in (C-string ids of at most `2^32 - 2` bytes, so that the id
and its terminator fit the 32-bit size of the id buffer, codes that fit in 32 bits, `int`
time fields): `Write` succeeds and the reading constructor builds from its bytes an object
`y` with the same sequence of `cBegin` values whose every bucket is the reverse of the
bucket of `x` at the same place, i.e. `y` is the mirror image of `x`; writing `y` and
reading again yields `x` itself; and the bytes written for `y` differ from those written
for `x` as soon as some bucket of `x` holds two or more records. -/
theorem C20_round_trip_reverses (x : DataStructure) (hx : ReachableOk x)
    (hne : x.GetItemsNumber ≠ 0) (hcount : x.GetItemsNumber < 4294967296)
    (hrep : ∀ r ∈ x.items, r.readable = true) :
    ∃ file y, x.Write = .ok file ∧ DataStructure.read file = .ok y ∧
      y.pStruct2.map HEADER_C.cBegin = x.pStruct2.map HEADER_C.cBegin ∧
      (∀ c i, y.bucketAt c i = (x.bucketAt c i).reverse) ∧
      y = x.reversed ∧
      ∃ file2, y.Write = .ok file2 ∧ DataStructure.read file2 = .ok x ∧
        ((∃ c i, 2 ≤ (x.bucketAt c i).length) → file2 ≠ file) := by
  have hinv := hx.reachable.inv
  have hno := hx.noEmptyHeader
  have hperm := x.items_reversed_perm
  have hcnt : x.reversed.GetItemsNumber = x.GetItemsNumber := by
    rw [DataStructure.GetItemsNumber_eq, DataStructure.GetItemsNumber_eq, hperm.length_eq]
  obtain ⟨w1, r1⟩ := read_write_eq_reversed hinv hno hne hcount hrep
  obtain ⟨w2, r2⟩ := read_write_eq_reversed hinv.mirror hno.mirror_ok (by rw [hcnt]; exact hne)
    (by rw [hcnt]; exact hcount) (fun r hr => hrep r (hperm.mem_iff.1 hr))
  rw [DataStructure.reversed_involutive] at r2
  refine ⟨_, x.reversed, w1, r1, ?_, fun c i => hinv.bucketAt_reversed c i, rfl,
    _, w2, r2, ?_⟩
  · simp only [DataStructure.reversed, List.map_map]
    rfl
  · rintro ⟨c, i, h2⟩ heq
    rw [heq, r1] at r2
    have hxx : x.reversed = x := Except.ok.inj r2
    have hb := hinv.bucketAt_reversed c i
    rw [hxx] at hb
    have hnodup : (x.bucketAt c i).Nodup := by
      rw [← hinv.items_filter c i]
      exact hinv.items_nodup.filter _
    exact reverse_ne_of_nodup hnodup h2 hb.symm

/-- C20 at a concrete input: the object that holds "Alice Smith", "Bob Smith" and
"Adam Stone".  The bucket of the initials A and S holds "Adam Stone" before "Alice Smith";
after writing and reading it holds "Alice Smith" before "Adam Stone", a second round
restores the object, and the two files differ. -/
theorem C20_round_trip_reverses_witness :
    indexAliceBobAdam.bucketAt 65 18 = [recAdam, recAlice] ∧
      indexAliceBobAdam.bucketAt 66 18 = [recBob] ∧
      ∃ file y, indexAliceBobAdam.Write = .ok file ∧ DataStructure.read file = .ok y ∧
        y.pStruct2.map HEADER_C.cBegin = [65, 66] ∧
        y.bucketAt 65 18 = [recAlice, recAdam] ∧
        y.bucketAt 66 18 = [recBob] ∧
        y ≠ indexAliceBobAdam ∧
        ∃ file2, y.Write = .ok file2 ∧ DataStructure.read file2 = .ok indexAliceBobAdam ∧
          file2 ≠ file := by
  obtain ⟨file, y, h1, h2, h3, h4, h5, file2, h6, h7, h8⟩ :=
    C20_round_trip_reverses indexAliceBobAdam
      (ReachableOk.insert _
        (ReachableOk.insert _ (ReachableOk.insert _ ReachableOk.empty (by decide))
          (by decide))
        (by decide))
      (by decide) (by decide) (by decide)
  have hb : indexAliceBobAdam.bucketAt 65 18 = [recAdam, recAlice] := by decide
  refine ⟨hb, by decide, file, y, h1, h2, ?_, ?_, ?_, ?_, file2, h6, h7, ?_⟩
  · rw [h3]; decide
  · rw [h4, hb]; rfl
  · rw [h4]; decide
  · rw [h5]; decide
  · exact h8 ⟨65, 18, by rw [hb]; decide⟩
